import Mathlib

/-! # D35E item entity: directive parser, roll composer, resource ledger, buff lifecycle

A shallow embedding of `src/module/item/entity.js` (class `ItemPF`).

Conventions of the embedding.

* A JavaScript string is the list of its characters (`JsString`).  The regular
  expressions of the source carry no `u` flag and only test single characters
  against fixed ASCII / whitespace classes, so working on characters instead of
  UTF-16 code units changes no result.
* JavaScript numbers are integers (`Int`), except the ability multiplier of
  `rollDamage`, which is a rational.
* A numeric property read that can be `undefined` / `null` is a `JsNum`; a
  caller-supplied value that may also be a text is a `JsVal`.
* Calls into collaborators that are not part of the file (the `Roll`
  evaluator, `alterRoll`, the actor's `applyActionOnSelf`, persistence) are
  either parameters or recorded as effects.
-/

namespace D35E

/-- A JavaScript string, as the list of its characters. -/
abbrev JsString := List Char

/-! ## String helpers (`split`, `indexOf`) -/

/-- Worker of `jsSplit`: the first argument counts the characters of a
separator occurrence that are still to be skipped. -/
def jsSplitGo (sep : JsString) : Nat → JsString → List JsString
  | _, [] => [[]]
  | skip + 1, _ :: t => jsSplitGo sep skip t
  | 0, c :: t =>
    if sep.isPrefixOf (c :: t) then [] :: jsSplitGo sep (sep.length - 1) t
    else
      match jsSplitGo sep 0 t with
      | [] => [[c]]
      | h :: r => (c :: h) :: r

/-- The call `s.split(sep)` for a non-empty separator: the pieces between the
successive (leftmost, non-overlapping) occurrences of `sep`. -/
def jsSplit (sep s : JsString) : List JsString := jsSplitGo sep 0 s

/-- The test `s.indexOf(sep) !== -1`. -/
def jsIncludes (sep : JsString) : JsString → Bool
  | [] => sep.isPrefixOf []
  | c :: t => sep.isPrefixOf (c :: t) || jsIncludes sep t

/-! ## Character classes of the two regular expressions -/

/-- The class `[A-Za-z]`. -/
def isAsciiLetter (c : Char) : Bool :=
  (65 ≤ c.toNat && c.toNat ≤ 90) || (97 ≤ c.toNat && c.toNat ≤ 122)

/-- Line terminators, the characters `.` does not match (LF, CR, U+2028, U+2029). -/
def isLineTerminator (c : Char) : Bool :=
  c.toNat == 10 || c.toNat == 13 || c.toNat == 0x2028 || c.toNat == 0x2029

/-- The class `\s` of ECMAScript: TAB, LF, VT, FF, CR, SPACE, NBSP, U+1680,
U+2000..U+200A, U+2028, U+2029, U+202F, U+205F, U+3000, U+FEFF. -/
def isJsWhitespace (c : Char) : Bool :=
  let n := c.toNat
  (9 ≤ n && n ≤ 13) || n == 32 || n == 0xA0 || n == 0x1680 ||
  (0x2000 ≤ n && n ≤ 0x200A) || n == 0x2028 || n == 0x2029 || n == 0x202F ||
  n == 0x205F || n == 0x3000 || n == 0xFEFF

/-- The double quote character. -/
def dquote : Char := Char.ofNat 34

/-- The class `[^\s"]`. -/
def isPlain (c : Char) : Bool := !isJsWhitespace c && c != dquote

/-! ## `'([A-Za-z]+) (.*?) on (target|self)'` -/

/-- The text ` on target`. -/
def onTarget : JsString := [' ', 'o', 'n', ' ', 't', 'a', 'r', 'g', 'e', 't']
/-- The text ` on self`. -/
def onSelf : JsString := [' ', 'o', 'n', ' ', 's', 'e', 'l', 'f']
/-- The scope word `target`. -/
def targetWord : JsString := ['t', 'a', 'r', 'g', 'e', 't']
/-- The scope word `self`. -/
def selfWord : JsString := ['s', 'e', 'l', 'f']

/-- The tail `(.*?) on (target|self)` of the pattern, matched at the head of
the input: the lazy `.*?` first tries to stop, and only when neither
alternative of the scope follows does it take one more character, which must
not be a line terminator.  Returns the parameter text and the scope word. -/
def matchScope : JsString → Option (JsString × JsString)
  | [] => none
  | c :: t =>
    if onTarget.isPrefixOf (c :: t) then some ([], targetWord)
    else if onSelf.isPrefixOf (c :: t) then some ([], selfWord)
    else if isLineTerminator c then none
    else (matchScope t).map fun r => (c :: r.1, r.2)

/-- The greedy `([A-Za-z]+)` followed by a blank and the tail, at the head of
`s`: the verb takes `k` letters, `k` running from the length given (the whole
run of letters) down to one, the first length for which the rest matches wins. -/
def matchVerbLen (s : JsString) : Nat → Option (JsString × JsString × JsString)
  | 0 => none
  | k + 1 =>
    match s.drop (k + 1) with
    | c :: rest =>
      if c = ' ' then
        match matchScope rest with
        | some r => some (s.take (k + 1), r.1, r.2)
        | none => matchVerbLen s k
      else matchVerbLen s k
    | [] => matchVerbLen s k

/-- The pattern matched at the head of `s` (no start offset). -/
def matchActionAt (s : JsString) : Option (JsString × JsString × JsString) :=
  matchVerbLen s (s.takeWhile isAsciiLetter).length

/-- The call `s.match('([A-Za-z]+) (.*?) on (target|self)')`: the pattern is
not anchored, the leftmost start position that matches wins.  Returns the
capture groups 1, 2, 3, or `none` for `null`. -/
def matchAction : JsString → Option (JsString × JsString × JsString)
  | [] => none
  | c :: t =>
    match matchActionAt (c :: t) with
    | some r => some r
    | none => matchAction t

/-! ## `/(?:[^\s"]+|"[^"]*")+/g` -/

/-- The longest text at the head of the input made of repetitions of
`[^\s"]+` and `"[^"]*"`.  The flag says that an opening quote, known to be
closed further on, has been read.  A quote that is never closed ends the text. -/
def groupStar : Bool → JsString → JsString
  | _, [] => []
  | true, c :: t => c :: (if c = dquote then groupStar false t else groupStar true t)
  | false, c :: t =>
    if isPlain c then c :: groupStar false t
    else if c = dquote ∧ dquote ∈ t then c :: groupStar true t
    else []

/-- Worker of `matchTokens`: scans for successive matches, the counter being
the number of characters of the last match still to be skipped. -/
def scanTokens : Nat → JsString → List JsString
  | _, [] => []
  | skip + 1, _ :: t => scanTokens skip t
  | 0, c :: t =>
    match groupStar false (c :: t) with
    | [] => scanTokens 0 t
    | a :: tok => (a :: tok) :: scanTokens tok.length t

/-- The call `s.match(/(?:[^\s"]+|"[^"]*")+/g)`: all matches in order, or
`none` (`null`) when there is none. -/
def matchTokens (s : JsString) : Option (List JsString) :=
  match scanTokens 0 s with
  | [] => none
  | toks => some toks

/-! ## `ItemPF.parseAction` -/

/-- One parsed directive: the object pushed by `parseAction`. -/
structure ActionData where
  action : JsString
  condition : JsString
  parameters : Option (List JsString)
  target : JsString
  deriving DecidableEq, Repr

/-- The text ` if `. -/
def ifSep : JsString := [' ', 'i', 'f', ' ']

/-- The `condition` computed for one group of `parseAction`. -/
def groupCondition (group : JsString) : JsString :=
  if jsIncludes ifSep group then ((jsSplit ifSep group)[1]?).getD [] else []

/-- The `groupAction` computed for one group of `parseAction`. -/
def groupActionText (group : JsString) : JsString :=
  if jsIncludes ifSep group then ((jsSplit ifSep group)[0]?).getD [] else group

/-- The body of the loop of `parseAction` for one group: the directive pushed,
if any. -/
def parseGroup (group : JsString) : Option ActionData :=
  match matchAction (groupActionText group) with
  | some (verb, params, scope) =>
    some { action := verb, condition := groupCondition group,
           parameters := matchTokens params, target := scope }
  | none => none

/-- The static method `ItemPF.parseAction(action)`: the loop over
`action.split(";")` that pushes onto `actions`. -/
def parseAction (action : JsString) : List ActionData :=
  (jsSplit [';'] action).foldl
    (fun actions group =>
      match parseGroup group with
      | some d => actions ++ [d]
      | none => actions)
    []

/-! ## JavaScript values -/

/-- A numeric property as JavaScript reads it: possibly `undefined` or `null`,
possibly `NaN` after arithmetic on a missing value. -/
inductive JsNum where
  | undefined
  | null
  | nan
  | num (n : Int)
  deriving DecidableEq, Repr

namespace JsNum

/-- The test `v != null` (false for `null` and `undefined`). -/
def notNullish : JsNum → Bool
  | undefined => false
  | null => false
  | _ => true

/-- The test `v !== 0`. -/
def strictNeZero : JsNum → Bool
  | num 0 => false
  | _ => true

/-- The test `v !== 1`. -/
def strictNeOne : JsNum → Bool
  | num 1 => false
  | _ => true

/-- The test `v < 0` (`null` converts to 0, `undefined` and `NaN` compare false). -/
def ltZero : JsNum → Bool
  | num n => decide (n < 0)
  | _ => false

/-- The test `v < 1` (`null` converts to 0, `undefined` and `NaN` compare false). -/
def ltOne : JsNum → Bool
  | num n => decide (n < 1)
  | null => true
  | _ => false

/-- The expression `v || 0` on a numeric property. -/
def orZero : JsNum → JsNum
  | num n => num n
  | _ => num 0

/-- The expression `a + b` on numbers (`null` converts to 0, `undefined` to `NaN`). -/
def add : JsNum → JsNum → JsNum
  | num a, num b => num (a + b)
  | num a, null => num a
  | null, num b => num b
  | null, null => num 0
  | _, _ => nan

/-- The expression `a * b` on numbers (`null` converts to 0, `undefined` to `NaN`). -/
def mul : JsNum → JsNum → JsNum
  | num a, num b => num (a * b)
  | num _, null => num 0
  | null, num _ => num 0
  | null, null => num 0
  | _, _ => nan

/-- The call `Math.max(0, v)`. -/
def max0 : JsNum → JsNum
  | num n => num (max 0 n)
  | null => num 0
  | _ => nan

/-- True when the value is a number below zero. -/
def isNegative : JsNum → Prop
  | num n => n < 0
  | _ => False

end JsNum

/-- A value a caller may pass where a number or a text is accepted
(`options.bonus`). -/
inductive JsVal where
  | undefined
  | null
  | num (n : Int)
  | str (s : String)
  deriving DecidableEq, Repr

/-- The test `v != null` (false for `null` and `undefined`). -/
def JsVal.notNullish : JsVal → Bool
  | JsVal.undefined => false
  | JsVal.null => false
  | _ => true

/-! ## `ItemPF.rollAttack` and `ItemPF.rollDamage` -/

/-- The part of the roll data (`actor.getRollData()` with `item` set, or
`options.data`) that the two composers read or write. -/
structure RollData where
  /-- The entries `abilities[abl].mod`; an ability that is absent is `null`/`undefined`. -/
  abilities : List (String × JsNum)
  /-- The field `traits.size`. -/
  traitsSize : String
  attackGeneral : JsNum
  attackMelee : JsNum
  attackRanged : JsNum
  babTotal : JsNum
  energyDrain : JsNum
  damageGeneral : JsNum
  damageWeapon : JsNum
  damageSpell : JsNum
  /-- The field `item.enh`. -/
  itemEnh : JsNum
  /-- The field `ablMult` (`none` for `undefined`). -/
  ablMult : Option ℚ
  cl : JsNum := JsNum.undefined
  sizeBonus : JsNum := JsNum.undefined
  itemProficiencyPenalty : JsNum := JsNum.undefined
  /-- The field `item.attackBonus` once replaced by the text of its total. -/
  itemAttackBonus : Option String := none
  itemMasterworkBonus : JsNum := JsNum.undefined
  bonus : JsVal := JsVal.undefined
  critMult : JsNum := JsNum.undefined
  ablDamage : JsNum := JsNum.undefined
  deriving DecidableEq

/-- The part of the item (`this.data.type`, `this.data.data`) and of its actor
that the two composers read. -/
structure RollItem where
  /-- The item type (`this.type`, `this.data.type`). -/
  type : String
  actionType : String
  /-- The field `ability.attack`. -/
  abilityAttack : String
  /-- The field `ability.damage`, when it is a string. -/
  abilityDamage : Option String
  /-- The field `ability.critMult`. -/
  critMult : JsNum
  /-- The field `ability.damageMult` (`none` for `null`/`undefined`). -/
  damageMult : Option ℚ
  /-- The field `attackBonus`, a formula text. -/
  attackBonus : String
  proficient : Bool
  masterwork : Bool
  enh : JsNum
  /-- The field `damage.parts`: pairs of formula and damage type. -/
  damageParts : List (String × String)
  /-- The `cl.total` of the spellbook named by the item, when the actor has it. -/
  spellbookCl : Option Int
  clOffset : JsNum
  deriving DecidableEq

/-- The options object of `rollAttack`. -/
structure AttackOptions where
  parts : Option (List String) := none
  bonus : JsVal := JsVal.undefined
  extraParts : Option (List String) := none
  /-- The option `primaryAttack` (`none` when absent). -/
  primaryAttack : Option Bool := none
  deriving DecidableEq

/-- What the composers hand to `new Roll(formula, rollData)`. -/
structure RollRequest where
  formula : String
  data : RollData
  deriving DecidableEq

/-- The step `rollData.cl = spellbook.cl.total + (itemData.clOffset || 0)` taken
for spells; it fails when the actor has no such spellbook. -/
def addCasterLevel (item : RollItem) (rd : RollData) : Option RollData :=
  if item.type = "spell" then
    match item.spellbookCl with
    | some cl => some { rd with cl := JsNum.add (JsNum.num cl) item.clOffset.orZero }
    | none => none
  else some rd

/-- The ability entry `rollData.abilities[abl]`. -/
def RollData.ability (rd : RollData) (abl : String) : Option JsNum :=
  (rd.abilities.find? fun e => e.1 = abl).map Prod.snd

/-- The test `rollData.abilities[abl] != null && rollData.abilities[abl].mod !== 0`. -/
def abilityModNonZero (rd : RollData) (abl : String) : Bool :=
  match rd.ability abl with
  | some m => m.strictNeZero
  | none => false

/-- The list `parts` under construction in `rollAttack`, with the roll data. -/
structure AttackState where
  parts : List String
  data : RollData
  deriving DecidableEq

/-- The statement under `// Add ability modifier`. -/
def addAbilityModifier (item : RollItem) (st : AttackState) : AttackState :=
  let abl := item.abilityAttack
  if abl ≠ "" ∧ abilityModNonZero st.data abl = true
  then { st with parts := st.parts ++ ["@abilities." ++ abl ++ ".mod"] } else st

/-- The statement under `// Add bonus parts`:
`if (options.parts != null) parts = parts.concat(options.parts)`. -/
def addBonusParts (options : AttackOptions) (st : AttackState) : AttackState :=
  match options.parts with
  | some ps => { st with parts := st.parts ++ ps }
  | none => st

/-- The statement under `// Add size bonus`. -/
def addSizeBonus (st : AttackState) : AttackState :=
  if st.data.sizeBonus.strictNeZero then { st with parts := st.parts ++ ["@sizeBonus"] } else st

/-- The block under `// Add attack bonus`; `evalRoll` is the evaluation
`new Roll(f, rollData).roll().total` (`none` when it throws). -/
def addAttackBonus (evalRoll : String → RollData → Option Int) (item : RollItem)
    (st : AttackState) : Option AttackState :=
  if item.attackBonus ≠ "" then
    match evalRoll item.attackBonus st.data with
    | some total =>
      some { parts := st.parts ++ ["@item.attackBonus"],
             data := { st.data with itemAttackBonus := some (toString total) } }
    | none => none
  else some st

/-- The first statement under `// Add certain attack bonuses`. -/
def addGeneralAttack (st : AttackState) : AttackState :=
  if st.data.attackGeneral.strictNeZero
  then { st with parts := st.parts ++ ["@attributes.attack.general"] } else st

/-- The second statement under `// Add certain attack bonuses`. -/
def addMeleeOrRanged (item : RollItem) (st : AttackState) : AttackState :=
  if item.actionType ∈ ["mwak", "msak"] ∧ st.data.attackMelee.strictNeZero = true
  then { st with parts := st.parts ++ ["@attributes.attack.melee"] }
  else if item.actionType ∈ ["rwak", "rsak"] ∧ st.data.attackRanged.strictNeZero = true
  then { st with parts := st.parts ++ ["@attributes.attack.ranged"] }
  else st

/-- The statement under `// Add BAB`. -/
def addBab (st : AttackState) : AttackState :=
  if st.data.babTotal.strictNeZero ∧ st.data.babTotal.notNullish
  then { st with parts := st.parts ++ ["@attributes.bab.total"] } else st

/-- The statement under `// Add item's enhancement bonus`. -/
def addEnhancement (st : AttackState) : AttackState :=
  if st.data.itemEnh.strictNeZero ∧ st.data.itemEnh.notNullish
  then { st with parts := st.parts ++ ["@item.enh"] } else st

/-- The statement under `// Subtract energy drain`. -/
def subtractEnergyDrain (st : AttackState) : AttackState :=
  if st.data.energyDrain.notNullish ∧ st.data.energyDrain.strictNeZero
  then { st with parts := st.parts ++ ["- max(0, abs(@attributes.energyDrain))"] } else st

/-- The statement under `// Add proficiency penalty`. -/
def addProficiencyPenalty (item : RollItem) (st : AttackState) : AttackState :=
  if item.type = "attack" ∧ item.proficient = false
  then { st with parts := st.parts ++ ["@item.proficiencyPenalty"] } else st

/-- The block under `// Add masterwork bonus`. -/
def addMasterworkBonus (item : RollItem) (st : AttackState) : AttackState :=
  if item.type = "attack" ∧ item.masterwork = true ∧ item.enh.ltOne = true
  then { parts := st.parts ++ ["@item.masterworkBonus"],
         data := { st.data with itemMasterworkBonus := JsNum.num 1 } }
  else st

/-- The statement under `// Add secondary natural attack penalty`. -/
def addSecondaryPenalty (options : AttackOptions) (st : AttackState) : AttackState :=
  if options.primaryAttack = some false then { st with parts := st.parts ++ ["-5"] } else st

/-- The block under `// Add bonus`: `if (options.bonus != null) { ... }`. -/
def addBonus (options : AttackOptions) (st : AttackState) : AttackState :=
  if options.bonus.notNullish
  then { parts := st.parts ++ ["@bonus"], data := { st.data with bonus := options.bonus } }
  else st

/-- The block under `// Add extra parts`. -/
def addExtraParts (options : AttackOptions) (st : AttackState) : AttackState :=
  match options.extraParts with
  | some ps => { st with parts := st.parts ++ ps }
  | none => st

/-- The list `parts` that `rollAttack` builds, with the roll data as updated
on the way: the statements of the method in their order.  `sizeMods` is the
table `CONFIG.D35E.sizeMods`. -/
def rollAttackParts (sizeMods : String → JsNum) (evalRoll : String → RollData → Option Int)
    (item : RollItem) (rollData : RollData) (options : AttackOptions) :
    Option AttackState := do
  let rd ← addCasterLevel item rollData
  let rd := { rd with sizeBonus := sizeMods rd.traitsSize }
  let rd := { rd with itemProficiencyPenalty := JsNum.num (-4) }
  let st : AttackState := { parts := [], data := rd }
  let st := addAbilityModifier item st
  let st := addBonusParts options st
  let st := addSizeBonus st
  let st ← addAttackBonus evalRoll item st
  let st := addGeneralAttack st
  let st := addMeleeOrRanged item st
  let st := addBab st
  let st := addEnhancement st
  let st := subtractEnergyDrain st
  let st := addProficiencyPenalty item st
  let st := addMasterworkBonus item st
  let st := addSecondaryPenalty options st
  let st := addBonus options st
  let st := addExtraParts options st
  return st

/-- The method `ItemPF.rollAttack(options)` up to the evaluation of the roll:
the formula `["1d20"].concat(parts).join("+")` and the roll data, or `none`
when a step throws. -/
def rollAttack (sizeMods : String → JsNum) (evalRoll : String → RollData → Option Int)
    (item : RollItem) (rollData : RollData) (options : AttackOptions) : Option RollRequest :=
  (rollAttackParts sizeMods evalRoll item rollData options).map fun st =>
    { formula := "+".intercalate ("1d20" :: st.parts), data := st.data }

/-- One entry of the list `parts` of `rollDamage`. -/
structure DamagePart where
  base : String
  extra : List String
  damageType : String
  deriving DecidableEq

/-- One entry of the list returned by `rollDamage`: the arguments of
`new Roll(...)` and the damage type. -/
structure DamageRoll where
  roll : RollRequest
  damageType : String
  deriving DecidableEq

/-- The number 0.5. -/
def half : ℚ := Rat.mk' 1 2 (by decide) (by decide)

/-- The test `rollData.ablMult > 0` (false for `undefined`): a rational is
positive when its numerator is. -/
def isPositive : Option ℚ → Bool
  | some m => decide (0 < m.num)
  | none => false

/-- The value `Math.floor(mod * ablMult)`: for an integer `m` and a rational
`q` the floor of `m * q` is the quotient of `m * q.num` by `q.den`.  The
product is taken exactly, where the source takes the product of two doubles:
the two agree for the multipliers 0.5, 1, 1.5 and 2 of the item sheet, whose
products with an integer modifier are exact, and may differ for a multiplier
whose product rounds (3 × 0.3333333333333333 is 1 as a double). -/
def floorMul (mod : JsNum) (ablMult : Option ℚ) : JsNum :=
  match mod, ablMult with
  | JsNum.num m, some q => JsNum.num ((m * q.num) / (q.den : Int))
  | JsNum.null, some _ => JsNum.num 0
  | _, _ => JsNum.nan

/-- The list `parts[0].extra` under construction in `rollDamage`, with the
roll data. -/
structure DamageState where
  extra : List String
  data : RollData
  deriving DecidableEq

/-- The block under `// Determine ability score modifier` of `rollDamage`: binds
`ablDamage` and pushes its term.  It fails when `abilities[abl]` is absent. -/
def addAbilityDamage (item : RollItem) (st : DamageState) : Option DamageState :=
  match item.abilityDamage with
  | none => some st
  | some abl =>
    if abl ≠ "" then
      match st.data.ability abl with
      | none => none
      | some mod =>
        let ablDamage := floorMul mod st.data.ablMult
        let ablDamage := if mod.ltZero then mod else ablDamage
        let rd := { st.data with ablDamage := ablDamage }
        if ablDamage.ltZero then some { extra := st.extra ++ ["@ablDamage"], data := rd }
        else if rd.critMult.strictNeOne then
          some { extra := st.extra ++ ["@ablDamage * @critMult"], data := rd }
        else if ablDamage.strictNeZero then some { extra := st.extra ++ ["@ablDamage"], data := rd }
        else some { extra := st.extra, data := rd }
    else some st

/-- The block under `// Add enhancement bonus` of `rollDamage`. -/
def addEnhancementDamage (st : DamageState) : DamageState :=
  if st.data.itemEnh.notNullish ∧ st.data.itemEnh.strictNeZero ∧ st.data.itemEnh.notNullish then
    if st.data.critMult.strictNeOne then { st with extra := st.extra ++ ["@item.enh * @critMult"] }
    else { st with extra := st.extra ++ ["@item.enh"] }
  else st

/-- The block under `// Add general damage` of `rollDamage`. -/
def addGeneralDamage (st : DamageState) : DamageState :=
  if st.data.damageGeneral.strictNeZero then
    if st.data.critMult.strictNeOne
    then { st with extra := st.extra ++ ["@attributes.damage.general * @critMult"] }
    else { st with extra := st.extra ++ ["@attributes.damage.general"] }
  else st

/-- The block under `// Add melee or spell damage` of `rollDamage`. -/
def addWeaponOrSpellDamage (item : RollItem) (st : DamageState) : DamageState :=
  if st.data.damageWeapon.strictNeZero = true ∧ item.actionType ∈ ["mwak", "rwak"] then
    if st.data.critMult.strictNeOne
    then { st with extra := st.extra ++ ["@attributes.damage.weapon * @critMult"] }
    else { st with extra := st.extra ++ ["@attributes.damage.weapon"] }
  else if st.data.damageSpell.strictNeZero = true ∧
      item.actionType ∈ ["msak", "rsak", "spellsave"] then
    if st.data.critMult.strictNeOne
    then { st with extra := st.extra ++ ["@attributes.damage.spell * @critMult"] }
    else { st with extra := st.extra ++ ["@attributes.damage.spell"] }
  else st

/-- The roll data of `rollDamage` once the critical and the ability multiplier
are set (the blocks `// Add CL`, `// Determine critical multiplier` and
`// Determine ability multiplier`). -/
def damageRollData (item : RollItem) (rollData : RollData) (critical primaryAttack : Bool) :
    Option RollData := do
  let rd ← addCasterLevel item rollData
  -- Determine critical multiplier
  let rd := { rd with critMult := JsNum.num 1 }
  let rd := if critical then { rd with critMult := item.critMult } else rd
  -- Determine ability multiplier
  let rd := match item.damageMult with
    | some m => { rd with ablMult := some m }
    | none => rd
  let rd :=
    if primaryAttack = false ∧ isPositive rd.ablMult = true
    then { rd with ablMult := some half } else rd
  return rd

/-- The list `parts` of `rollDamage` after all modifier terms are pushed, with
the roll data as updated on the way.  `alterRoll` is the helper of `lib.js`.
The result is `none` when the method throws: the item has no damage part
(`hasDamage`), or a property read fails. -/
def rollDamageParts (alterRoll : String → Int → JsNum → String)
    (item : RollItem) (rollData : RollData) (critical primaryAttack : Bool) :
    Option (List DamagePart × RollData) := do
  let rd ← damageRollData item rollData critical primaryAttack
  -- Define Roll parts
  let parts : List DamagePart :=
    item.damageParts.map fun p => { base := p.1, extra := [], damageType := p.2 }
  match parts with
  | [] => none
  | p0 :: later =>
    let p0 := { p0 with base := alterRoll p0.base 0 rd.critMult }
    let st : DamageState := { extra := p0.extra, data := rd }
    let st ← addAbilityDamage item st
    let st := addEnhancementDamage st
    let st := addGeneralDamage st
    let st := addWeaponOrSpellDamage item st
    return ({ p0 with extra := st.extra } :: later, st.data)

/-- The loop `for (let a = 0; a < parts.length; a++)` of `rollDamage`, from
index `a` on. -/
def damageRolls (rd : RollData) (extraParts : List String) : Nat → List DamagePart → List DamageRoll
  | _, [] => []
  | a, part :: rest =>
    (if a = 0 then
      { roll := { formula := "+".intercalate ([part.base] ++ part.extra ++ extraParts), data := rd },
        damageType := part.damageType }
     else
      { roll := { formula := "+".intercalate ([part.base] ++ part.extra), data := rd },
        damageType := part.damageType }) :: damageRolls rd extraParts (a + 1) rest

/-- The method `ItemPF.rollDamage({data, critical, extraParts, primaryAttack})`
up to the evaluation of the rolls, or `none` when a step throws. -/
def rollDamage (alterRoll : String → Int → JsNum → String)
    (item : RollItem) (rollData : RollData) (critical : Bool) (extraParts : List String)
    (primaryAttack : Bool) : Option (List DamageRoll) :=
  (rollDamageParts alterRoll item rollData critical primaryAttack).map fun r =>
    damageRolls r.2 extraParts 0 r.1

/-! ## Resource ledger: `addCharges`, `addSpellUses` -/

/-- A spellbook record of the actor
(`actor.data.data.attributes.spells.spellbooks[key]`). -/
structure Spellbook where
  spontaneous : Bool
  usePowerPoints : Bool
  powerPoints : JsNum
  /-- The entries `spells.spell<level>.value`. -/
  spellValues : List (Int × JsNum)
  deriving DecidableEq

/-- The value `spells.spell<level>.value` of a spellbook (`undefined` when absent). -/
def Spellbook.spellValue (b : Spellbook) (level : Int) : JsNum :=
  ((b.spellValues.find? fun e => e.1 = level).map Prod.snd).getD JsNum.undefined

/-- The part of the item and of its actor that the ledger reads. -/
structure LedgerItem where
  /-- The item type (`this.type`). -/
  type : String
  /-- The field `data.uses.per` (`none` when absent). -/
  usesPer : Option String
  /-- The field `data.quantity`. -/
  quantity : JsNum
  /-- The field `data.uses.value`. -/
  usesValue : JsNum
  atWill : Bool
  /-- The field `data.level`. -/
  level : Int
  /-- The field `data.spellbook`. -/
  spellbook : String
  /-- The field `data.preparation.preparedAmount`. -/
  preparedAmount : JsNum
  powerPointsCost : JsNum
  /-- The spellbooks of the owning actor; `none` when the item has no actor. -/
  actorSpellbooks : Option (List (String × Spellbook))
  deriving DecidableEq

/-- An update object for the item, with the keys the ledger sets
(`undefined` for a key that is not there). -/
structure ItemUpdateData where
  /-- The key `data.quantity`. -/
  quantity : JsNum := JsNum.undefined
  /-- The key `data.uses.value`. -/
  usesValue : JsNum := JsNum.undefined
  /-- The key `data.preparation.preparedAmount`. -/
  preparedAmount : JsNum := JsNum.undefined
  deriving DecidableEq

/-- A persistence call issued by the ledger. -/
inductive LedgerWrite where
  /-- The call `this.update(data)` on the item. -/
  | itemUpdate (data : ItemUpdateData)
  /-- The call `this.actor.update({[key]: value})` on the actor. -/
  | actorUpdate (key : String) (value : JsNum)
  deriving DecidableEq

/-- What a ledger call leaves behind: the caller's update object (when one was
passed) and the persistence calls issued. -/
structure LedgerResult where
  data : Option ItemUpdateData
  writes : List LedgerWrite
  deriving DecidableEq

/-- The getter `isSingleUse`. -/
def LedgerItem.isSingleUse (item : LedgerItem) : Bool := item.usesPer = some "single"

/-- The constant `newCharges` of `addSpellUses`. -/
def newSpellCharges (item : LedgerItem) (spellbook : Spellbook) (value : Int) : JsNum :=
  if spellbook.usePowerPoints then
    (JsNum.add spellbook.powerPoints.orZero
      (JsNum.mul (JsNum.num value) item.powerPointsCost)).max0
  else if spellbook.spontaneous then
    (JsNum.add (spellbook.spellValue item.level).orZero (JsNum.num value)).max0
  else (JsNum.add item.preparedAmount.orZero (JsNum.num value)).max0

/-- The writes of `addSpellUses` once the spellbook is read. -/
def writeSpellCharges (item : LedgerItem) (spellbook : Spellbook) (value : Int)
    (data : Option ItemUpdateData) : LedgerResult :=
  let spellbookKey := if item.spellbook = "" then "primary" else item.spellbook
  let spellLevel := item.level
  let newCharges := newSpellCharges item spellbook value
  if spellbook.spontaneous = false ∧ spellbook.usePowerPoints = false then
    match data with
    | none => ⟨none, [LedgerWrite.itemUpdate { preparedAmount := newCharges }]⟩
    | some d => ⟨some { d with preparedAmount := newCharges }, []⟩
  else if spellbook.usePowerPoints then
    ⟨data, [LedgerWrite.actorUpdate
      ("data.attributes.spells.spellbooks." ++ spellbookKey ++ ".powerPoints") newCharges]⟩
  else
    ⟨data, [LedgerWrite.actorUpdate
      ("data.attributes.spells.spellbooks." ++ spellbookKey ++ ".spells.spell" ++
        toString spellLevel ++ ".value") newCharges]⟩

/-- The method `ItemPF.addSpellUses(value, data)`; `none` when the spellbook
named by the item does not exist on the actor (the property read throws). -/
def addSpellUses (item : LedgerItem) (value : Int) (data : Option ItemUpdateData) :
    Option LedgerResult :=
  match item.actorSpellbooks with
  | none => some ⟨data, []⟩
  | some books =>
    if item.atWill then some ⟨data, []⟩
    else if item.level = 0 then some ⟨data, []⟩
    else
      match (books.find? fun e => e.1 = item.spellbook).map Prod.snd with
      | none => none
      | some spellbook => some (writeSpellCharges item spellbook value data)

/-- The method `ItemPF.addCharges(value, data)`. -/
def addCharges (item : LedgerItem) (value : Int) (data : Option ItemUpdateData) :
    Option LedgerResult :=
  if item.usesPer = some "single" ∧ item.quantity.notNullish = false then some ⟨data, []⟩
  else if item.type = "spell" then addSpellUses item value data
  else
    let prevValue := if item.isSingleUse then item.quantity else item.usesValue
    let prevValue :=
      match data with
      | some d =>
        if item.isSingleUse ∧ d.quantity.notNullish then d.quantity
        else if !item.isSingleUse ∧ d.usesValue.notNullish then d.usesValue
        else prevValue
      | none => prevValue
    match data with
    | some d =>
      if item.isSingleUse then
        some ⟨some { d with quantity := JsNum.add prevValue (JsNum.num value) }, []⟩
      else some ⟨some { d with usesValue := JsNum.add prevValue (JsNum.num value) }, []⟩
    | none =>
      if item.isSingleUse then
        some ⟨none, [LedgerWrite.itemUpdate { quantity := JsNum.add prevValue (JsNum.num value) }]⟩
      else
        some ⟨none, [LedgerWrite.itemUpdate { usesValue := JsNum.add prevValue (JsNum.num value) }]⟩

/-! ## Resource ledger: `getSpellUses`, `charges`, `isCharged`, `use`, `useAttack` -/

/-- The test `v <= 0` (`null` converts to 0, `undefined` and `NaN` compare false). -/
def JsNum.leZero : JsNum → Bool
  | JsNum.num n => decide (n ≤ 0)
  | JsNum.null => true
  | _ => false

/-- The test `a - b >= 0` (`null` converts to 0, `undefined` and `NaN` compare false). -/
def JsNum.subGeZero : JsNum → JsNum → Bool
  | JsNum.num a, JsNum.num b => decide (a - b ≥ 0)
  | JsNum.num a, JsNum.null => decide (a ≥ 0)
  | JsNum.null, JsNum.num b => decide (0 - b ≥ 0)
  | JsNum.null, JsNum.null => true
  | _, _ => false

/-- What `getSpellUses` and the getter `charges` return. -/
inductive Uses where
  /-- A numeric property, as read. -/
  | count (v : JsNum)
  /-- The value `Number.POSITIVE_INFINITY`. -/
  | infinity
  /-- The boolean `true`. -/
  | yes
  deriving DecidableEq

/-- The test `charges <= 0` (`true` converts to 1). -/
def Uses.leZero : Uses → Bool
  | Uses.count v => v.leZero
  | Uses.infinity => false
  | Uses.yes => false

/-- The method `ItemPF.getSpellUses()`; `none` when the spellbook named by the
item does not exist on the actor (the property read throws). -/
def getSpellUses (item : LedgerItem) : Option Uses :=
  match item.actorSpellbooks with
  | none => some (Uses.count (JsNum.num 0))
  | some books =>
    if item.atWill then some Uses.infinity
    else
      match (books.find? fun e => e.1 = item.spellbook).map Prod.snd with
      | none => none
      | some spellbook =>
        if spellbook.usePowerPoints then
          (if spellbook.powerPoints.subGeZero item.powerPointsCost then some Uses.yes
           else some (Uses.count (JsNum.num 0)))
        else if spellbook.spontaneous then
          some (Uses.count (spellbook.spellValue item.level).orZero)
        else some (Uses.count item.preparedAmount.orZero)

/-- The getter `isCharged`. -/
def isCharged (item : LedgerItem) : Bool :=
  if item.type = "consumable" ∧ item.usesPer = some "single" then true
  else item.usesPer ∈ [some "day", some "week", some "charges"]

/-- The getter `charges`; `none` when `getSpellUses` throws. -/
def charges (item : LedgerItem) : Option Uses :=
  if item.usesPer = some "single" then some (Uses.count item.quantity)
  else if item.type = "spell" then getSpellUses item
  else some (Uses.count item.usesValue.orZero)

/-- An item as `use` and `useAttack` see it before any roll. -/
structure UsableItem where
  /-- The fields read by the ledger; the item has an actor when
  `actorSpellbooks` is not `none`. -/
  ledger : LedgerItem
  /-- The getter `hasAction`. -/
  hasAction : Bool
  /-- The value of `actor.hasPerm(game.user, "OWNER")` when there is an actor. -/
  actorIsOwner : Bool
  deriving DecidableEq

/-- A step of `use` / `useAttack` visible from outside, in the order taken. -/
inductive UseEvent where
  /-- The call `ui.notifications.warn` with the message key, followed by `return`. -/
  | warn (key : String)
  /-- The call `this.actor.useSpell(this, ev, ...)`. -/
  | useSpell
  /-- The call `this.addCharges(value)` and what it does. -/
  | addCharges (value : Int) (result : Option LedgerResult)
  /-- The call `this.roll()`. -/
  | roll
  /-- The rest of `useAttack`: roll data, dialog, rolls, charge deduction, chat message. -/
  | attackFlow
  /-- A property read throws. -/
  | throws
  deriving DecidableEq

/-- The method `ItemPF.useAttack` up to the point where the roll data are built. -/
def useAttack (item : UsableItem) : List UseEvent :=
  if item.ledger.actorSpellbooks ≠ none ∧ item.actorIsOwner = false then
    [UseEvent.warn "D35E.ErrorNoActorPermission"]
  else if item.ledger.quantity.notNullish = true ∧ item.ledger.quantity.leZero = true then
    [UseEvent.warn "D35E.ErrorNoQuantity"]
  else if isCharged item.ledger then
    match charges item.ledger with
    | none => [UseEvent.throws]
    | some c =>
      if c.leZero then [UseEvent.warn "D35E.ErrorNoCharges"] else [UseEvent.attackFlow]
  else [UseEvent.attackFlow]

/-- The method `ItemPF.use`. -/
def use (item : UsableItem) : List UseEvent :=
  if item.ledger.type = "spell" then [UseEvent.useSpell]
  else if item.hasAction then useAttack item
  else if isCharged item.ledger then
    match charges item.ledger with
    | none => [UseEvent.throws]
    | some c =>
      if c.leZero then
        (if item.ledger.isSingleUse then [UseEvent.warn "D35E.ErrorNoQuantity"]
         else [UseEvent.warn "D35E.ErrorNoCharges"])
      else [UseEvent.addCharges (-1) (addCharges item.ledger (-1) none), UseEvent.roll]
  else [UseEvent.roll]

/-! ## Buff lifecycle: `ItemPF.update` -/

/-- An entry of `activateActions` / `deactivateActions`. -/
structure BuffAction where
  name : String
  /-- The directive text handed to `parseAction`. -/
  action : JsString
  deriving DecidableEq

/-- The data of an item owned by an actor, as far as the lifecycle reads it. -/
structure OwnedItemData where
  /-- The field `_id` (`none` once deleted from the data). -/
  id : Option String
  name : String
  type : String
  /-- The field `data.attackType`. -/
  attackType : String
  /-- The field `data.melded`. -/
  melded : Bool
  deriving DecidableEq

/-- The owning actor of a buff. -/
structure BuffActor where
  /-- Whether `this.actor.token !== null`. -/
  hasToken : Bool
  items : List OwnedItemData
  deriving DecidableEq

/-- The field `data.timeline` of a buff. -/
structure Timeline where
  enabled : Bool
  elapsed : Int
  total : Int
  deleteOnExpiry : Bool
  /-- The field `formula` (`none` when `undefined` / `null`). -/
  formula : Option String
  deriving DecidableEq

/-- A buff item: `this.data` and `this.actor`, as far as `update` and
`addElapsedTime` read them. -/
structure BuffItem where
  id : String
  name : String
  active : Bool
  buffType : String
  /-- The field `data.shapechange.type`. -/
  shapechangeType : String
  /-- The field `data.shapechange.source.name`. -/
  sourceName : String
  /-- The field `data.shapechange.source.items`. -/
  sourceItems : List OwnedItemData
  activateActions : List BuffAction
  deactivateActions : List BuffAction
  timeline : Option Timeline
  actor : Option BuffActor
  deriving DecidableEq

/-- The update object passed to `update`, with the keys the lifecycle reads or
sets (`none` for a key that is not there). -/
structure UpdatePatch where
  /-- The key `name`. -/
  name : Option String := none
  /-- The key `data.identifiedName`. -/
  identifiedName : Option String := none
  /-- The key `data.active`. -/
  active : Option Bool := none
  /-- The key `data.timeline.elapsed`. -/
  elapsed : Option Int := none
  /-- The key `data.timeline.total`. -/
  total : Option Int := none
  /-- The key `data.timeline.formula`. -/
  formula : Option String := none
  deriving DecidableEq

/-- A call into the owning actor made by `update`.  The flag says whether the
call goes to `this.actor.token.actor` rather than `this.actor`. -/
inductive ActorCall where
  | applyActionOnSelf (onToken : Bool) (directive : ActionData)
  | createOwnedItem (onToken : Bool) (data : OwnedItemData)
  | deleteOwnedItem (onToken : Bool) (id : Option String)
  deriving DecidableEq

/-- The two nested loops that dispatch a list of actions: every directive of
every entry whose target is `self` is applied on the actor, if there is one. -/
def dispatchActions (actor : Option BuffActor) (actions : List BuffAction) : List ActorCall :=
  actions.foldl
    (fun calls actionValue =>
      (parseAction actionValue.action).foldl
        (fun calls actionData =>
          if actionData.target = selfWord then
            match actor with
            | none => calls
            | some a => calls ++ [ActorCall.applyActionOnSelf a.hasToken actionData]
          else calls)
        calls)
    []

/-- The loop of the activation branch that copies the natural attacks of the
shapechange source onto the actor. -/
def cloneNaturalAttacks (item : BuffItem) : List ActorCall :=
  if item.buffType = "shapechange" then
    if item.shapechangeType = "wildshape" ∨ item.shapechangeType = "polymorph" then
      item.sourceItems.foldl
        (fun calls i =>
          if i.type = "attack" ∧ i.attackType = "natural" then
            match item.actor with
            | none => calls
            | some a =>
              calls ++ [ActorCall.createOwnedItem a.hasToken
                { i with name := i.name ++ " (Polymorhped " ++ item.sourceName ++ ")", id := none }]
          else calls)
        []
    else []
  else []

/-- The loop of the deactivation branch that deletes natural attacks from the
actor. -/
def removeNaturalAttacks (item : BuffItem) : List ActorCall :=
  if item.buffType = "shapechange" then
    if item.shapechangeType = "wildshape" ∨ item.shapechangeType = "polymorph" then
      match item.actor with
      | none => []
      | some a =>
        a.items.foldl
          (fun calls i =>
            if i.type = "attack" ∧ i.attackType = "natural" ∧ i.melded = false then
              calls ++ [ActorCall.deleteOwnedItem a.hasToken i.id]
            else calls)
          []
    else []
  else []

/-- The outcome of `update`: the calls made on the actor, the update object as
left by the method, and the item once the difference is stored. -/
structure UpdateResult where
  calls : List ActorCall
  data : UpdatePatch
  item : BuffItem
  deriving DecidableEq

/-- The item data after `super.update(diff)`: every key of the update object
replaces the stored value.  The timeline keys of an item that has no timeline
record are not kept. -/
def storePatch (item : BuffItem) (data : UpdatePatch) : BuffItem :=
  { item with
    name := data.name.getD item.name
    active := data.active.getD item.active
    timeline := item.timeline.map fun t =>
      { t with
        elapsed := data.elapsed.getD t.elapsed
        total := data.total.getD t.total
        formula := match data.formula with
          | some f => some f
          | none => t.formula } }

/-- The method `ItemPF.update(data, options)` on a buff.  `rollTotal` is the
evaluation `new Roll(formula, rollData).roll().total` of the timeline formula.
The blocks of the method that only set the keys of the weapon and equipment
subtype, of the spell description and of `data.uses.max` are not part of the
update object modelled here. -/
def update (rollTotal : String → Int) (item : BuffItem) (data : UpdatePatch) : UpdateResult :=
  -- Update name
  let data :=
    if data.identifiedName.getD "" ≠ "" then { data with name := data.identifiedName }
    else if data.name.getD "" ≠ "" then { data with identifiedName := data.name }
    else data
  let (calls, data) :=
    if data.active = some true ∧ data.active ≠ some item.active then
      -- Buff or item was activated
      let data := { data with elapsed := some 0 }
      (dispatchActions item.actor item.activateActions ++ cloneNaturalAttacks item, data)
    else if item.active = true ∧ (data.active = none ∨ data.active = some false) then
      (removeNaturalAttacks item ++ dispatchActions item.actor item.deactivateActions, data)
    else ([], data)
  let rollFormula := item.timeline.bind fun t => t.formula
  let rollFormula :=
    match data.formula with
    | some f => if some f ≠ rollFormula then some f else rollFormula
    | none => rollFormula
  let data :=
    match rollFormula with
    | some f => if f ≠ "" then { data with total := some (rollTotal f) } else data
    | none => data
  { calls := calls, data := data, item := storePatch item data }

/-- The method `ItemPF.addElapsedTime(time)`: what it asks for. -/
inductive ElapsedRequest where
  /-- Nothing is done. -/
  | nothing
  /-- The call `this.update(updateData)`. -/
  | update (data : UpdatePatch)
  /-- The call `this.actor.deleteOwnedItem(this.id)`. -/
  | deleteOwnedItem (id : String)
  deriving DecidableEq

/-- The method `ItemPF.addElapsedTime(time)`. -/
def addElapsedTime (item : BuffItem) (time : Int) : ElapsedRequest :=
  match item.timeline with
  | none => ElapsedRequest.nothing
  | some timeline =>
    if timeline.enabled = false then ElapsedRequest.nothing
    else if item.active = false then ElapsedRequest.nothing
    else if timeline.elapsed + time ≥ timeline.total then
      if timeline.deleteOnExpiry = false then ElapsedRequest.update { active := some false }
      else
        match item.actor with
        | none => ElapsedRequest.nothing
        | some _ => ElapsedRequest.deleteOwnedItem item.id
    else ElapsedRequest.update { elapsed := some (timeline.elapsed + time) }

/-! ## Vocabulary used to state the parser properties -/

/-- No occurrence of `sep` begins inside `a` in the text `a ++ rest`: an
occurrence of `sep` found in `a ++ rest` starts at the end of `a` or later. -/
def FirstAt (sep a rest : JsString) : Prop :=
  ∀ i, i < a.length → ¬ sep <+: (a ++ rest).drop i

/-- Balanced quoting: read with the flag saying whether a quote is open, the
text has no blank outside double quotes and every quote opened is closed. -/
def wellQuoted : Bool → JsString → Bool
  | q, [] => !q
  | false, c :: t =>
    if c = dquote then wellQuoted true t else !isJsWhitespace c && wellQuoted false t
  | true, c :: t => if c = dquote then wellQuoted false t else wellQuoted true t

/-- A token of a parameter text: a non-empty text made of quote-free,
blank-free runs and of closed double-quoted substrings. -/
def IsToken (t : JsString) : Prop := t ≠ [] ∧ wellQuoted false t = true

instance (sep a rest : JsString) : Decidable (FirstAt sep a rest) := by
  unfold FirstAt; infer_instance

instance (t : JsString) : Decidable (IsToken t) := by
  unfold IsToken; infer_instance

/-! ## Inputs used in the examples -/

/-- Roll data in which every modifier is present and zero, for a medium actor. -/
def plainRollData : RollData :=
  { abilities := [("str", JsNum.num 0), ("dex", JsNum.num 0)], traitsSize := "med",
    attackGeneral := JsNum.num 0, attackMelee := JsNum.num 0, attackRanged := JsNum.num 0,
    babTotal := JsNum.num 0, energyDrain := JsNum.num 0, damageGeneral := JsNum.num 0,
    damageWeapon := JsNum.num 0, damageSpell := JsNum.num 0, itemEnh := JsNum.num 0,
    ablMult := some 1 }

/-- A proficient, non-masterwork melee attack item with one damage part `1d8`. -/
def swordItem : RollItem :=
  { type := "attack", actionType := "mwak", abilityAttack := "str", abilityDamage := some "str",
    critMult := JsNum.num 2, damageMult := some 1, attackBonus := "", proficient := true,
    masterwork := false, enh := JsNum.num 0, damageParts := [("1d8", "slashing")],
    spellbookCl := none, clOffset := JsNum.undefined }

/-- The size table entry: no size modifier. -/
def noSizeMod : String → JsNum := fun _ => JsNum.num 0

/-- A size table giving the modifier 1 to every size. -/
def smallSizeMod : String → JsNum := fun _ => JsNum.num 1

/-- A roll evaluator with total 0 for every formula. -/
def zeroRoll : String → RollData → Option Int := fun _ _ => some 0

/-- An `alterRoll` that leaves the formula as it is. -/
def keepRoll : String → Int → JsNum → String := fun f _ _ => f

/-- The built-in terms of `rollAttack` that follow the caller's `options.parts`,
in the order of the statements that push them, up to the secondary-attack
penalty. -/
def builtinAttackTerms (item : RollItem) : List String :=
  ["@sizeBonus", "@item.attackBonus", "@attributes.attack.general",
    if item.actionType ∈ ["mwak", "msak"] then "@attributes.attack.melee"
    else "@attributes.attack.ranged",
    "@attributes.bab.total", "@item.enh", "- max(0, abs(@attributes.energyDrain))",
    "@item.proficiencyPenalty", "@item.masterworkBonus", "-5"]

/-- The value carried by a persistence call of the ledger. -/
def LedgerWrite.value : LedgerWrite → List JsNum
  | LedgerWrite.itemUpdate d => [d.quantity, d.usesValue, d.preparedAmount]
  | LedgerWrite.actorUpdate _ v => [v]

/-- A ledger item with periodic charges (`uses.per = "charges"`) holding one charge. -/
def wandItem : LedgerItem :=
  { type := "equipment", usesPer := some "charges", quantity := JsNum.num 1,
    usesValue := JsNum.num 1, atWill := false, level := 0, spellbook := "primary",
    preparedAmount := JsNum.undefined, powerPointsCost := JsNum.undefined,
    actorSpellbooks := some [] }

/-- A single-use consumable (`uses.per = "single"`) of quantity one. -/
def potionItem : LedgerItem :=
  { wandItem with type := "consumable", usesPer := some "single" }

/-- An active buff with one deactivation action, owned by an actor without token. -/
def activeBuff : BuffItem :=
  { id := "buff1", name := "Bless", active := true, buffType := "temp",
    shapechangeType := "", sourceName := "", sourceItems := [],
    activateActions := [⟨"on", "Condition set blessed to true on self".toList⟩],
    deactivateActions := [⟨"off", "Condition set blessed to false on self".toList⟩],
    timeline := some ⟨true, 0, 60, false, none⟩,
    actor := some ⟨false, []⟩ }

/-- A spellbook with prepared slots. -/
def preparedBook : Spellbook :=
  { spontaneous := false, usePowerPoints := false, powerPoints := JsNum.num 0, spellValues := [] }

/-- A spontaneous spellbook with three uses left at spell level 1. -/
def spontaneousBook : Spellbook :=
  { spontaneous := true, usePowerPoints := false, powerPoints := JsNum.num 0,
    spellValues := [(1, JsNum.num 3)] }

/-- A power-point spellbook holding ten points. -/
def psionicBook : Spellbook :=
  { spontaneous := false, usePowerPoints := true, powerPoints := JsNum.num 10, spellValues := [] }

/-- A level-1 spell prepared twice, in the prepared spellbook `primary`. -/
def preparedSpell : LedgerItem :=
  { type := "spell", usesPer := none, quantity := JsNum.undefined, usesValue := JsNum.undefined,
    atWill := false, level := 1, spellbook := "primary", preparedAmount := JsNum.num 2,
    powerPointsCost := JsNum.num 3, actorSpellbooks := some [("primary", preparedBook)] }

/-- The same spell in a spontaneous spellbook. -/
def spontaneousSpell : LedgerItem :=
  { preparedSpell with actorSpellbooks := some [("primary", spontaneousBook)] }

/-- The same spell in a power-point spellbook, with a cost of three points. -/
def psionicPower : LedgerItem :=
  { preparedSpell with actorSpellbooks := some [("primary", psionicBook)] }

/-- A piece of equipment without action, marked single-use, with none left. -/
def spentTrinket : UsableItem :=
  { ledger := { wandItem with usesPer := some "single", quantity := JsNum.num 0 },
    hasAction := false, actorIsOwner := true }

/-- An attack usable once per encounter, with no use left. -/
def spentEncounterPower : UsableItem :=
  { ledger := { wandItem with type := "attack", usesPer := some "encounter",
                              quantity := JsNum.undefined, usesValue := JsNum.num 0 },
    hasAction := true, actorIsOwner := true }

/-- A wand with no charge left, used through its attack. -/
def spentWand : UsableItem :=
  { ledger := { wandItem with usesValue := JsNum.num 0 }, hasAction := true,
    actorIsOwner := true }

/-- The key under which `addSpellUses` finds the spellbook record. -/
def LedgerItem.spellbookKey (item : LedgerItem) : String :=
  if item.spellbook = "" then "primary" else item.spellbook

/-- The spellbook record `addSpellUses` and `getSpellUses` read for the item. -/
def LedgerItem.book (item : LedgerItem) : Option Spellbook :=
  item.actorSpellbooks.bind fun books =>
    (books.find? fun e => e.1 = item.spellbook).map Prod.snd

/-- The previous value `addCharges` starts from: the one already in the update
object when it is there, else the stored one. -/
def prevOr (fromData stored : JsNum) : JsNum :=
  if fromData.notNullish then fromData else stored

/-- The ability multiplier in force in `rollDamage` before the secondary-attack
rule: the item's `ability.damageMult` when it is set, else the `ablMult` found
in the roll data. -/
def effectiveAblMult (item : RollItem) (rollData : RollData) : Option ℚ :=
  match item.damageMult with
  | some m => some m
  | none => rollData.ablMult

/-- The modifier terms of the first damage part, in the order of the blocks
that push them, as they read for the bound critical multiplier and ability
damage: multiplied by `@critMult` when the multiplier is not 1, a negative
ability damage excepted. -/
def damageTerms (item : RollItem) (rd : RollData) : List String :=
  if rd.critMult.strictNeOne then
    [if rd.ablDamage.ltZero then "@ablDamage" else "@ablDamage * @critMult",
      "@item.enh * @critMult", "@attributes.damage.general * @critMult",
      if item.actionType ∈ ["mwak", "rwak"] then "@attributes.damage.weapon * @critMult"
      else "@attributes.damage.spell * @critMult"]
  else
    ["@ablDamage", "@item.enh", "@attributes.damage.general",
      if item.actionType ∈ ["mwak", "rwak"] then "@attributes.damage.weapon"
      else "@attributes.damage.spell"]

/-- The conditions under which `rollDamage` does not throw: the spellbook of a
spell exists, the item has a damage part, and the damage ability, when set, is
an ability of the roll data. -/
def DamageRollable (item : RollItem) (rollData : RollData) : Prop :=
  (item.type = "spell" → item.spellbookCl ≠ none) ∧ item.damageParts ≠ [] ∧
  (∀ abl, item.abilityDamage = some abl → abl ≠ "" → rollData.ability abl ≠ none)

instance (item : RollItem) (rollData : RollData) : Decidable (DamageRollable item rollData) :=
  decidable_of_iff
    ((item.type = "spell" → item.spellbookCl ≠ none) ∧ item.damageParts ≠ [] ∧
      (item.abilityDamage.all fun abl => decide (abl ≠ "" → rollData.ability abl ≠ none)) = true)
    (by
      unfold DamageRollable
      cases h : item.abilityDamage <;> simp [Option.all]
      intro _ _
      tauto)

/-- The damage rolls of the parts after the first: each is the declared base
expression of the part, with the roll data. -/
def laterDamageRolls (rd : RollData) (parts : List (String × String)) : List DamageRoll :=
  parts.map fun p => { roll := { formula := p.1, data := rd }, damageType := p.2 }

/-- The value bound to `ablDamage` by `rollDamage`: the modifier itself when it
is negative, else `Math.floor(mod * ablMult)`. -/
def boundAblDamage (mod : JsNum) (ablMult : Option ℚ) : JsNum :=
  if mod.ltZero then mod else floorMul mod ablMult

/-- The term pushed by the ability block of `rollDamage` for the bound ability
damage and critical multiplier. -/
def abilityDamageTerms (ablDamage critMult : JsNum) : List String :=
  if ablDamage.ltZero then ["@ablDamage"]
  else if critMult.strictNeOne then ["@ablDamage * @critMult"]
  else if ablDamage.strictNeZero then ["@ablDamage"]
  else []

/-- The blocks of `rollDamage` that follow the ability block, in their order. -/
def addBonusDamage (item : RollItem) (st : DamageState) : DamageState :=
  addWeaponOrSpellDamage item (addGeneralDamage (addEnhancementDamage st))

/-! ## The expression evaluator

The composers hand their formula to the roll class of the hosting platform,
which is not part of the repository; the evaluator below follows its
description in the specification (section 4.2). -/

/-- Modelled from the spec: the lexical units of a formula: numbers, dice
terms `NdM`, references `@path.to.value`, the value put in place of a
reference, function names, the four operators, brackets and the comma. -/
inductive Tok
  | num (n : Nat)
  | dice (n m : Nat)
  | ref (path : String)
  | val (q : ℚ)
  | fn (name : String)
  | plus
  | minus
  | times
  | slash
  | lparen
  | rparen
  | comma
  deriving DecidableEq

/-- Modelled from the spec: the unit that the reader of a formula is in the
middle of. -/
inductive LexState
  | idle
  | inNum (n : Nat)
  | diceSides (n : Nat)
  | inDice (n m : Nat)
  | inRef (path : List Char)
  | inName (name : List Char)
  deriving DecidableEq

/-- Modelled from the spec: the unit completed when the one being read ends;
`NdM` without `M` and `@` without a path are malformed. -/
def LexState.flush : LexState → Option (List Tok)
  | LexState.idle => some []
  | LexState.inNum n => some [Tok.num n]
  | LexState.diceSides _ => none
  | LexState.inDice n m => some [Tok.dice n m]
  | LexState.inRef p => if p = [] then none else some [Tok.ref (String.mk p)]
  | LexState.inName s => some [Tok.fn (String.mk s)]

/-- Modelled from the spec: reading a character when no unit is being read. -/
def lexIdle (c : Char) : Option (List Tok × LexState) :=
  if c.isDigit then some ([], LexState.inNum (c.toNat - 48))
  else if c = '@' then some ([], LexState.inRef [])
  else if c.isAlpha then some ([], LexState.inName [c])
  else if c = ' ' then some ([], LexState.idle)
  else if c = '+' then some ([Tok.plus], LexState.idle)
  else if c = '-' then some ([Tok.minus], LexState.idle)
  else if c = '*' then some ([Tok.times], LexState.idle)
  else if c = '/' then some ([Tok.slash], LexState.idle)
  else if c = '(' then some ([Tok.lparen], LexState.idle)
  else if c = ')' then some ([Tok.rparen], LexState.idle)
  else if c = ',' then some ([Tok.comma], LexState.idle)
  else none

/-- Modelled from the spec: the character either continues the unit being
read or ends it. -/
def LexState.extend : LexState → Char → Option LexState
  | LexState.inNum n, c =>
    if c.isDigit then some (LexState.inNum (10 * n + (c.toNat - 48)))
    else if c = 'd' then some (LexState.diceSides n) else none
  | LexState.diceSides n, c =>
    if c.isDigit then some (LexState.inDice n (c.toNat - 48)) else none
  | LexState.inDice n m, c =>
    if c.isDigit then some (LexState.inDice n (10 * m + (c.toNat - 48))) else none
  | LexState.inRef p, c =>
    if c.isAlphanum ∨ c = '.' ∨ c = '_' then some (LexState.inRef (p ++ [c])) else none
  | LexState.inName s, c =>
    if c.isAlpha then some (LexState.inName (s ++ [c])) else none
  | LexState.idle, _ => none

/-- Modelled from the spec: one character of the formula is read. -/
def lexStep (st : LexState) (c : Char) : Option (List Tok × LexState) :=
  match st.extend c with
  | some st' => some ([], st')
  | none =>
    match st.flush, lexIdle c with
    | some out, some (out', st') => some (out ++ out', st')
    | _, _ => none

/-- Modelled from the spec: the units of the rest of a formula. -/
def lexFrom : LexState → List Char → Option (List Tok)
  | st, [] => st.flush
  | st, c :: cs =>
    match lexStep st c with
    | some (out, st') => (lexFrom st' cs).map (out ++ ·)
    | none => none

/-- Modelled from the spec: the units of a formula; `none` for a character
that belongs to no unit. -/
def lex (formula : String) : Option (List Tok) :=
  lexFrom LexState.idle formula.toList

/-- Modelled from the spec: `@path.to.value` substitution, resolved against
the bindings before arithmetic parsing; an unresolved reference is an error. -/
def substitute (bindings : String → Option ℚ) : List Tok → Option (List Tok)
  | [] => some []
  | Tok.ref p :: ts =>
    match bindings p, substitute bindings ts with
    | some v, some r => some (Tok.val v :: r)
    | _, _ => none
  | t :: ts => (substitute bindings ts).map (t :: ·)

/-- Modelled from the spec: arithmetic expressions over numbers and dice
terms, with the functions `floor`, `abs`, `max`, `min`. -/
inductive Expr
  | lit (q : ℚ)
  | dice (n m : Nat)
  | neg (e : Expr)
  | add (a b : Expr)
  | sub (a b : Expr)
  | mul (a b : Expr)
  | div (a b : Expr)
  | floor (e : Expr)
  | abs (e : Expr)
  | max (a b : Expr)
  | min (a b : Expr)
  deriving DecidableEq

/-- Modelled from the spec: what the reader of an expression is looking for:
a sum, the rest of a sum after its left operand, a product, the rest of a
product, or an operand. -/
inductive Mode
  | sum
  | sumRest (lhs : Expr)
  | prod
  | prodRest (lhs : Expr)
  | operand

/-- Modelled from the spec: a call of a function of one argument. -/
def call1 (name : String) (a : Expr) : Option Expr :=
  if name = "floor" then some (Expr.floor a)
  else if name = "abs" then some (Expr.abs a)
  else none

/-- Modelled from the spec: a call of a function of two arguments. -/
def call2 (name : String) (a b : Expr) : Option Expr :=
  if name = "max" then some (Expr.max a b)
  else if name = "min" then some (Expr.min a b)
  else none

/-- Modelled from the spec: arithmetic parsing, with the usual precedence of
`*` and `/` over `+` and `-` and association to the left; it gives the
expression read and the units left.  The first argument bounds the depth of
the reading. -/
def parseExpr : Nat → Mode → List Tok → Option (Expr × List Tok)
  | 0, _, _ => none
  | f + 1, Mode.sum, ts =>
    match parseExpr f Mode.prod ts with
    | some (a, r) => parseExpr f (Mode.sumRest a) r
    | none => none
  | f + 1, Mode.sumRest a, Tok.plus :: ts =>
    match parseExpr f Mode.prod ts with
    | some (b, r) => parseExpr f (Mode.sumRest (Expr.add a b)) r
    | none => none
  | f + 1, Mode.sumRest a, Tok.minus :: ts =>
    match parseExpr f Mode.prod ts with
    | some (b, r) => parseExpr f (Mode.sumRest (Expr.sub a b)) r
    | none => none
  | _ + 1, Mode.sumRest a, ts => some (a, ts)
  | f + 1, Mode.prod, ts =>
    match parseExpr f Mode.operand ts with
    | some (a, r) => parseExpr f (Mode.prodRest a) r
    | none => none
  | f + 1, Mode.prodRest a, Tok.times :: ts =>
    match parseExpr f Mode.operand ts with
    | some (b, r) => parseExpr f (Mode.prodRest (Expr.mul a b)) r
    | none => none
  | f + 1, Mode.prodRest a, Tok.slash :: ts =>
    match parseExpr f Mode.operand ts with
    | some (b, r) => parseExpr f (Mode.prodRest (Expr.div a b)) r
    | none => none
  | _ + 1, Mode.prodRest a, ts => some (a, ts)
  | f + 1, Mode.operand, Tok.minus :: ts =>
    (parseExpr f Mode.operand ts).map fun p => (Expr.neg p.1, p.2)
  | _ + 1, Mode.operand, Tok.num n :: ts => some (Expr.lit n, ts)
  | _ + 1, Mode.operand, Tok.val q :: ts => some (Expr.lit q, ts)
  | _ + 1, Mode.operand, Tok.dice n m :: ts => some (Expr.dice n m, ts)
  | f + 1, Mode.operand, Tok.lparen :: ts =>
    match parseExpr f Mode.sum ts with
    | some (e, Tok.rparen :: r) => some (e, r)
    | _ => none
  | f + 1, Mode.operand, Tok.fn name :: Tok.lparen :: ts =>
    match parseExpr f Mode.sum ts with
    | some (a, Tok.rparen :: r) => (call1 name a).map fun e => (e, r)
    | some (a, Tok.comma :: r) =>
      match parseExpr f Mode.sum r with
      | some (b, Tok.rparen :: r') => (call2 name a b).map fun e => (e, r')
      | _ => none
    | _ => none
  | _ + 1, Mode.operand, _ => none

/-- Modelled from the spec: the expression that a sequence of units spells;
malformed syntax is an error. -/
def parseFormula (ts : List Tok) : Option Expr :=
  match parseExpr (4 * ts.length + 4) Mode.sum ts with
  | some (e, []) => some e
  | _ => none

/-- Modelled from the spec: the sum of `n` draws of a die of `m` sides taken
from the forced draws, each of which has to lie in `[1, m]`, and the draws
left. -/
def takeDraws : Nat → Nat → List Nat → Option (Nat × List Nat)
  | 0, _, ds => some (0, ds)
  | _ + 1, _, [] => none
  | n + 1, m, d :: ds =>
    if 1 ≤ d ∧ d ≤ m then (takeDraws n m ds).map fun p => (d + p.1, p.2) else none

/-- Modelled from the spec: the value of an expression, its dice drawn in
order from the list of forced draws, and the draws left; a division by zero
is an error. -/
def evalExpr : Expr → List Nat → Option (ℚ × List Nat)
  | Expr.lit q, ds => some (q, ds)
  | Expr.dice n m, ds => (takeDraws n m ds).map fun p => ((p.1 : ℚ), p.2)
  | Expr.neg e, ds => (evalExpr e ds).map fun p => (-p.1, p.2)
  | Expr.add a b, ds =>
    (evalExpr a ds).bind fun p => (evalExpr b p.2).map fun q => (p.1 + q.1, q.2)
  | Expr.sub a b, ds =>
    (evalExpr a ds).bind fun p => (evalExpr b p.2).map fun q => (p.1 - q.1, q.2)
  | Expr.mul a b, ds =>
    (evalExpr a ds).bind fun p => (evalExpr b p.2).map fun q => (p.1 * q.1, q.2)
  | Expr.div a b, ds =>
    (evalExpr a ds).bind fun p => (evalExpr b p.2).bind fun q =>
      if q.1 = 0 then none else some (p.1 / q.1, q.2)
  | Expr.floor e, ds => (evalExpr e ds).map fun p => (((⌊p.1⌋ : Int) : ℚ), p.2)
  | Expr.abs e, ds => (evalExpr e ds).map fun p => (|p.1|, p.2)
  | Expr.max a b, ds =>
    (evalExpr a ds).bind fun p => (evalExpr b p.2).map fun q => (Max.max p.1 q.1, q.2)
  | Expr.min a b, ds =>
    (evalExpr a ds).bind fun p => (evalExpr b p.2).map fun q => (Min.min p.1 q.1, q.2)

/-- Modelled from the spec: `evaluate(formula, bindings)` with the dice taken
from a list of forced draws: the references are resolved, the formula is
parsed and its value computed; `none` stands for `FormulaError`. -/
def evaluate (formula : String) (bindings : String → Option ℚ) (draws : List Nat) : Option ℚ :=
  (lex formula).bind fun ts => (substitute bindings ts).bind fun ts' =>
    (parseFormula ts').bind fun e => (evalExpr e draws).map Prod.fst

/-- The number held by a value of the roll data, when it is a number. -/
def JsNum.value : JsNum → Option ℚ
  | JsNum.num n => some (n : ℚ)
  | _ => none

/-- The number at a property path of the roll data
(`rollData.attributes.bab.total` for `attributes.bab.total`), for the paths
that the two composers write in their formulas. -/
def RollData.binding (rd : RollData) (path : String) : Option ℚ :=
  match rd.abilities.find? fun e => "abilities." ++ e.1 ++ ".mod" = path with
  | some e => e.2.value
  | none =>
    if path = "sizeBonus" then rd.sizeBonus.value
    else if path = "attributes.attack.general" then rd.attackGeneral.value
    else if path = "attributes.attack.melee" then rd.attackMelee.value
    else if path = "attributes.attack.ranged" then rd.attackRanged.value
    else if path = "attributes.bab.total" then rd.babTotal.value
    else if path = "attributes.energyDrain" then rd.energyDrain.value
    else if path = "attributes.damage.general" then rd.damageGeneral.value
    else if path = "attributes.damage.weapon" then rd.damageWeapon.value
    else if path = "attributes.damage.spell" then rd.damageSpell.value
    else if path = "item.enh" then rd.itemEnh.value
    else if path = "item.proficiencyPenalty" then rd.itemProficiencyPenalty.value
    else if path = "item.masterworkBonus" then rd.itemMasterworkBonus.value
    else if path = "cl" then rd.cl.value
    else if path = "critMult" then rd.critMult.value
    else if path = "ablDamage" then rd.ablDamage.value
    else if path = "ablMult" then rd.ablMult
    else none

/-- Roll data with strength modifier 3 and base attack bonus 5, every other
modifier zero. -/
def strikeRollData : RollData :=
  { plainRollData with abilities := [("str", JsNum.num 3), ("dex", JsNum.num 0)], babTotal := JsNum.num 5 }

/-! ## `ItemPF.roll` and the ownership check -/

/-- What `roll` does, seen from outside. -/
inductive RollOutcome where
  /-- The call `ui.notifications.warn` with the message key, followed by `return`. -/
  | warn (key : String)
  /-- The read `this.actor.token` throws: the item has no actor. -/
  | throws
  /-- The chat card is rendered and the chat message created. -/
  | chatMessage
  deriving DecidableEq

/-- The method `ItemPF.roll` up to the rendering of the chat card. -/
def roll (item : UsableItem) : RollOutcome :=
  if item.ledger.actorSpellbooks ≠ none ∧ item.actorIsOwner = false then
    RollOutcome.warn "D35E.ErrorNoActorPermission"
  else if item.ledger.actorSpellbooks = none then RollOutcome.throws
  else RollOutcome.chatMessage

/-- The persistence calls issued by the steps of `use` / `useAttack` modelled
here, in their order. -/
def UseEvent.writes : UseEvent → List LedgerWrite
  | UseEvent.addCharges _ (some r) => r.writes
  | _ => []

/-! ## `getMinimumCasterLevelBySpellData` and the labels of `toConsumable` -/

/-- The list `learnedAt` built by the `reduce` of
`getMinimumCasterLevelBySpellData`: one entry per class name of
`o[0].split("/")`, with the level `o[1]`. -/
def learnedAtClasses (learnedAt : List (JsString × Int)) : List (JsString × Int) :=
  learnedAt.foldl
    (fun cur o => (jsSplit ['/'] o.1).foldl (fun cur cls => cur ++ [(cls, o.2)]) cur)
    []

/-- The static method `getMinimumCasterLevelBySpellData(itemData)`: the pair
`[sl, cl]`, from the field `learnedAt.class` of the spell. -/
def getMinimumCasterLevelBySpellData (learnedAt : List (JsString × Int)) : Int × Int :=
  (learnedAtClasses learnedAt).foldl
    (fun result o => (min result.1 o.2, min result.2 (1 + max 0 (o.2 - 1) * 2)))
    (9, 20)

/-- The `switch (slcl[1])` of `toConsumable` under
`// Determine caster level label`. -/
def clLabel (slcl : Int × Int) : String :=
  if slcl.2 = 1 then "1st"
  else if slcl.2 = 2 then "2nd"
  else if slcl.2 = 3 then "3rd"
  else toString slcl.2 ++ "th"

/-- The `switch (slcl[0])` of `toConsumable` under
`// Determine spell level label`. -/
def slLabel (slcl : Int × Int) : String :=
  if slcl.1 = 1 then "1st"
  else if slcl.1 = 2 then "2nd"
  else if slcl.1 = 3 then "3rd"
  else toString slcl.2 ++ "th"

/-- The ordinal of a number as the two labels are meant to read: `1st`, `2nd`,
`3rd`, otherwise `<n>th`. -/
def ordinalLabel (n : Int) : String :=
  if n = 1 then "1st"
  else if n = 2 then "2nd"
  else if n = 3 then "3rd"
  else toString n ++ "th"

/-- The pair `(slLabel, clLabel)` that `toConsumable` hands to the description
template for a source spell. -/
def toConsumableLabels (learnedAt : List (JsString × Int)) : String × String :=
  (slLabel (getMinimumCasterLevelBySpellData learnedAt),
    clLabel (getMinimumCasterLevelBySpellData learnedAt))

/-! ## `polymorphBuffFromActor` -/

/-- The text of the action `Set Portrait` of the activation lists. -/
def setPortraitAction (tokenImg : String) : BuffAction :=
  ⟨"Set Portrait", ("Update set data.shapechangeImg to " ++ tokenImg ++ " on self").toList⟩

/-- The list `data.data.activateActions` set by `polymorphBuffFromActor`. -/
def polymorphActivateActions (tokenImg type : String) : List BuffAction :=
  if type = "wildshape" then
    [⟨"Activate Wildshape", "Condition set wildshaped to true on self".toList⟩,
      setPortraitAction tokenImg,
      ⟨"Meld weapons", "Set attack * field data.melded to true on self; Set weapon * field data.melded to true on self; Set equipment * field data.melded to true on self".toList⟩]
  else if type = "polymorph" then
    [⟨"Activate Polymorph", "Condition set polymorph to true on self".toList⟩,
      setPortraitAction tokenImg,
      ⟨"Meld weapons", "Set attack:natural * field data.melded to true on self;".toList⟩]
  else if type = "alter-self" then [setPortraitAction tokenImg]
  else []

/-- The list `data.data.deactivateActions` set by `polymorphBuffFromActor`. -/
def polymorphDeactivateActions (type : String) : List BuffAction :=
  if type = "wildshape" then
    [⟨"Deactivate Wildshape", "Condition set wildshaped to false on self".toList⟩,
      ⟨"Unmeld weapons", "Set attack * field data.melded to false on self; Set weapon * field data.melded to false on self; Set equipment * field data.melded to false on self".toList⟩,
      setPortraitAction "icons/svg/mystery-man.svg"]
  else if type = "polymorph" then
    [⟨"Deactivate Polymorph", "Condition set polymorph to false on self".toList⟩,
      ⟨"Unmeld weapons", "Set attack:natural * field data.melded to false on self;".toList⟩,
      setPortraitAction "icons/svg/mystery-man.svg"]
  else if type = "alter-self" then [setPortraitAction "icons/svg/mystery-man.svg"]
  else []

/-- The static method `polymorphBuffFromActor(data, origData, type)`, as far as
the lifecycle reads its result: `template` is the buff template passed as
`data`, `origName`, `tokenImg` and `origItems` are `origData.name`,
`origData.data.tokenImg` and `origData.items`. -/
def polymorphBuffFromActor (template : BuffItem) (origName tokenImg : String)
    (origItems : List OwnedItemData) (type : String) : BuffItem :=
  { template with
    name := origName
    buffType := "shapechange"
    shapechangeType := type
    sourceName := origName
    sourceItems := origItems
    activateActions := polymorphActivateActions tokenImg type
    deactivateActions := polymorphDeactivateActions type }

/-! ## The dispatch loop of the chat-card handler -/

/-- A call made by the branch `customAction` of `_onChatCardAction`. -/
inductive CardCall where
  /-- The call `actor.applyActionOnSelf(actionData, actor)`. -/
  | applyActionOnSelf (directive : ActionData)
  /-- The call `ActorPF.applyAction(actionData, actor)`. -/
  | applyAction (directive : ActionData)
  deriving DecidableEq

/-- The loop of the branch `customAction` of `_onChatCardAction`: every
directive of the action value is dispatched, by its target scope. -/
def customAction (actionValue : JsString) : List CardCall :=
  (parseAction actionValue).foldl
    (fun calls actionData =>
      if actionData.target = selfWord then calls ++ [CardCall.applyActionOnSelf actionData]
      else calls ++ [CardCall.applyAction actionData])
    []

/-- Whether the call is the one for directives of scope `target`. -/
def CardCall.isRouted : CardCall → Bool
  | CardCall.applyAction _ => true
  | CardCall.applyActionOnSelf _ => false

/-! ## Vocabulary used to state the lifecycle properties -/

/-- The directives of a list of actions: the concatenation, in declaration
order, of `parseAction(a.action)` over its entries. -/
def parsedDirectives (actions : List BuffAction) : List ActionData :=
  actions.flatMap fun a => parseAction a.action

/-- The directives of a list of actions whose target scope is `self`. -/
def selfDirectives (actions : List BuffAction) : List ActionData :=
  (parsedDirectives actions).filter fun d => decide (d.target = selfWord)

/-- The test `i.type === "attack" && i.data.attackType === "natural"`. -/
def OwnedItemData.isNaturalAttack (i : OwnedItemData) : Bool :=
  decide (i.type = "attack" ∧ i.attackType = "natural")

/-- The data handed to `createOwnedItem` for a source item: the copy with the
name extended and `_id` deleted. -/
def polymorphClone (item : BuffItem) (i : OwnedItemData) : OwnedItemData :=
  { i with name := i.name ++ " (Polymorhped " ++ item.sourceName ++ ")", id := none }

/-- The test on the buff under which natural attacks are cloned and removed. -/
def BuffItem.isShapechange (item : BuffItem) : Bool :=
  decide (item.buffType = "shapechange" ∧
    (item.shapechangeType = "wildshape" ∨ item.shapechangeType = "polymorph"))

/-- The directives applied by a list of calls, in order. -/
def appliedDirectives (calls : List ActorCall) : List ActionData :=
  calls.filterMap fun c =>
    match c with
    | ActorCall.applyActionOnSelf _ d => some d
    | _ => none

/-- The data of the items created by a list of calls, in order. -/
def createdItems (calls : List ActorCall) : List OwnedItemData :=
  calls.filterMap fun c =>
    match c with
    | ActorCall.createOwnedItem _ d => some d
    | _ => none

/-- The identifiers of the items deleted by a list of calls, in order. -/
def deletedIds (calls : List ActorCall) : List (Option String) :=
  calls.filterMap fun c =>
    match c with
    | ActorCall.deleteOwnedItem _ id => some id
    | _ => none

/-- The item after `addElapsedTime(time)`, the `update` it calls included;
`none` when the item is deleted from its actor. -/
def afterElapsedTime (rollTotal : String → Int) (item : BuffItem) (time : Int) :
    Option BuffItem :=
  match addElapsedTime item time with
  | ElapsedRequest.nothing => some item
  | ElapsedRequest.update data => some (update rollTotal item data).item
  | ElapsedRequest.deleteOwnedItem _ => none

/-- The calls made on the actor by `addElapsedTime(time)` through the `update`
it calls. -/
def elapsedTimeCalls (rollTotal : String → Int) (item : BuffItem) (time : Int) :
    List ActorCall :=
  match addElapsedTime item time with
  | ElapsedRequest.update data => (update rollTotal item data).calls
  | _ => []

/-- The property `timeline.elapsed ≤ timeline.total` of an active buff (true of
an inactive buff and of an item without timeline). -/
def elapsedWithinTotal (item : BuffItem) : Bool :=
  match item.timeline with
  | some tl => !item.active || decide (tl.elapsed ≤ tl.total)
  | none => true

/-- Whether the timeline of the item has a formula from which `update`
re-evaluates the total. -/
def hasTimelineFormula (item : BuffItem) : Bool :=
  match item.timeline.bind fun t => t.formula with
  | some f => decide (f ≠ "")
  | none => false

/-! ## Inputs used in the lifecycle examples -/

/-- A consumable without action, with one use left, whose actor the user does
not own. -/
def foreignPotion : UsableItem :=
  { ledger := potionItem, hasAction := false, actorIsOwner := false }

/-- The active buff two rounds before the end of its sixty rounds. -/
def expiringBuff : BuffItem :=
  { activeBuff with timeline := some ⟨true, 58, 60, false, none⟩ }

/-- The same buff as an item that no actor owns. -/
def ownerlessBuff : BuffItem :=
  { expiringBuff with actor := none }

/-- A natural bite attack of a creature. -/
def biteAttack : OwnedItemData :=
  { id := some "src1", name := "Bite", type := "attack", attackType := "natural", melded := false }

/-- A natural claw attack that an actor owns. -/
def clawAttack : OwnedItemData :=
  { id := some "own1", name := "Claw", type := "attack", attackType := "natural", melded := false }

/-- An inactive buff without actions and timeline, owned by an actor without
token that has a claw attack. -/
def blankBuff : BuffItem :=
  { id := "buff2", name := "", active := false, buffType := "", shapechangeType := "",
    sourceName := "", sourceItems := [], activateActions := [], deactivateActions := [],
    timeline := none, actor := some ⟨false, [clawAttack]⟩ }

/-- The wildshape buff made from a wolf that has a bite attack. -/
def wolfShape : BuffItem :=
  polymorphBuffFromActor blankBuff "Wolf" "wolf.png" [biteAttack] "wildshape"

/-- The wildshape buff made from a wolf whose bite attack is flagged melded. -/
def meldedWolfShape : BuffItem :=
  polymorphBuffFromActor blankBuff "Wolf" "wolf.png" [{ biteAttack with melded := true }] "wildshape"

/-- A roll evaluator that knows the constant formula `2`. -/
def constantRoll : String → Int := fun f => if f = "2" then 2 else 0

/-- The expiring buff with `deleteOnExpiry` set, owned by no actor. -/
def ownerlessVanishingBuff : BuffItem :=
  { ownerlessBuff with timeline := some ⟨true, 58, 60, true, none⟩ }

/-- The active buff five rounds into its ten rounds, without timeline formula. -/
def tickingBuff : BuffItem :=
  { activeBuff with timeline := some ⟨true, 5, 10, false, none⟩ }

/-- The same buff with the constant timeline formula `2`. -/
def formulaBuff : BuffItem :=
  { activeBuff with timeline := some ⟨true, 5, 10, false, some "2"⟩ }

/-- An inactive buff whose only activation action has the scope `target`. -/
def targetBuff : BuffItem :=
  { blankBuff with activateActions := [⟨"Bless ally", "Condition set blessed to true on target".toList⟩] }

/-- A polymorph buff without actions, made by hand from a wolf with a bite attack. -/
def plainShape : BuffItem :=
  { blankBuff with buffType := "shapechange", shapechangeType := "polymorph", sourceName := "Wolf", sourceItems := [biteAttack] }

/-- The clone of the bite attack as stored on the actor, under a new identifier. -/
def storedBiteClone : OwnedItemData :=
  { polymorphClone plainShape biteAttack with id := some "new1" }

/-- The hand-made polymorph buff once active: its actor owns the claw attack
and the stored clone of the bite. -/
def plainShapeOn : BuffItem :=
  { plainShape with active := true, actor := some ⟨false, [clawAttack, storedBiteClone]⟩ }

/-- The wildshape buff of the melded bite once active: the claw attack of the
actor is melded by the activation directives, and the actor owns the stored
clone of the bite, melded as its source. -/
def meldedWolfShapeOn : BuffItem :=
  { meldedWolfShape with active := true, actor := some ⟨false, [{ clawAttack with melded := true }, { storedBiteClone with melded := true }]⟩ }

/-- A spell learned by wizards at spell level 4. -/
def fourthLevelSpell : List (JsString × Int) := [("wizard".toList, 4)]

/-- A power-point spellbook holding two points. -/
def drainedBook : Spellbook :=
  { psionicBook with powerPoints := JsNum.num 2 }

/-- The power with a cost of three points in the spellbook holding two, with an
action, on an actor the user owns; it has no `uses.per`. -/
def drainedPower : UsableItem :=
  { ledger := { psionicPower with actorSpellbooks := some [("primary", drainedBook)] }, hasAction := true, actorIsOwner := true }

/-- The same power with uses by charges. -/
def chargedDrainedPower : UsableItem :=
  { drainedPower with ledger := { drainedPower.ledger with usesPer := some "charges" } }

/-! ## The list `parts` of `rollAttack` in closed form -/

/-- The list `parts` that `rollAttack` joins after `1d20`: each term under the
condition of the statement that pushes it, read on the roll data passed in, in
the order of the statements. -/
def attackTermList (sizeMods : String → JsNum) (item : RollItem) (rollData : RollData)
    (options : AttackOptions) : List String :=
  (if item.abilityAttack ≠ "" ∧ abilityModNonZero rollData item.abilityAttack = true
    then ["@abilities." ++ item.abilityAttack ++ ".mod"] else []) ++
  (options.parts.getD [] ++
  ((if (sizeMods rollData.traitsSize).strictNeZero = true then ["@sizeBonus"] else []) ++
  ((if item.attackBonus ≠ "" then ["@item.attackBonus"] else []) ++
  ((if rollData.attackGeneral.strictNeZero = true then ["@attributes.attack.general"] else []) ++
  ((if item.actionType ∈ ["mwak", "msak"] ∧ rollData.attackMelee.strictNeZero = true
    then ["@attributes.attack.melee"]
    else if item.actionType ∈ ["rwak", "rsak"] ∧ rollData.attackRanged.strictNeZero = true
    then ["@attributes.attack.ranged"] else []) ++
  ((if rollData.babTotal.strictNeZero = true ∧ rollData.babTotal.notNullish = true
    then ["@attributes.bab.total"] else []) ++
  ((if rollData.itemEnh.strictNeZero = true ∧ rollData.itemEnh.notNullish = true
    then ["@item.enh"] else []) ++
  ((if rollData.energyDrain.notNullish = true ∧ rollData.energyDrain.strictNeZero = true
    then ["- max(0, abs(@attributes.energyDrain))"] else []) ++
  ((if item.type = "attack" ∧ item.proficient = false
    then ["@item.proficiencyPenalty"] else []) ++
  ((if item.type = "attack" ∧ item.masterwork = true ∧ item.enh.ltOne = true
    then ["@item.masterworkBonus"] else []) ++
  ((if options.primaryAttack = some false then ["-5"] else []) ++
  ((if options.bonus.notNullish = true then ["@bonus"] else []) ++
  options.extraParts.getD []))))))))))))

/-- The texts of the terms that `rollAttack` pushes itself. -/
def optionalAttackTerms (item : RollItem) : List String :=
  ["@abilities." ++ item.abilityAttack ++ ".mod", "@sizeBonus", "@item.attackBonus",
    "@attributes.attack.general", "@attributes.attack.melee", "@attributes.attack.ranged",
    "@attributes.bab.total", "@item.enh", "- max(0, abs(@attributes.energyDrain))",
    "@item.proficiencyPenalty", "@item.masterworkBonus", "-5", "@bonus"]

/-- A spell with attack ability `str` that names a spellbook its actor does
not have; every other field as the melee attack item. -/
def straySpell : RollItem :=
  { swordItem with type := "spell" }

/-! # Theorems -/

/-! ## Resource ledger -/

/-- C1 (evaluation at the failing input): for an item with periodic charges
holding 1 charge, and for a single-use item of quantity 1, `addCharges(-5)`
writes the value -4: the value written by `addCharges` is not floored at zero. -/
theorem addCharges_writes_negative :
    addCharges wandItem (-5) none
        = some ⟨none, [LedgerWrite.itemUpdate { usesValue := JsNum.num (-4) }]⟩ ∧
      addCharges potionItem (-5) none
        = some ⟨none, [LedgerWrite.itemUpdate { quantity := JsNum.num (-4) }]⟩ ∧
      addCharges wandItem (-5) (some {})
        = some ⟨some { usesValue := JsNum.num (-4) }, []⟩ := by
  decide

lemma JsNum.max0_not_negative (v : JsNum) : ¬ v.max0.isNegative := by
  cases v with
  | num n => simp [JsNum.max0, JsNum.isNegative]
  | _ => simp [JsNum.max0, JsNum.isNegative]

lemma newSpellCharges_not_negative (item : LedgerItem) (spellbook : Spellbook) (value : Int) :
    ¬ (newSpellCharges item spellbook value).isNegative := by
  unfold newSpellCharges
  split_ifs <;> exact JsNum.max0_not_negative _

lemma writeSpellCharges_floor (item : LedgerItem) (spellbook : Spellbook) (value : Int) :
    ∀ w ∈ (writeSpellCharges item spellbook value none).writes, ∀ v ∈ w.value,
      ¬ v.isNegative := by
  have hn := newSpellCharges_not_negative item spellbook value
  unfold writeSpellCharges
  dsimp only
  split_ifs <;> intro w hw v hv <;> simp only [List.mem_singleton] at hw <;> subst hw <;>
    simp only [LedgerWrite.value, List.mem_cons, List.mem_singleton, List.not_mem_nil,
      or_false] at hv
  all_goals first
    | (subst hv; exact hn)
    | (rcases hv with rfl | rfl | rfl
       · simp [JsNum.isNegative]
       · simp [JsNum.isNegative]
       · exact hn)

/-- The sibling path: every value that `addSpellUses` sends to persistence when
called without an update object is floored at zero. -/
lemma addSpellUses_floor (item : LedgerItem) (value : Int) (r : LedgerResult)
    (h : addSpellUses item value none = some r) :
    ∀ w ∈ r.writes, ∀ v ∈ w.value, ¬ v.isNegative := by
  unfold addSpellUses at h
  cases hb : item.actorSpellbooks with
  | none => rw [hb] at h; simp only [Option.some.injEq] at h; subst h; simp
  | some books =>
    rw [hb] at h
    dsimp only at h
    split_ifs at h
    · simp only [Option.some.injEq] at h; subst h; simp
    · simp only [Option.some.injEq] at h; subst h; simp
    · cases hf : (books.find? fun e => e.1 = item.spellbook).map Prod.snd with
      | none => rw [hf] at h; exact absurd h (by simp)
      | some spellbook =>
        rw [hf] at h
        simp only [Option.some.injEq] at h
        subst h
        exact writeSpellCharges_floor item spellbook value

/-! ## Buff lifecycle -/

/-- C2 (evaluation at the failing input): on an active buff, an update whose
patch only sets `data.timeline.elapsed`, and one whose patch only sets the
name, dispatch the deactivation directive although the buff stays active. -/
theorem update_without_active_key_dispatches_deactivation :
    (update (fun _ => 0) activeBuff { elapsed := some 5 }).calls
        = [ActorCall.applyActionOnSelf false
            ⟨"Condition".toList, [],
              some ["set".toList, "blessed".toList, "to".toList, "false".toList], selfWord⟩] ∧
      (update (fun _ => 0) activeBuff { elapsed := some 5 }).item.active = true ∧
      (update (fun _ => 0) activeBuff { name := some "Bless II" }).calls
        = [ActorCall.applyActionOnSelf false
            ⟨"Condition".toList, [],
              some ["set".toList, "blessed".toList, "to".toList, "false".toList], selfWord⟩] ∧
      (update (fun _ => 0) activeBuff { name := some "Bless II" }).item.active = true := by
  decide

/-! ## Directive parser -/

lemma matchScope_sound : ∀ (s p w : JsString), matchScope s = some (p, w) →
    (w = selfWord ∨ w = targetWord) ∧
      ∃ post, s = p ++ ([' ', 'o', 'n', ' '] ++ w) ++ post := by
  intro s
  induction s with
  | nil => intro p w h; simp [matchScope] at h
  | cons c t ih =>
    intro p w h
    unfold matchScope at h
    split_ifs at h with h1 h2 h3
    · simp only [Option.some.injEq, Prod.mk.injEq] at h
      obtain ⟨rfl, rfl⟩ := h
      obtain ⟨post, hp⟩ := List.isPrefixOf_iff_prefix.mp h1
      exact ⟨Or.inr rfl, post, by rw [← hp]; rfl⟩
    · simp only [Option.some.injEq, Prod.mk.injEq] at h
      obtain ⟨rfl, rfl⟩ := h
      obtain ⟨post, hp⟩ := List.isPrefixOf_iff_prefix.mp h2
      exact ⟨Or.inl rfl, post, by rw [← hp]; rfl⟩
    · cases hm : matchScope t with
      | none => simp [hm] at h
      | some r =>
        obtain ⟨p', w'⟩ := r
        simp only [hm, Option.map_some', Option.some.injEq, Prod.mk.injEq] at h
        obtain ⟨rfl, rfl⟩ := h
        obtain ⟨hw, post, hp⟩ := ih p' w' hm
        exact ⟨hw, post, by rw [hp]; simp⟩

lemma matchVerbLen_sound (s : JsString) : ∀ (k : Nat) (v p w : JsString),
    matchVerbLen s k = some (v, p, w) →
    ∃ j, 0 < j ∧ j ≤ k ∧ v = s.take j ∧
      ∃ rest, s.drop j = ' ' :: rest ∧ matchScope rest = some (p, w) := by
  intro k
  induction k with
  | zero => intro v p w h; simp [matchVerbLen] at h
  | succ k ih =>
    intro v p w h
    have step : matchVerbLen s k = some (v, p, w) →
        ∃ j, 0 < j ∧ j ≤ k + 1 ∧ v = s.take j ∧
          ∃ rest, s.drop j = ' ' :: rest ∧ matchScope rest = some (p, w) := by
      intro h'
      obtain ⟨j, h0, hj, hv, hr⟩ := ih v p w h'
      exact ⟨j, h0, Nat.le_succ_of_le hj, hv, hr⟩
    unfold matchVerbLen at h
    split at h
    · rename_i c rest hd
      split_ifs at h with hc
      · cases hm : matchScope rest with
        | none => rw [hm] at h; exact step h
        | some r =>
          rw [hm] at h
          simp only [Option.some.injEq, Prod.mk.injEq] at h
          obtain ⟨rfl, rfl, rfl⟩ := h
          exact ⟨k + 1, Nat.succ_pos k, le_refl _, rfl, rest, by rw [hd, hc], by rw [hm]⟩
      · exact step h
    · exact step h

lemma take_takeWhile_all (f : Char → Bool) (s : JsString) (j : Nat)
    (hj : j ≤ (s.takeWhile f).length) : ∀ c ∈ s.take j, f c = true := by
  induction s generalizing j with
  | nil => simp
  | cons a t ih =>
    cases j with
    | zero => simp
    | succ j =>
      by_cases ha : f a = true
      · simp only [List.takeWhile_cons, ha, ↓reduceIte, List.length_cons,
          Nat.add_le_add_iff_right] at hj
        intro c hc
        simp only [List.take_succ_cons, List.mem_cons] at hc
        rcases hc with rfl | hc
        · exact ha
        · exact ih j hj c hc
      · simp [List.takeWhile_cons, ha] at hj

lemma matchAction_sound : ∀ (s v p w : JsString), matchAction s = some (v, p, w) →
    v ≠ [] ∧ (∀ c ∈ v, isAsciiLetter c = true) ∧ (w = selfWord ∨ w = targetWord) ∧
      ∃ pre post, s = pre ++ v ++ ' ' :: p ++ ([' ', 'o', 'n', ' '] ++ w) ++ post := by
  intro s
  induction s with
  | nil => intro v p w h; simp [matchAction] at h
  | cons c t ih =>
    intro v p w h
    unfold matchAction at h
    cases hm : matchActionAt (c :: t) with
    | some r =>
      rw [hm] at h
      simp only [Option.some.injEq] at h
      subst h
      obtain ⟨j, h0, hj, hv, rest, hd, hs⟩ := matchVerbLen_sound (c :: t) _ v p w hm
      obtain ⟨hw, post, hp⟩ := matchScope_sound rest p w hs
      refine ⟨?_, ?_, hw, [], post, ?_⟩
      · rw [hv]
        cases j with
        | zero => omega
        | succ j => simp
      · rw [hv]
        exact take_takeWhile_all isAsciiLetter (c :: t) j hj
      · have := List.take_append_drop j (c :: t)
        rw [hd, hp, ← hv] at this
        rw [← this]
        simp
    | none =>
      rw [hm] at h
      obtain ⟨hv, hl, hw, pre, post, hs⟩ := ih v p w h
      exact ⟨hv, hl, hw, c :: pre, post, by rw [hs]; simp⟩

lemma FirstAt.tail {sep : JsString} {c : Char} {a rest : JsString}
    (h : FirstAt sep (c :: a) rest) : FirstAt sep a rest := by
  intro i hi
  have := h (i + 1) (by simpa using hi)
  simpa using this

lemma FirstAt.head {sep : JsString} {c : Char} {a rest : JsString}
    (h : FirstAt sep (c :: a) rest) : sep.isPrefixOf (c :: (a ++ rest)) = false := by
  have := h 0 (by simp)
  rw [Bool.eq_false_iff]
  intro hp
  exact this (by simpa using List.isPrefixOf_iff_prefix.mp hp)

lemma matchScope_self_head (post : JsString) :
    matchScope (onSelf ++ post) = some ([], selfWord) := by
  simp [matchScope, onSelf, onTarget, List.isPrefixOf]

lemma matchScope_target_head (post : JsString) :
    matchScope (onTarget ++ post) = some ([], targetWord) := by
  simp [matchScope, onTarget, List.isPrefixOf]

lemma matchScope_complete (kw w post : JsString)
    (hk : matchScope (kw ++ post) = some ([], w)) :
    ∀ p : JsString, (∀ c ∈ p, isLineTerminator c = false) →
      FirstAt onTarget p (kw ++ post) → FirstAt onSelf p (kw ++ post) →
      matchScope (p ++ (kw ++ post)) = some (p, w) := by
  intro p
  induction p with
  | nil => intro _ _ _; simpa using hk
  | cons c t ih =>
    intro hl ht hs
    have h1 := ht.head
    have h2 := hs.head
    have h3 : isLineTerminator c = false := hl c (by simp)
    have h4 := ih (fun c hc => hl c (by simp [hc])) ht.tail hs.tail
    rw [List.cons_append, matchScope]
    simp only [h1, h2, h3, h4, Bool.false_eq_true, ↓reduceIte, Option.map_some']

lemma takeWhile_append_stop (f : Char → Bool) (v : JsString) (a : Char) (r : JsString)
    (hv : ∀ c ∈ v, f c = true) (ha : f a = false) :
    (v ++ a :: r).takeWhile f = v := by
  induction v with
  | nil => simp [List.takeWhile_cons, ha]
  | cons c t ih =>
    have hc : f c = true := hv c (by simp)
    simp only [List.cons_append, List.takeWhile_cons, hc, ↓reduceIte, List.cons.injEq, true_and]
    exact ih (fun c hc => hv c (by simp [hc]))

lemma matchAction_complete (v rest p w : JsString) (hv : v ≠ [])
    (hl : ∀ c ∈ v, isAsciiLetter c = true) (hs : matchScope rest = some (p, w)) :
    matchAction (v ++ ' ' :: rest) = some (v, p, w) := by
  have htw : (v ++ ' ' :: rest).takeWhile isAsciiLetter = v :=
    takeWhile_append_stop isAsciiLetter v ' ' rest hl (by decide)
  have hat : matchActionAt (v ++ ' ' :: rest) = some (v, p, w) := by
    unfold matchActionAt
    rw [htw]
    cases hlen : v.length with
    | zero => exact absurd (List.length_eq_zero.mp hlen) hv
    | succ k =>
      unfold matchVerbLen
      have hd : (v ++ ' ' :: rest).drop (k + 1) = ' ' :: rest := by
        rw [← hlen]; exact List.drop_left _ _
      have ht : (v ++ ' ' :: rest).take (k + 1) = v := by
        rw [← hlen]; exact List.take_left _ _
      simp only [hd, hs, ht, ↓reduceIte]
  cases v with
  | nil => exact absurd rfl hv
  | cons c t =>
    simp only [List.cons_append] at hat ⊢
    unfold matchAction
    rw [hat]

lemma jsSplitGo_skip (sep : JsString) : ∀ (l c : JsString),
    jsSplitGo sep l.length (l ++ c) = jsSplitGo sep 0 c := by
  intro l
  induction l with
  | nil => intro c; rfl
  | cons a l ih => intro c; simpa [jsSplitGo] using ih c

lemma jsSplit_of_not_includes (sep : JsString) : ∀ s : JsString,
    jsIncludes sep s = false → jsSplit sep s = [s] := by
  intro s
  induction s with
  | nil => intro _; rfl
  | cons c t ih =>
    intro h
    simp only [jsIncludes, Bool.or_eq_false_iff] at h
    have := ih h.2
    unfold jsSplit at this ⊢
    rw [jsSplitGo]
    simp only [h.1, Bool.false_eq_true, ↓reduceIte, this]

lemma jsSplit_first (sep : JsString) (hsep : sep ≠ []) (c : JsString) :
    ∀ a : JsString, FirstAt sep a (sep ++ c) →
      jsSplit sep (a ++ (sep ++ c)) = a :: jsSplit sep c := by
  intro a
  induction a with
  | nil =>
    intro _
    cases sep with
    | nil => exact absurd rfl hsep
    | cons s0 sr =>
      have hp : (s0 :: sr).isPrefixOf (s0 :: (sr ++ c)) = true :=
        List.isPrefixOf_iff_prefix.mpr ⟨c, rfl⟩
      unfold jsSplit
      rw [List.nil_append, List.cons_append, jsSplitGo]
      simp only [hp, ↓reduceIte, List.length_cons, Nat.add_sub_cancel, jsSplitGo_skip]
  | cons x a ih =>
    intro h
    have h1 := h.head
    have h2 := ih h.tail
    unfold jsSplit at h2 ⊢
    rw [List.cons_append, jsSplitGo]
    simp only [h1, Bool.false_eq_true, ↓reduceIte, h2]

lemma jsIncludes_append_sep (sep c : JsString) : ∀ a : JsString,
    jsIncludes sep (a ++ (sep ++ c)) = true := by
  intro a
  induction a with
  | nil =>
    have hp : sep.isPrefixOf (sep ++ c) = true := List.isPrefixOf_iff_prefix.mpr ⟨c, rfl⟩
    cases h : sep ++ c with
    | nil => rw [h] at hp; simpa [jsIncludes] using hp
    | cons x t => rw [h] at hp; simp [jsIncludes, hp]
  | cons x a ih => simp [jsIncludes, ih]

lemma jsIncludes_semicolon : ∀ s : JsString, ';' ∉ s → jsIncludes [';'] s = false := by
  intro s
  induction s with
  | nil => intro _; rfl
  | cons c t ih =>
    intro h
    simp only [List.mem_cons, not_or] at h
    simp only [jsIncludes, ih h.2, Bool.or_false]
    simp only [List.isPrefixOf, Bool.and_true, beq_eq_false_iff_ne, ne_eq]
    exact h.1

lemma wellQuoted_open_mem : ∀ t : JsString, wellQuoted true t = true → dquote ∈ t := by
  intro t
  induction t with
  | nil => intro h; simp [wellQuoted] at h
  | cons c t ih =>
    intro h
    by_cases hc : c = dquote
    · simp [hc]
    · simp only [wellQuoted, hc, ↓reduceIte] at h
      simp [ih h]

lemma groupStar_blank (rest : JsString)
    (hr : rest = [] ∨ ∃ c r, rest = c :: r ∧ isJsWhitespace c = true) :
    groupStar false rest = [] := by
  rcases hr with rfl | ⟨c, r, rfl, hc⟩
  · rfl
  · have h1 : isPlain c = false := by simp [isPlain, hc]
    have h2 : c ≠ dquote := by
      rintro rfl
      exact absurd hc (by decide)
    simp [groupStar, h1, h2]

lemma groupStar_token (rest : JsString)
    (hr : rest = [] ∨ ∃ c r, rest = c :: r ∧ isJsWhitespace c = true) :
    ∀ (t : JsString) (q : Bool), wellQuoted q t = true → groupStar q (t ++ rest) = t := by
  intro t
  induction t with
  | nil =>
    intro q h
    cases q with
    | true => simp [wellQuoted] at h
    | false => simpa using groupStar_blank rest hr
  | cons c t ih =>
    intro q h
    cases q with
    | true =>
      rw [List.cons_append, groupStar]
      by_cases hc : c = dquote
      · simp only [wellQuoted, hc, ↓reduceIte] at h
        simp only [hc, ↓reduceIte, ih false h]
      · simp only [wellQuoted, hc, ↓reduceIte] at h
        simp only [hc, ↓reduceIte, ih true h]
    | false =>
      rw [List.cons_append, groupStar]
      by_cases hc : c = dquote
      · simp only [wellQuoted, hc, ↓reduceIte] at h
        have hm : dquote ∈ t ++ rest := List.mem_append_left _ (wellQuoted_open_mem t h)
        have hp : isPlain dquote = false := by decide
        simp only [hc, hp, Bool.false_eq_true, ↓reduceIte, hm, and_self, ih true h]
      · simp only [wellQuoted, hc, ↓reduceIte, Bool.and_eq_true, Bool.not_eq_true',
          Bool.not_eq_eq_eq_not, Bool.not_true] at h
        have hp : isPlain c = true := by simp [isPlain, h.1, hc]
        simp only [hp, ↓reduceIte, ih false h.2]

lemma scanTokens_succ (k : Nat) (a : Char) (t : JsString) :
    scanTokens (k + 1) (a :: t) = scanTokens k t := rfl

lemma scanTokens_zero (c : Char) (t : JsString) :
    scanTokens 0 (c :: t) =
      match groupStar false (c :: t) with
      | [] => scanTokens 0 t
      | a :: tok => (a :: tok) :: scanTokens tok.length t := rfl

lemma scanTokens_skip : ∀ (l r : JsString), scanTokens l.length (l ++ r) = scanTokens 0 r := by
  intro l
  induction l with
  | nil => intro r; rfl
  | cons a l ih =>
    intro r
    rw [List.cons_append, List.length_cons, scanTokens_succ]
    exact ih r

lemma scanTokens_token (t rest : JsString) (ht : IsToken t)
    (hr : rest = [] ∨ ∃ c r, rest = c :: r ∧ isJsWhitespace c = true) :
    scanTokens 0 (t ++ rest) = t :: scanTokens 0 rest := by
  obtain ⟨hne, hq⟩ := ht
  have hg := groupStar_token rest hr t false hq
  cases t with
  | nil => exact absurd rfl hne
  | cons a tok =>
    rw [List.cons_append] at hg ⊢
    rw [scanTokens_zero]
    simp only [hg, scanTokens_skip]

lemma scanTokens_blank (c : Char) (r : JsString) (hc : isJsWhitespace c = true) :
    scanTokens 0 (c :: r) = scanTokens 0 r := by
  rw [scanTokens_zero]
  simp only [groupStar_blank (c :: r) (Or.inr ⟨c, r, rfl, hc⟩)]

lemma scanTokens_intercalate : ∀ toks : List JsString, (∀ t ∈ toks, IsToken t) →
    scanTokens 0 ([' '].intercalate toks) = toks := by
  intro toks
  induction toks with
  | nil => intro _; rfl
  | cons t ts ih =>
    intro h
    have ht : IsToken t := h t (by simp)
    have hts := ih (fun x hx => h x (by simp [hx]))
    cases ts with
    | nil =>
      have := scanTokens_token t [] ht (Or.inl rfl)
      simpa [List.intercalate] using this
    | cons t' ts' =>
      have he : [' '].intercalate (t :: t' :: ts') = t ++ ' ' :: [' '].intercalate (t' :: ts') := by
        simp [List.intercalate, List.intersperse]
      rw [he, scanTokens_token t _ ht (Or.inr ⟨' ', _, rfl, by decide⟩),
        scanTokens_blank ' ' _ (by decide), hts]

lemma jsSplit_semicolon_cons (c : Char) (t : JsString) :
    jsSplit [';'] (c :: t) =
      if c = ';' then [] :: jsSplit [';'] t
      else match jsSplit [';'] t with
        | [] => [[c]]
        | h :: r => (c :: h) :: r := by
  unfold jsSplit
  rw [jsSplitGo]
  by_cases hc : c = ';'
  · subst hc
    simp [List.isPrefixOf]
  · have : ([';'] : JsString).isPrefixOf (c :: t) = false := by
      simp [List.isPrefixOf, Ne.symm hc]
    simp only [this, Bool.false_eq_true, ↓reduceIte, hc]

lemma jsSplit_ne_nil (sep : JsString) : ∀ (k : Nat) (s : JsString), jsSplitGo sep k s ≠ [] := by
  intro k s
  induction s generalizing k with
  | nil => cases k <;> simp [jsSplitGo]
  | cons c t ih =>
    cases k with
    | zero =>
      rw [jsSplitGo]
      split_ifs
      · simp
      · cases h : jsSplitGo sep 0 t with
        | nil => simp
        | cons a b => simp
    | succ k => rw [jsSplitGo]; exact ih k

/-- The segments of `raw.split(";")` joined by `;` give `raw` back, and no
segment holds a `;`. -/
lemma jsSplit_semicolon_spec : ∀ s : JsString,
    [';'].intercalate (jsSplit [';'] s) = s ∧ ∀ seg ∈ jsSplit [';'] s, ';' ∉ seg := by
  intro s
  induction s with
  | nil => exact ⟨rfl, by simp [jsSplit, jsSplitGo]⟩
  | cons c t ih =>
    obtain ⟨hj, hf⟩ := ih
    rw [jsSplit_semicolon_cons]
    have hne : jsSplit [';'] t ≠ [] := jsSplit_ne_nil _ 0 t
    cases hs : jsSplit [';'] t with
    | nil => exact absurd hs hne
    | cons h r =>
      rw [hs] at hj hf
      by_cases hc : c = ';'
      · subst hc
        simp only [↓reduceIte]
        refine ⟨?_, ?_⟩
        · have : [';'].intercalate ([] :: h :: r) = ';' :: [';'].intercalate (h :: r) := by
            simp [List.intercalate, List.intersperse]
          rw [this, hj]
        · intro seg hseg
          simp only [List.mem_cons] at hseg
          rcases hseg with rfl | hseg
          · simp
          · exact hf seg (by simpa using hseg)
      · simp only [hc, ↓reduceIte]
        refine ⟨?_, ?_⟩
        · have : [';'].intercalate ((c :: h) :: r) = c :: [';'].intercalate (h :: r) := by
            cases r <;> simp [List.intercalate, List.intersperse]
          rw [this, hj]
        · intro seg hseg
          simp only [List.mem_cons] at hseg
          rcases hseg with rfl | hseg
          · have := hf h (by simp)
            simp [this, Ne.symm hc]
          · exact hf seg (by simp [hseg])

/-- The loop of `parseAction` keeps, in order, the directives of the groups. -/
lemma parseAction_foldl (groups : List JsString) (acc : List ActionData) :
    groups.foldl
      (fun actions group =>
        match parseGroup group with
        | some d => actions ++ [d]
        | none => actions) acc
      = acc ++ groups.filterMap parseGroup := by
  induction groups generalizing acc with
  | nil => simp
  | cons g gs ih =>
    rw [List.foldl_cons, ih]
    cases h : parseGroup g <;> simp [List.filterMap_cons, h]

/-- The directives returned are those of the segments, in segment order. -/
lemma parseAction_eq_filterMap (raw : JsString) :
    parseAction raw = (jsSplit [';'] raw).filterMap parseGroup := by
  unfold parseAction
  rw [parseAction_foldl]
  simp

/-- C3: `parseAction(raw)` is the concatenation, in segment order, of the
per-segment results for the segments of `raw.split(";")` (the `;`-free pieces
whose join by `;` is `raw`), each segment giving zero or one directive; so N
segments give at most N directives, in the order of their segments. -/
theorem parseAction_concat_of_segments (raw : JsString) :
    parseAction raw = ((jsSplit [';'] raw).map fun g => (parseGroup g).toList).flatten ∧
      (∀ g : JsString, (parseGroup g).toList.length ≤ 1) ∧
      (parseAction raw).length ≤ (jsSplit [';'] raw).length ∧
      [';'].intercalate (jsSplit [';'] raw) = raw ∧
      (∀ seg ∈ jsSplit [';'] raw, ';' ∉ seg) := by
  refine ⟨?_, ?_, ?_, (jsSplit_semicolon_spec raw).1, (jsSplit_semicolon_spec raw).2⟩
  · rw [parseAction_eq_filterMap]
    induction jsSplit [';'] raw with
    | nil => simp
    | cons g gs ih =>
      cases h : parseGroup g <;> simp [List.filterMap_cons, h, ih]
  · intro g
    cases parseGroup g <;> simp
  · rw [parseAction_eq_filterMap]
    exact List.length_filterMap_le _ _

/-- C4: `parseAction("Foo bar")` is empty, and
`parseAction("Condition set wildshaped to true on self")` is the single
directive with action `Condition`, target `self`, parameters
`set`, `wildshaped`, `to`, `true` and an empty condition. -/
theorem parseAction_examples :
    parseAction "Foo bar".toList = [] ∧
      parseAction "Condition set wildshaped to true on self".toList =
        [{ action := "Condition".toList, condition := [],
           parameters := some ["set".toList, "wildshaped".toList, "to".toList, "true".toList],
           target := "self".toList }] := by
  decide

lemma jsIncludes_iff_occurs (sep : JsString) : ∀ s : JsString,
    jsIncludes sep s = true ↔ sep <:+: s := by
  intro s
  induction s with
  | nil => simp [jsIncludes, List.isPrefixOf_iff_prefix]
  | cons c t ih =>
    rw [jsIncludes, Bool.or_eq_true, ih, List.infix_cons_iff, List.isPrefixOf_iff_prefix]

lemma jsIncludes_false_of_absent (sep s : JsString) (h : ¬ sep <:+: s) :
    jsIncludes sep s = false := by
  rw [Bool.eq_false_iff]
  exact fun hi => h ((jsIncludes_iff_occurs sep s).mp hi)

lemma parseAction_single (seg : JsString) (h : ';' ∉ seg) :
    parseAction seg = (parseGroup seg).toList := by
  rw [parseAction_eq_filterMap, jsSplit_of_not_includes _ _ (jsIncludes_semicolon seg h)]
  cases hg : parseGroup seg <;> simp [hg]

lemma parseGroup_of_match (seg text cond v p w : JsString)
    (ht : groupActionText seg = text) (hc : groupCondition seg = cond)
    (hm : matchAction text = some (v, p, w)) :
    parseGroup seg =
      some { action := v, condition := cond, parameters := matchTokens p, target := w } := by
  unfold parseGroup
  rw [ht, hm, hc]

lemma semicolon_not_mem_verb (verb : JsString) (hl : ∀ c ∈ verb, isAsciiLetter c = true) :
    ';' ∉ verb := fun h => absurd (hl ';' h) (by decide)

/-- C5 (counterexample): the pattern is not anchored, so a segment with text
before the verb (`12 Foo bar on self`) and one with text after the scope word
(`Foo bar on selfish`) each produce a directive. -/
theorem parseAction_unanchored_segments :
    parseAction "12 Foo bar on self".toList =
        [{ action := "Foo".toList, condition := [], parameters := some ["bar".toList],
           target := "self".toList }] ∧
      parseAction "Foo bar on selfish".toList =
        [{ action := "Foo".toList, condition := [], parameters := some ["bar".toList],
           target := "self".toList }] := by
  decide

/-- C5 (amended): every directive emitted by `parseAction` comes from a segment
whose text (once an ` if ` suffix is removed) contains, possibly after some
text and possibly followed by more text, `<verb> <params> on <scope>` with a
non-empty alphabetic verb and the scope `self` or `target`; the directive
carries that verb and scope, the tokens of `<params>` and the condition of the
segment.  A segment with no such part yields no directive. -/
theorem parseAction_directive_origin (raw : JsString) (d : ActionData)
    (hd : d ∈ parseAction raw) :
    ∃ seg ∈ jsSplit [';'] raw, ∃ pre params post,
      groupActionText seg =
          pre ++ d.action ++ ' ' :: params ++ ([' ', 'o', 'n', ' '] ++ d.target) ++ post ∧
        d.parameters = matchTokens params ∧ d.condition = groupCondition seg ∧
        d.action ≠ [] ∧ (∀ c ∈ d.action, isAsciiLetter c = true) ∧
        (d.target = selfWord ∨ d.target = targetWord) := by
  rw [parseAction_eq_filterMap, List.mem_filterMap] at hd
  obtain ⟨seg, hseg, hg⟩ := hd
  refine ⟨seg, hseg, ?_⟩
  unfold parseGroup at hg
  cases hm : matchAction (groupActionText seg) with
  | none => simp [hm] at hg
  | some r =>
    obtain ⟨v, p, w⟩ := r
    simp only [hm, Option.some.injEq] at hg
    subst hg
    obtain ⟨hv, hl, hw, pre, post, hs⟩ := matchAction_sound _ v p w hm
    exact ⟨pre, p, post, hs, rfl, rfl, hv, hl, hw⟩

/-- C5 (witness): the directive of `12 Foo bar on self` and its origin. -/
theorem parseAction_directive_origin_witness :
    ∃ seg ∈ jsSplit [';'] "12 Foo bar on self".toList, ∃ pre params post,
      groupActionText seg =
          pre ++ "Foo".toList ++ ' ' :: params ++ ([' ', 'o', 'n', ' '] ++ "self".toList) ++ post ∧
        some ["bar".toList] = matchTokens params ∧ [] = groupCondition seg ∧
        "Foo".toList ≠ [] ∧ (∀ c ∈ "Foo".toList, isAsciiLetter c = true) ∧
        ("self".toList = selfWord ∨ "self".toList = targetWord) :=
  parseAction_directive_origin "12 Foo bar on self".toList
    { action := "Foo".toList, condition := [], parameters := some ["bar".toList],
      target := "self".toList } (by decide)

/-- C6 (counterexample): a segment with the condition placed before the scope
clause, `Foo bar if x on self`, yields no directive. -/
theorem parseAction_condition_before_scope :
    parseAction "Foo bar if x on self".toList = [] := by
  decide

/-- C6 (amended): a segment `<Verb> <params> on self if <condition>`, the
condition being a suffix after the scope clause, is parsed into exactly one
directive with that verb, target `self`, the tokens of the parameter text and
the condition text retained.  Here the verb is alphabetic and non-empty, the
parameter text and the condition hold no `;`, the parameter text holds no line
terminator, the scope clause is the first ` on self` / ` on target` after the
verb, the ` if ` written is the first of the segment and the condition holds
no further ` if `. -/
theorem parseAction_condition_suffix (verb params cond : JsString)
    (hv : verb ≠ []) (hl : ∀ c ∈ verb, isAsciiLetter c = true)
    (hp : ';' ∉ params) (hc : ';' ∉ cond)
    (hlt : ∀ c ∈ params, isLineTerminator c = false)
    (hs1 : FirstAt onTarget params onSelf) (hs2 : FirstAt onSelf params onSelf)
    (hif : FirstAt ifSep (verb ++ ' ' :: params ++ onSelf) (ifSep ++ cond))
    (hc2 : ¬ ifSep <:+: cond) :
    parseAction (verb ++ ' ' :: params ++ onSelf ++ (ifSep ++ cond)) =
      [{ action := verb, condition := cond, parameters := matchTokens params,
         target := selfWord }] := by
  have hsemi : ';' ∉ verb ++ ' ' :: params ++ onSelf ++ (ifSep ++ cond) := by
    have h1 := semicolon_not_mem_verb verb hl
    have h2 : ';' ∉ onSelf := by decide
    have h3 : ';' ∉ ifSep := by decide
    simp [h1, h2, h3, hp, hc]
  rw [parseAction_single _ hsemi]
  have hsplit := jsSplit_first ifSep (by decide) cond _ hif
  rw [jsSplit_of_not_includes _ _ (jsIncludes_false_of_absent _ _ hc2)] at hsplit
  have hinc := jsIncludes_append_sep ifSep cond (verb ++ ' ' :: params ++ onSelf)
  have hscope : matchScope (params ++ (onSelf ++ [])) = some (params, selfWord) :=
    matchScope_complete onSelf selfWord [] (matchScope_self_head []) params hlt
      (by simpa using hs1) (by simpa using hs2)
  have hmatch : matchAction (verb ++ ' ' :: params ++ onSelf) = some (verb, params, selfWord) := by
    have := matchAction_complete verb _ params selfWord hv hl hscope
    simpa using this
  have hga : groupActionText (verb ++ ' ' :: params ++ onSelf ++ (ifSep ++ cond)) =
      verb ++ ' ' :: params ++ onSelf := by
    unfold groupActionText
    rw [hinc, hsplit]
    rfl
  have hgc : groupCondition (verb ++ ' ' :: params ++ onSelf ++ (ifSep ++ cond)) = cond := by
    unfold groupCondition
    rw [hinc, hsplit]
    rfl
  rw [parseGroup_of_match _ _ _ _ _ _ hga hgc hmatch]
  rfl

/-- C6 (witness): `Foo bar on self if x` gives the directive with condition `x`. -/
theorem parseAction_condition_suffix_witness :
    parseAction ("Foo".toList ++ ' ' :: "bar".toList ++ onSelf ++ (ifSep ++ "x".toList)) =
      [{ action := "Foo".toList, condition := "x".toList,
         parameters := matchTokens "bar".toList, target := selfWord }] :=
  parseAction_condition_suffix "Foo".toList "bar".toList "x".toList (by decide) (by decide)
    (by decide) (by decide) (by decide) (by decide) (by decide) (by decide) (by decide)

/-- C7 (counterexample): a double-quoted substring that contains ` on target`
is not kept as one token: the parameter text ends inside the quotes, the only
parameter is `go` and the target is `target`. -/
theorem parseAction_quoted_scope_words :
    parseAction "Say \"go on target now\" on self".toList =
      [{ action := "Say".toList, condition := [], parameters := some ["go".toList],
         target := "target".toList }] := by
  decide

/-- C7 (amended): when the parameter text is a non-empty sequence of tokens
separated by single blanks, each token made of quote-free, blank-free runs and
closed double-quoted substrings, and no ` on self` / ` on target` occurs in it
before the scope clause (not even inside quotes), the directive's parameters
are exactly these tokens in order, a double-quoted substring with its blanks
being one token.  The segment holds no `;`, no ` if ` and no line terminator
in the parameter text. -/
theorem parseAction_parameters_tokens (verb : JsString) (toks : List JsString)
    (kw w : JsString)
    (hkw : (kw = onSelf ∧ w = selfWord) ∨ (kw = onTarget ∧ w = targetWord))
    (hv : verb ≠ []) (hl : ∀ c ∈ verb, isAsciiLetter c = true)
    (hne : toks ≠ []) (ht : ∀ t ∈ toks, IsToken t)
    (hp : ';' ∉ [' '].intercalate toks)
    (hlt : ∀ c ∈ [' '].intercalate toks, isLineTerminator c = false)
    (hs1 : FirstAt onTarget ([' '].intercalate toks) kw)
    (hs2 : FirstAt onSelf ([' '].intercalate toks) kw)
    (hif : ¬ ifSep <:+: verb ++ ' ' :: [' '].intercalate toks ++ kw) :
    parseAction (verb ++ ' ' :: [' '].intercalate toks ++ kw) =
      [{ action := verb, condition := [], parameters := some toks, target := w }] := by
  have hkw2 : ';' ∉ kw := by
    rcases hkw with ⟨rfl, _⟩ | ⟨rfl, _⟩ <;> decide
  have hsemi : ';' ∉ verb ++ ' ' :: [' '].intercalate toks ++ kw := by
    have h1 := semicolon_not_mem_verb verb hl
    simp [h1, hkw2, hp]
  rw [parseAction_single _ hsemi]
  have hinc := jsIncludes_false_of_absent _ _ hif
  have hhead : matchScope (kw ++ []) = some ([], w) := by
    rcases hkw with ⟨rfl, rfl⟩ | ⟨rfl, rfl⟩
    · exact matchScope_self_head []
    · exact matchScope_target_head []
  have hscope : matchScope ([' '].intercalate toks ++ (kw ++ [])) =
      some ([' '].intercalate toks, w) :=
    matchScope_complete kw w [] hhead _ hlt (by simpa using hs1) (by simpa using hs2)
  have hmatch : matchAction (verb ++ ' ' :: [' '].intercalate toks ++ kw) =
      some (verb, [' '].intercalate toks, w) := by
    have := matchAction_complete verb _ _ w hv hl hscope
    simpa using this
  have htok : matchTokens ([' '].intercalate toks) = some toks := by
    unfold matchTokens
    rw [scanTokens_intercalate toks ht]
    cases toks with
    | nil => exact absurd rfl hne
    | cons t ts => rfl
  have hga : groupActionText (verb ++ ' ' :: [' '].intercalate toks ++ kw) =
      verb ++ ' ' :: [' '].intercalate toks ++ kw := by
    unfold groupActionText
    rw [hinc]
    rfl
  have hgc : groupCondition (verb ++ ' ' :: [' '].intercalate toks ++ kw) = [] := by
    unfold groupCondition
    rw [hinc]
    rfl
  rw [parseGroup_of_match _ _ _ _ _ _ hga hgc hmatch, htok]
  rfl

/-- C7 (witness): `Add "Long Sword" from pack on self` gives the three
parameters `"Long Sword"`, `from`, `pack`. -/
theorem parseAction_parameters_tokens_witness :
    parseAction ("Add".toList ++ ' ' ::
        [' '].intercalate ["\"Long Sword\"".toList, "from".toList, "pack".toList] ++ onSelf) =
      [{ action := "Add".toList, condition := [],
         parameters := some ["\"Long Sword\"".toList, "from".toList, "pack".toList],
         target := selfWord }] :=
  parseAction_parameters_tokens "Add".toList
    ["\"Long Sword\"".toList, "from".toList, "pack".toList] onSelf selfWord
    (Or.inl ⟨rfl, rfl⟩) (by decide) (by decide) (by decide) (by decide) (by decide)
    (by decide) (by decide) (by decide) (by decide)

/-! ## Roll composer -/

lemma half_eq : half = 1 / 2 := by
  unfold half
  rw [Rat.mk'_eq_divInt]
  norm_num [Rat.divInt_eq_div]

lemma isPositive_some (m : ℚ) : isPositive (some m) = decide (0 < m) := by
  simp [isPositive, Rat.num_pos]

lemma floorMul_num (m : Int) (q : ℚ) :
    floorMul (JsNum.num m) (some q) = JsNum.num ⌊(m : ℚ) * q⌋ := by
  unfold floorMul
  have h : (m : ℚ) * q = ((m * q.num : Int) : ℚ) / ((q.den : Nat) : ℚ) := by
    conv_lhs => rw [← Rat.num_div_den q]
    push_cast
    ring
  rw [h, Rat.floor_intCast_div_natCast]

lemma addAbilityModifier_parts (item : RollItem) (st : AttackState) :
    ∃ l, List.Sublist l ["@abilities." ++ item.abilityAttack ++ ".mod"] ∧
      (addAbilityModifier item st).parts = st.parts ++ l ∧
      (addAbilityModifier item st).data = st.data := by
  unfold addAbilityModifier
  dsimp only
  split_ifs
  · exact ⟨_, List.Sublist.refl _, rfl, rfl⟩
  · exact ⟨[], List.nil_sublist _, by simp, rfl⟩

lemma addBonusParts_parts (options : AttackOptions) (st : AttackState) :
    (addBonusParts options st).parts = st.parts ++ options.parts.getD [] ∧
      (addBonusParts options st).data = st.data := by
  unfold addBonusParts
  cases options.parts <;> simp

lemma addSizeBonus_parts (st : AttackState) :
    ∃ l, List.Sublist l ["@sizeBonus"] ∧ (addSizeBonus st).parts = st.parts ++ l ∧
      (addSizeBonus st).data = st.data := by
  unfold addSizeBonus
  split_ifs
  · exact ⟨_, List.Sublist.refl _, rfl, rfl⟩
  · exact ⟨[], List.nil_sublist _, by simp, rfl⟩

lemma addAttackBonus_parts (evalRoll : String → RollData → Option Int) (item : RollItem)
    (st st' : AttackState) (h : addAttackBonus evalRoll item st = some st') :
    ∃ l, List.Sublist l ["@item.attackBonus"] ∧ st'.parts = st.parts ++ l ∧
      st'.data.attackGeneral = st.data.attackGeneral ∧
      st'.data.babTotal = st.data.babTotal ∧ st'.data.itemEnh = st.data.itemEnh ∧
      st'.data.energyDrain = st.data.energyDrain := by
  unfold addAttackBonus at h
  split_ifs at h
  · cases he : evalRoll item.attackBonus st.data with
    | none => simp [he] at h
    | some total =>
      simp only [he, Option.some.injEq] at h
      subst h
      exact ⟨_, List.Sublist.refl _, rfl, rfl, rfl, rfl, rfl⟩
  · simp only [Option.some.injEq] at h
    subst h
    exact ⟨[], List.nil_sublist _, by simp, rfl, rfl, rfl, rfl⟩

lemma addGeneralAttack_parts (st : AttackState) :
    ∃ l, List.Sublist l ["@attributes.attack.general"] ∧ (addGeneralAttack st).parts = st.parts ++ l ∧
      (addGeneralAttack st).data = st.data := by
  unfold addGeneralAttack
  split_ifs
  · exact ⟨_, List.Sublist.refl _, rfl, rfl⟩
  · exact ⟨[], List.nil_sublist _, by simp, rfl⟩

lemma addMeleeOrRanged_parts (item : RollItem) (st : AttackState) :
    ∃ l, List.Sublist l [if item.actionType ∈ ["mwak", "msak"] then "@attributes.attack.melee"
               else "@attributes.attack.ranged"] ∧
      (addMeleeOrRanged item st).parts = st.parts ++ l ∧
      (addMeleeOrRanged item st).data = st.data := by
  unfold addMeleeOrRanged
  by_cases h1 : item.actionType ∈ ["mwak", "msak"] ∧ st.data.attackMelee.strictNeZero = true
  · rw [if_pos h1, if_pos h1.1]
    exact ⟨_, List.Sublist.refl _, rfl, rfl⟩
  · rw [if_neg h1]
    by_cases h2 : item.actionType ∈ ["rwak", "rsak"] ∧ st.data.attackRanged.strictNeZero = true
    · have hn : item.actionType ∉ ["mwak", "msak"] := by
        have hr := h2.1
        simp only [List.mem_cons, List.mem_singleton, List.not_mem_nil, or_false] at hr
        rcases hr with hr | hr <;> rw [hr] <;> decide
      rw [if_pos h2, if_neg hn]
      exact ⟨_, List.Sublist.refl _, rfl, rfl⟩
    · rw [if_neg h2]
      exact ⟨[], List.nil_sublist _, by simp, rfl⟩

lemma addBab_parts (st : AttackState) :
    ∃ l, List.Sublist l ["@attributes.bab.total"] ∧ (addBab st).parts = st.parts ++ l ∧
      (addBab st).data = st.data := by
  unfold addBab
  split_ifs
  · exact ⟨_, List.Sublist.refl _, rfl, rfl⟩
  · exact ⟨[], List.nil_sublist _, by simp, rfl⟩

lemma addEnhancement_parts (st : AttackState) :
    ∃ l, List.Sublist l ["@item.enh"] ∧ (addEnhancement st).parts = st.parts ++ l ∧
      (addEnhancement st).data = st.data := by
  unfold addEnhancement
  split_ifs
  · exact ⟨_, List.Sublist.refl _, rfl, rfl⟩
  · exact ⟨[], List.nil_sublist _, by simp, rfl⟩

lemma subtractEnergyDrain_parts (st : AttackState) :
    ∃ l, List.Sublist l ["- max(0, abs(@attributes.energyDrain))"] ∧
      (subtractEnergyDrain st).parts = st.parts ++ l ∧
      (subtractEnergyDrain st).data = st.data := by
  unfold subtractEnergyDrain
  split_ifs
  · exact ⟨_, List.Sublist.refl _, rfl, rfl⟩
  · exact ⟨[], List.nil_sublist _, by simp, rfl⟩

lemma addProficiencyPenalty_parts (item : RollItem) (st : AttackState) :
    ∃ l, List.Sublist l ["@item.proficiencyPenalty"] ∧
      (addProficiencyPenalty item st).parts = st.parts ++ l ∧
      (addProficiencyPenalty item st).data = st.data := by
  unfold addProficiencyPenalty
  split_ifs
  · exact ⟨_, List.Sublist.refl _, rfl, rfl⟩
  · exact ⟨[], List.nil_sublist _, by simp, rfl⟩

lemma addMasterworkBonus_parts (item : RollItem) (st : AttackState) :
    ∃ l, List.Sublist l ["@item.masterworkBonus"] ∧
      (addMasterworkBonus item st).parts = st.parts ++ l := by
  unfold addMasterworkBonus
  split_ifs
  · exact ⟨_, List.Sublist.refl _, rfl⟩
  · exact ⟨[], List.nil_sublist _, by simp⟩

lemma addSecondaryPenalty_parts (options : AttackOptions) (st : AttackState) :
    ∃ l, List.Sublist l ["-5"] ∧ (addSecondaryPenalty options st).parts = st.parts ++ l := by
  unfold addSecondaryPenalty
  split_ifs
  · exact ⟨_, List.Sublist.refl _, rfl⟩
  · exact ⟨[], List.nil_sublist _, by simp⟩

lemma addBonus_parts (options : AttackOptions) (st : AttackState) :
    (addBonus options st).parts =
      st.parts ++ (if options.bonus.notNullish = true then ["@bonus"] else []) := by
  unfold addBonus
  split_ifs <;> simp

lemma addExtraParts_parts (options : AttackOptions) (st : AttackState) :
    (addExtraParts options st).parts = st.parts ++ options.extraParts.getD [] := by
  unfold addExtraParts
  cases options.extraParts <;> simp

/-- The shape of the list `parts` of `rollAttack`: the ability term, the
caller's `options.parts`, the built-in terms in their order, the bonus term,
the caller's `options.extraParts`. -/
lemma rollAttackParts_shape (sizeMods : String → JsNum)
    (evalRoll : String → RollData → Option Int) (item : RollItem) (rollData : RollData)
    (options : AttackOptions) (st : AttackState)
    (h : rollAttackParts sizeMods evalRoll item rollData options = some st) :
    ∃ abl mid,
      List.Sublist abl ["@abilities." ++ item.abilityAttack ++ ".mod"] ∧
      List.Sublist mid (builtinAttackTerms item) ∧
      st.parts = abl ++ options.parts.getD [] ++ mid ++
        (if options.bonus.notNullish = true then ["@bonus"] else []) ++
        options.extraParts.getD [] := by
  unfold rollAttackParts at h
  simp only [bind, Option.bind_eq_some, pure, Option.some.injEq] at h
  obtain ⟨rd0, -, st4, h4, hst⟩ := h
  subst hst
  obtain ⟨l1, s1, e1, -⟩ := addAbilityModifier_parts item
    { parts := [], data := { rd0 with sizeBonus := sizeMods rd0.traitsSize,
                                      itemProficiencyPenalty := JsNum.num (-4) } }
  obtain ⟨e2, -⟩ := addBonusParts_parts options (addAbilityModifier item
    { parts := [], data := { rd0 with sizeBonus := sizeMods rd0.traitsSize,
                                      itemProficiencyPenalty := JsNum.num (-4) } })
  obtain ⟨l3, s3, e3, -⟩ := addSizeBonus_parts (addBonusParts options (addAbilityModifier item
    { parts := [], data := { rd0 with sizeBonus := sizeMods rd0.traitsSize,
                                      itemProficiencyPenalty := JsNum.num (-4) } }))
  obtain ⟨l4, s4, e4, -⟩ := addAttackBonus_parts evalRoll item _ st4 h4
  obtain ⟨l5, s5, e5, -⟩ := addGeneralAttack_parts st4
  obtain ⟨l6, s6, e6, -⟩ := addMeleeOrRanged_parts item (addGeneralAttack st4)
  obtain ⟨l7, s7, e7, -⟩ := addBab_parts (addMeleeOrRanged item (addGeneralAttack st4))
  obtain ⟨l8, s8, e8, -⟩ := addEnhancement_parts (addBab (addMeleeOrRanged item (addGeneralAttack st4)))
  obtain ⟨l9, s9, e9, -⟩ := subtractEnergyDrain_parts
    (addEnhancement (addBab (addMeleeOrRanged item (addGeneralAttack st4))))
  obtain ⟨l10, s10, e10, -⟩ := addProficiencyPenalty_parts item (subtractEnergyDrain
    (addEnhancement (addBab (addMeleeOrRanged item (addGeneralAttack st4)))))
  obtain ⟨l11, s11, e11⟩ := addMasterworkBonus_parts item (addProficiencyPenalty item
    (subtractEnergyDrain (addEnhancement (addBab (addMeleeOrRanged item (addGeneralAttack st4))))))
  obtain ⟨l12, s12, e12⟩ := addSecondaryPenalty_parts options (addMasterworkBonus item
    (addProficiencyPenalty item (subtractEnergyDrain (addEnhancement (addBab
      (addMeleeOrRanged item (addGeneralAttack st4)))))))
  refine ⟨l1, l3 ++ l4 ++ l5 ++ l6 ++ l7 ++ l8 ++ l9 ++ l10 ++ l11 ++ l12, s1, ?_, ?_⟩
  · exact ((((((((s3.append s4).append s5).append s6).append s7).append s8).append s9).append
      s10).append s11).append s12
  · rw [addExtraParts_parts, addBonus_parts, e12, e11, e10, e9, e8, e7, e6, e5, e4, e3, e2, e1]
    simp only [List.nil_append, List.append_assoc]

/-- The composition of `rollAttack` does not throw when the spellbook of a
spell exists and the evaluation of the item's attack bonus does not throw. -/
lemma rollAttackParts_total (sizeMods : String → JsNum)
    (evalRoll : String → RollData → Option Int) (item : RollItem) (rollData : RollData)
    (options : AttackOptions)
    (hspell : item.type = "spell" → item.spellbookCl ≠ none)
    (heval : ∀ rd, evalRoll item.attackBonus rd ≠ none) :
    ∃ st, rollAttackParts sizeMods evalRoll item rollData options = some st := by
  have hcl : ∃ rd0, addCasterLevel item rollData = some rd0 := by
    unfold addCasterLevel
    split_ifs with ht
    · cases hb : item.spellbookCl with
      | none => exact absurd hb (hspell ht)
      | some cl => exact ⟨_, rfl⟩
    · exact ⟨_, rfl⟩
  obtain ⟨rd0, hcl⟩ := hcl
  have hab : ∀ st, ∃ st', addAttackBonus evalRoll item st = some st' := by
    intro st
    unfold addAttackBonus
    split_ifs
    · cases he : evalRoll item.attackBonus st.data with
      | none => exact absurd he (heval _)
      | some total => exact ⟨_, rfl⟩
    · exact ⟨_, rfl⟩
  obtain ⟨st4, h4⟩ := hab (addSizeBonus (addBonusParts options (addAbilityModifier item
    { parts := [], data := { rd0 with sizeBonus := sizeMods rd0.traitsSize,
                                      itemProficiencyPenalty := JsNum.num (-4) } })))
  unfold rollAttackParts
  simp only [bind, Option.bind_eq_some, pure, Option.some.injEq]
  exact ⟨_, rd0, hcl, st4, h4, rfl⟩

lemma abilityTerm_ne_bonus (abl : String) : "@abilities." ++ abl ++ ".mod" ≠ "@bonus" := by
  intro h
  have := congrArg String.length h
  simp only [String.length_append] at this
  have h1 : "@abilities.".length = 11 := by decide
  have h2 : ".mod".length = 4 := by decide
  have h3 : "@bonus".length = 6 := by decide
  omega

lemma bonus_not_mem_builtin (item : RollItem) : "@bonus" ∉ builtinAttackTerms item := by
  unfold builtinAttackTerms
  split_ifs <;> decide

/-- C8 (counterexample): with `options.parts` given, the caller's term is
placed right after the ability modifier and ahead of the built-in size
modifier. -/
theorem rollAttack_caller_parts_precede_builtin :
    (rollAttack smallSizeMod zeroRoll swordItem plainRollData
        { parts := some ["@powerAttackPenalty"] }).map (fun r => r.formula)
      = some "1d20+@powerAttackPenalty+@sizeBonus" := by
  decide

/-- C8 (amended): the formula built by `rollAttack` is `1d20` followed, joined
by `+`, by terms in this fixed order: ability modifier, the caller-supplied
`options.parts`, size modifier, item attack bonus, general then melee-or-ranged
attack bonus, base-attack-bonus total, enhancement bonus, energy-drain penalty,
non-proficiency penalty, masterwork bonus, secondary-natural-attack penalty
`-5`, caller-supplied bonus, caller-supplied extra terms; each built-in term
occurs at most once.  The roll is composed whenever the spellbook of a spell
exists and the item's attack bonus formula evaluates. -/
theorem rollAttack_formula_order (sizeMods : String → JsNum)
    (evalRoll : String → RollData → Option Int) (item : RollItem) (rollData : RollData)
    (options : AttackOptions)
    (hspell : item.type = "spell" → item.spellbookCl ≠ none)
    (heval : ∀ rd, evalRoll item.attackBonus rd ≠ none) :
    ∃ req abl builtin,
      rollAttack sizeMods evalRoll item rollData options = some req ∧
      List.Sublist abl ["@abilities." ++ item.abilityAttack ++ ".mod"] ∧
      List.Sublist builtin (builtinAttackTerms item ++ ["@bonus"]) ∧
      req.formula = "+".intercalate
        ("1d20" :: (abl ++ options.parts.getD [] ++ builtin ++ options.extraParts.getD [])) := by
  obtain ⟨st, hst⟩ := rollAttackParts_total sizeMods evalRoll item rollData options hspell heval
  obtain ⟨abl, mid, h1, h2, h3⟩ :=
    rollAttackParts_shape sizeMods evalRoll item rollData options st hst
  refine ⟨{ formula := "+".intercalate ("1d20" :: st.parts), data := st.data }, abl,
    mid ++ (if options.bonus.notNullish = true then ["@bonus"] else []), ?_, h1, ?_, ?_⟩
  · unfold rollAttack
    rw [hst]
    rfl
  · refine h2.append ?_
    split_ifs
    · exact List.Sublist.refl _
    · exact List.nil_sublist _
  · show "+".intercalate ("1d20" :: st.parts) = _
    rw [h3]
    simp only [List.append_assoc]

/-- C8 (witness): a secondary melee attack with caller parts, bonus and extra
parts. -/
theorem rollAttack_formula_order_witness :
    ∃ req abl builtin,
      rollAttack smallSizeMod zeroRoll swordItem plainRollData
          { parts := some ["@powerAttackPenalty"], bonus := JsVal.num (-5),
            extraParts := some ["@attackBonus"], primaryAttack := some false } = some req ∧
      List.Sublist abl ["@abilities." ++ swordItem.abilityAttack ++ ".mod"] ∧
      List.Sublist builtin (builtinAttackTerms swordItem ++ ["@bonus"]) ∧
      req.formula = "+".intercalate
        ("1d20" :: (abl ++ (some ["@powerAttackPenalty"]).getD [] ++ builtin ++
          (some ["@attackBonus"]).getD [])) :=
  rollAttack_formula_order smallSizeMod zeroRoll swordItem plainRollData
    { parts := some ["@powerAttackPenalty"], bonus := JsVal.num (-5),
      extraParts := some ["@attackBonus"], primaryAttack := some false }
    (by decide) (fun _ => by simp [zeroRoll])

/-- C9 (counterexample): an empty-string bonus (the first attack of a full
attack) and a zero bonus both add the term `@bonus`. -/
theorem rollAttack_empty_bonus_adds_term :
    (rollAttack noSizeMod zeroRoll swordItem plainRollData
        { bonus := JsVal.str "" }).map (fun r => r.formula) = some "1d20+@bonus" ∧
      (rollAttack noSizeMod zeroRoll swordItem plainRollData
        { bonus := JsVal.num 0 }).map (fun r => r.formula) = some "1d20+@bonus" := by
  decide

/-- C10 (evaluation at the failing input): with `attributes.attack.general`
missing, `rollAttack` appends the term `@attributes.attack.general`; with
`attributes.attack.melee` missing it appends `@attributes.attack.melee`; with
`attributes.damage.general` or `attributes.damage.weapon` missing, `rollDamage`
appends the term of the missing field.  With `attributes.bab.total`,
`item.enh` and `attributes.energyDrain` missing no term is appended. -/
theorem roll_missing_field_appends_term :
    (rollAttack noSizeMod zeroRoll swordItem
        { plainRollData with attackGeneral := JsNum.undefined }
        {}).map (fun r => r.formula) = some "1d20+@attributes.attack.general" ∧
      (rollAttack noSizeMod zeroRoll swordItem
        { plainRollData with attackMelee := JsNum.undefined }
        {}).map (fun r => r.formula) = some "1d20+@attributes.attack.melee" ∧
      (rollDamage keepRoll swordItem
        { plainRollData with damageGeneral := JsNum.undefined } false [] true).map
          (fun rs => rs.map fun r => r.roll.formula)
        = some ["1d8+@attributes.damage.general"] ∧
      (rollDamage keepRoll swordItem
        { plainRollData with damageWeapon := JsNum.undefined } false [] true).map
          (fun rs => rs.map fun r => r.roll.formula)
        = some ["1d8+@attributes.damage.weapon"] ∧
      (rollAttack noSizeMod zeroRoll swordItem
        { plainRollData with babTotal := JsNum.undefined, itemEnh := JsNum.undefined,
                             energyDrain := JsNum.undefined }
        {}).map (fun r => r.formula) = some "1d20" ∧
      (rollDamage keepRoll swordItem
        { plainRollData with itemEnh := JsNum.undefined } false [] true).map
          (fun rs => rs.map fun r => r.roll.formula)
        = some ["1d8"] := by
  decide


/-! ## Resource ledger: frame of the deduction -/

lemma addSpellUses_of_book (item : LedgerItem) (b : Spellbook) (value : Int)
    (data : Option ItemUpdateData) (hb : item.book = some b) (hat : item.atWill = false)
    (hl : item.level ≠ 0) :
    addSpellUses item value data = some (writeSpellCharges item b value data) := by
  unfold LedgerItem.book at hb
  unfold addSpellUses
  cases hbooks : item.actorSpellbooks with
  | none => rw [hbooks] at hb; simp at hb
  | some books =>
    rw [hbooks] at hb
    simp only [Option.some_bind] at hb
    simp only [hat, Bool.false_eq_true, ↓reduceIte, hl, hb]

/-- C17: for a spell flagged at-will that has an owning actor, `addSpellUses`
(and `addCharges`, which hands spells over to it) with any amount issues no
persistence call and leaves the caller's update object as it is, and
`getSpellUses` returns positive infinity. -/
theorem atWill_spell_is_never_deducted (item : LedgerItem)
    (books : List (String × Spellbook)) (hactor : item.actorSpellbooks = some books)
    (hat : item.atWill = true) (value : Int) (data : Option ItemUpdateData) :
    addSpellUses item value data = some ⟨data, []⟩ ∧
      (item.type = "spell" → addCharges item value data = some ⟨data, []⟩) ∧
      getSpellUses item = some Uses.infinity := by
  have h1 : addSpellUses item value data = some ⟨data, []⟩ := by
    unfold addSpellUses
    simp [hactor, hat]
  refine ⟨h1, ?_, ?_⟩
  · intro ht
    unfold addCharges
    split_ifs
    · rfl
    · exact h1
  · unfold getSpellUses
    simp [hactor, hat]

/-- C17 (witness): an at-will spell of a prepared spellbook. -/
theorem atWill_spell_is_never_deducted_witness :
    addSpellUses { preparedSpell with atWill := true } (-1) none = some ⟨none, []⟩ ∧
      (({ preparedSpell with atWill := true } : LedgerItem).type = "spell" →
        addCharges { preparedSpell with atWill := true } (-1) none = some ⟨none, []⟩) ∧
      getSpellUses { preparedSpell with atWill := true } = some Uses.infinity :=
  atWill_spell_is_never_deducted { preparedSpell with atWill := true }
    [("primary", preparedBook)] rfl rfl (-1) none

/-- C18 (counterexample): a deduction on a prepared spell writes the item
(`data.preparation.preparedAmount`), not the actor's spellbook record; and the
key written for a power-point spellbook carries no spell level. -/
theorem prepared_deduction_writes_item :
    addCharges preparedSpell (-1) none
        = some ⟨none, [LedgerWrite.itemUpdate { preparedAmount := JsNum.num 1 }]⟩ ∧
      addCharges psionicPower (-1) none
        = some ⟨none, [LedgerWrite.actorUpdate
            "data.attributes.spells.spellbooks.primary.powerPoints" (JsNum.num 7)]⟩ := by
  decide

/-- C18 (amended): a deduction (no update object passed) issues exactly one
persistence call: on the owning item for the single-use (`data.quantity`),
periodic-charge (`data.uses.value`) and prepared-slot
(`data.preparation.preparedAmount`) variants; on the owning actor for the
spontaneous variant, under the key of the spellbook and the spell level, and
for the power-point variant, under the key of the spellbook alone.  No call
goes to the other entity. -/
theorem deduction_write_target (item : LedgerItem) (value : Int) :
    (item.type ≠ "spell" → item.isSingleUse = true → item.quantity.notNullish = true →
      addCharges item value none = some ⟨none,
        [LedgerWrite.itemUpdate { quantity := JsNum.add item.quantity (JsNum.num value) }]⟩) ∧
    (item.type ≠ "spell" → item.isSingleUse = false →
      addCharges item value none = some ⟨none,
        [LedgerWrite.itemUpdate { usesValue := JsNum.add item.usesValue (JsNum.num value) }]⟩) ∧
    (∀ b, item.type = "spell" → item.isSingleUse = false → item.book = some b →
      item.atWill = false → item.level ≠ 0 →
      (b.spontaneous = false → b.usePowerPoints = false →
        addCharges item value none = some ⟨none,
          [LedgerWrite.itemUpdate { preparedAmount := newSpellCharges item b value }]⟩) ∧
      (b.spontaneous = true → b.usePowerPoints = false →
        addCharges item value none = some ⟨none,
          [LedgerWrite.actorUpdate
            ("data.attributes.spells.spellbooks." ++ item.spellbookKey ++ ".spells.spell" ++
              toString item.level ++ ".value") (newSpellCharges item b value)]⟩) ∧
      (b.usePowerPoints = true →
        addCharges item value none = some ⟨none,
          [LedgerWrite.actorUpdate
            ("data.attributes.spells.spellbooks." ++ item.spellbookKey ++ ".powerPoints")
            (newSpellCharges item b value)]⟩)) := by
  refine ⟨?_, ?_, ?_⟩
  · intro ht hs hq
    have hs' : item.usesPer = some "single" := by simpa [LedgerItem.isSingleUse] using hs
    unfold addCharges
    simp [hs', hq, ht, LedgerItem.isSingleUse]
  · intro ht hs
    have hs' : item.usesPer ≠ some "single" := by simpa [LedgerItem.isSingleUse] using hs
    unfold addCharges
    simp [hs', ht, LedgerItem.isSingleUse]
  · intro b ht hs hb hat hl
    have hs' : item.usesPer ≠ some "single" := by simpa [LedgerItem.isSingleUse] using hs
    have hadd : addCharges item value none = some (writeSpellCharges item b value none) := by
      unfold addCharges
      simp only [hs', false_and, ↓reduceIte, ht]
      exact addSpellUses_of_book item b value none hb hat hl
    refine ⟨?_, ?_, ?_⟩
    · intro h1 h2
      rw [hadd]
      simp [writeSpellCharges, h1, h2]
    · intro h1 h2
      rw [hadd]
      simp [writeSpellCharges, h1, h2, LedgerItem.spellbookKey]
    · intro h2
      rw [hadd]
      simp [writeSpellCharges, h2, LedgerItem.spellbookKey]

/-- C18 (witness): the single-use potion, the wand, and the spell in a prepared,
a spontaneous and a power-point spellbook. -/
theorem deduction_write_target_witness :
    addCharges potionItem (-1) none = some ⟨none,
        [LedgerWrite.itemUpdate { quantity := JsNum.add potionItem.quantity (JsNum.num (-1)) }]⟩ ∧
      addCharges wandItem (-1) none = some ⟨none,
        [LedgerWrite.itemUpdate { usesValue := JsNum.add wandItem.usesValue (JsNum.num (-1)) }]⟩ ∧
      addCharges preparedSpell (-1) none = some ⟨none,
        [LedgerWrite.itemUpdate
          { preparedAmount := newSpellCharges preparedSpell preparedBook (-1) }]⟩ ∧
      addCharges spontaneousSpell (-1) none = some ⟨none,
        [LedgerWrite.actorUpdate
          ("data.attributes.spells.spellbooks." ++ spontaneousSpell.spellbookKey ++
            ".spells.spell" ++ toString spontaneousSpell.level ++ ".value")
          (newSpellCharges spontaneousSpell spontaneousBook (-1))]⟩ ∧
      addCharges psionicPower (-1) none = some ⟨none,
        [LedgerWrite.actorUpdate
          ("data.attributes.spells.spellbooks." ++ psionicPower.spellbookKey ++ ".powerPoints")
          (newSpellCharges psionicPower psionicBook (-1))]⟩ :=
  ⟨(deduction_write_target potionItem (-1)).1 (by decide) (by decide) (by decide),
   (deduction_write_target wandItem (-1)).2.1 (by decide) (by decide),
   ((deduction_write_target preparedSpell (-1)).2.2 preparedBook (by decide) (by decide)
      (by decide) (by decide) (by decide)).1 (by decide) (by decide),
   ((deduction_write_target spontaneousSpell (-1)).2.2 spontaneousBook (by decide) (by decide)
      (by decide) (by decide) (by decide)).2.1 (by decide) (by decide),
   ((deduction_write_target psionicPower (-1)).2.2 psionicBook (by decide) (by decide)
      (by decide) (by decide) (by decide)).2.2 (by decide)⟩


lemma writeSpellCharges_with_data (item : LedgerItem) (b : Spellbook) (value : Int)
    (d : ItemUpdateData) :
    (b.spontaneous = false → b.usePowerPoints = false →
      writeSpellCharges item b value (some d) =
        ⟨some { d with preparedAmount := newSpellCharges item b value }, []⟩) ∧
    ((b.spontaneous = true ∨ b.usePowerPoints = true) →
      (writeSpellCharges item b value (some d)).data = some d ∧
      ∃ key, (writeSpellCharges item b value (some d)).writes =
        [LedgerWrite.actorUpdate key (newSpellCharges item b value)]) := by
  refine ⟨?_, ?_⟩
  · intro h1 h2
    simp [writeSpellCharges, h1, h2]
  · intro h
    have hn : ¬ (b.spontaneous = false ∧ b.usePowerPoints = false) := by
      rintro ⟨h1, h2⟩
      rcases h with h | h
      · rw [h1] at h; exact absurd h (by decide)
      · rw [h2] at h; exact absurd h (by decide)
    unfold writeSpellCharges
    simp only [hn, ↓reduceIte]
    split_ifs <;> exact ⟨rfl, _, rfl⟩

lemma addSpellUses_with_data_writes (item : LedgerItem) (value : Int) (d : ItemUpdateData)
    (r : LedgerResult) (h : addSpellUses item value (some d) = some r) :
    ∀ w ∈ r.writes, ∃ key v, w = LedgerWrite.actorUpdate key v := by
  unfold addSpellUses at h
  cases hb : item.actorSpellbooks with
  | none => rw [hb] at h; simp only [Option.some.injEq] at h; subst h; simp
  | some books =>
    rw [hb] at h
    dsimp only at h
    split_ifs at h
    · simp only [Option.some.injEq] at h; subst h; simp
    · simp only [Option.some.injEq] at h; subst h; simp
    · cases hf : (books.find? fun e => e.1 = item.spellbook).map Prod.snd with
      | none => rw [hf] at h; exact absurd h (by simp)
      | some b =>
        rw [hf] at h
        simp only [Option.some.injEq] at h
        subst h
        by_cases hp : b.spontaneous = false ∧ b.usePowerPoints = false
        · rw [(writeSpellCharges_with_data item b value d).1 hp.1 hp.2]
          simp
        · have hq : b.spontaneous = true ∨ b.usePowerPoints = true := by
            by_contra hc
            push_neg at hc
            exact hp ⟨by simpa using hc.1, by simpa using hc.2⟩
          obtain ⟨-, key, hw⟩ := (writeSpellCharges_with_data item b value d).2 hq
          rw [hw]
          intro w hw'
          simp only [List.mem_singleton] at hw'
          exact ⟨key, _, hw'⟩

lemma addCharges_nonspell_with_data (item : LedgerItem) (value : Int) (d : ItemUpdateData)
    (ht : item.type ≠ "spell")
    (hg : ¬ (item.usesPer = some "single" ∧ item.quantity.notNullish = false)) :
    addCharges item value (some d) = some ⟨some
      (if item.isSingleUse then
        { d with quantity := JsNum.add (prevOr d.quantity item.quantity) (JsNum.num value) }
       else
        { d with usesValue := JsNum.add (prevOr d.usesValue item.usesValue) (JsNum.num value) }),
      []⟩ := by
  unfold addCharges
  rw [if_neg hg, if_neg ht]
  by_cases hs : item.isSingleUse = true
  · by_cases hd : d.quantity.notNullish = true <;> simp [hs, hd, prevOr]
  · by_cases hd : d.usesValue.notNullish = true <;> simp [hs, hd, prevOr]

/-- C19 (evaluation at the failing input): given the update object `{}`,
`addCharges(-1, data)` on a level-1 spell of a spontaneous spellbook with three
uses left issues the actor update `spell1.value = 2` at once and leaves the
object `{}`; on a power of a power-point spellbook it issues the actor update
of `powerPoints` at once. -/
theorem addCharges_spontaneous_updates_actor :
    addCharges spontaneousSpell (-1) (some {})
        = some ⟨some {}, [LedgerWrite.actorUpdate
            "data.attributes.spells.spellbooks.primary.spells.spell1.value" (JsNum.num 2)]⟩ ∧
      addCharges psionicPower (-1) (some {})
        = some ⟨some {}, [LedgerWrite.actorUpdate
            "data.attributes.spells.spellbooks.primary.powerPoints" (JsNum.num 7)]⟩ := by
  decide

/-! ## Exhausted resources -/

/-- C20 (counterexample): a single-use item that is not a consumable and has no
action is not blocked by `use` at quantity zero (the item is rolled to chat
without a warning); an attack with uses per encounter and none left is not
blocked by `useAttack` (nor by `use`) and goes on to its rolls. -/
theorem exhausted_item_not_blocked :
    use spentTrinket = [UseEvent.roll] ∧
      useAttack spentEncounterPower = [UseEvent.attackFlow] ∧
      use spentEncounterPower = [UseEvent.attackFlow] := by
  decide

/-- C20 (amended): for every non-spell item that is charged in the sense of
the getter `isCharged` (a single-use consumable, or uses per day, per week or
by charges) and whose `charges` are zero or less, `use` and `useAttack` return
with a warning and nothing else: no roll is composed, no charge is changed, no
directive is dispatched. -/
theorem exhausted_charged_item_is_blocked (item : UsableItem) (c : Uses)
    (hns : item.ledger.type ≠ "spell") (hch : isCharged item.ledger = true)
    (hc : charges item.ledger = some c) (hz : c.leZero = true) :
    (∃ key, use item = [UseEvent.warn key]) ∧ (∃ key, useAttack item = [UseEvent.warn key]) := by
  have hua : ∃ key, useAttack item = [UseEvent.warn key] := by
    unfold useAttack
    split_ifs
    · exact ⟨_, rfl⟩
    · exact ⟨_, rfl⟩
    · simp only [hc, hz, ↓reduceIte]
      exact ⟨_, rfl⟩
  refine ⟨?_, hua⟩
  unfold use
  rw [if_neg hns]
  by_cases ha : item.hasAction = true
  · rw [if_pos ha]
    exact hua
  · rw [if_neg ha, if_pos hch]
    simp only [hc, hz, ↓reduceIte]
    split_ifs <;> exact ⟨_, rfl⟩

/-- C20 (witness): the wand without charges. -/
theorem exhausted_charged_item_is_blocked_witness :
    (∃ key, use spentWand = [UseEvent.warn key]) ∧
      (∃ key, useAttack spentWand = [UseEvent.warn key]) :=
  exhausted_charged_item_is_blocked spentWand (Uses.count (JsNum.num 0)) (by decide)
    (by decide) (by decide) (by decide)


/-! ## Damage composer -/

lemma addCasterLevel_frame (item : RollItem) (rd rd' : RollData)
    (h : addCasterLevel item rd = some rd') :
    rd'.abilities = rd.abilities ∧ rd'.ablMult = rd.ablMult ∧ rd'.critMult = rd.critMult := by
  unfold addCasterLevel at h
  split_ifs at h
  · cases hb : item.spellbookCl with
    | none => simp [hb] at h
    | some cl =>
      simp only [hb, Option.some.injEq] at h
      subst h
      exact ⟨rfl, rfl, rfl⟩
  · simp only [Option.some.injEq] at h
    subst h
    exact ⟨rfl, rfl, rfl⟩

lemma addCasterLevel_total (item : RollItem) (rd : RollData)
    (hspell : item.type = "spell" → item.spellbookCl ≠ none) :
    ∃ rd', addCasterLevel item rd = some rd' := by
  unfold addCasterLevel
  split_ifs with ht
  · cases hb : item.spellbookCl with
    | none => exact absurd hb (hspell ht)
    | some cl => exact ⟨_, rfl⟩
  · exact ⟨_, rfl⟩

/-- The roll data after the first blocks of `rollDamage`. -/
lemma damageRollData_spec (item : RollItem) (rollData : RollData) (critical primaryAttack : Bool)
    (hspell : item.type = "spell" → item.spellbookCl ≠ none) :
    ∃ rd, damageRollData item rollData critical primaryAttack = some rd ∧
      rd.abilities = rollData.abilities ∧
      rd.critMult = (if critical then item.critMult else JsNum.num 1) ∧
      rd.ablMult = (if primaryAttack = false ∧ isPositive (effectiveAblMult item rollData) = true
                    then some half else effectiveAblMult item rollData) := by
  obtain ⟨rd0, h0⟩ := addCasterLevel_total item rollData hspell
  obtain ⟨ha, hm, -⟩ := addCasterLevel_frame item rollData rd0 h0
  unfold damageRollData
  simp only [h0, bind, Option.bind, pure]
  refine ⟨_, rfl, ?_, ?_, ?_⟩
  · split_ifs <;> cases item.damageMult <;> cases critical <;> simp_all
  · split_ifs <;> cases item.damageMult <;> cases critical <;> simp_all
  · unfold effectiveAblMult
    cases hd : item.damageMult <;> cases critical <;> simp [hm] <;> split_ifs <;> rfl

lemma addAbilityDamage_of_ability (item : RollItem) (st : DamageState) (abl : String)
    (mod : JsNum) (ha : item.abilityDamage = some abl) (hne : abl ≠ "")
    (hm : st.data.ability abl = some mod) :
    addAbilityDamage item st = some
      { extra := st.extra ++
          abilityDamageTerms (boundAblDamage mod st.data.ablMult) st.data.critMult,
        data := { st.data with ablDamage := boundAblDamage mod st.data.ablMult } } := by
  unfold addAbilityDamage
  simp only [ha, hne, ne_eq, not_false_eq_true, ↓reduceIte, hm]
  unfold abilityDamageTerms boundAblDamage
  split_ifs <;> simp

lemma addAbilityDamage_of_no_ability (item : RollItem) (st : DamageState)
    (ha : item.abilityDamage = none ∨ item.abilityDamage = some "") :
    addAbilityDamage item st = some st := by
  unfold addAbilityDamage
  rcases ha with ha | ha <;> simp [ha]

lemma addAbilityDamage_total (item : RollItem) (st : DamageState)
    (habl : ∀ abl, item.abilityDamage = some abl → abl ≠ "" → st.data.ability abl ≠ none) :
    ∃ st', addAbilityDamage item st = some st' := by
  cases ha : item.abilityDamage with
  | none => exact ⟨_, addAbilityDamage_of_no_ability item st (Or.inl ha)⟩
  | some abl =>
    by_cases hne : abl = ""
    · subst hne
      exact ⟨_, addAbilityDamage_of_no_ability item st (Or.inr ha)⟩
    · cases hm : st.data.ability abl with
      | none => exact absurd hm (habl abl ha hne)
      | some mod => exact ⟨_, addAbilityDamage_of_ability item st abl mod ha hne hm⟩

lemma abilityDamageTerms_sublist (ablDamage critMult : JsNum) :
    List.Sublist (abilityDamageTerms ablDamage critMult)
      [if critMult.strictNeOne = true then
        (if ablDamage.ltZero = true then "@ablDamage" else "@ablDamage * @critMult")
       else "@ablDamage"] := by
  unfold abilityDamageTerms
  split_ifs <;> first
    | exact List.Sublist.refl _
    | exact List.nil_sublist _

/-- The term of the ability block as it reads for the bound values. -/
lemma addAbilityDamage_parts (item : RollItem) (st st' : DamageState)
    (h : addAbilityDamage item st = some st') :
    st'.data.critMult = st.data.critMult ∧
    ∃ l, List.Sublist l
        [if st'.data.critMult.strictNeOne = true then
          (if st'.data.ablDamage.ltZero = true then "@ablDamage" else "@ablDamage * @critMult")
         else "@ablDamage"] ∧
      st'.extra = st.extra ++ l := by
  cases ha : item.abilityDamage with
  | none =>
    rw [addAbilityDamage_of_no_ability item st (Or.inl ha)] at h
    simp only [Option.some.injEq] at h
    subst h
    exact ⟨rfl, [], List.nil_sublist _, by simp⟩
  | some abl =>
    by_cases hne : abl = ""
    · subst hne
      rw [addAbilityDamage_of_no_ability item st (Or.inr ha)] at h
      simp only [Option.some.injEq] at h
      subst h
      exact ⟨rfl, [], List.nil_sublist _, by simp⟩
    · cases hm : st.data.ability abl with
      | none =>
        unfold addAbilityDamage at h
        simp [ha, hne, hm] at h
      | some mod =>
        rw [addAbilityDamage_of_ability item st abl mod ha hne hm] at h
        simp only [Option.some.injEq] at h
        subst h
        exact ⟨rfl, _, abilityDamageTerms_sublist _ _, rfl⟩

lemma addEnhancementDamage_parts (st : DamageState) :
    (addEnhancementDamage st).data = st.data ∧
    ∃ l, List.Sublist l
        [if st.data.critMult.strictNeOne = true then "@item.enh * @critMult" else "@item.enh"] ∧
      (addEnhancementDamage st).extra = st.extra ++ l := by
  unfold addEnhancementDamage
  split_ifs <;> first
    | exact ⟨rfl, _, List.Sublist.refl _, rfl⟩
    | exact ⟨rfl, [], List.nil_sublist _, by simp⟩

lemma addGeneralDamage_parts (st : DamageState) :
    (addGeneralDamage st).data = st.data ∧
    ∃ l, List.Sublist l
        [if st.data.critMult.strictNeOne = true then "@attributes.damage.general * @critMult"
         else "@attributes.damage.general"] ∧
      (addGeneralDamage st).extra = st.extra ++ l := by
  unfold addGeneralDamage
  split_ifs <;> first
    | exact ⟨rfl, _, List.Sublist.refl _, rfl⟩
    | exact ⟨rfl, [], List.nil_sublist _, by simp⟩

lemma addWeaponOrSpellDamage_parts (item : RollItem) (st : DamageState) :
    (addWeaponOrSpellDamage item st).data = st.data ∧
    ∃ l, List.Sublist l
        [if st.data.critMult.strictNeOne = true then
          (if item.actionType ∈ ["mwak", "rwak"] then "@attributes.damage.weapon * @critMult"
           else "@attributes.damage.spell * @critMult")
         else
          (if item.actionType ∈ ["mwak", "rwak"] then "@attributes.damage.weapon"
           else "@attributes.damage.spell")] ∧
      (addWeaponOrSpellDamage item st).extra = st.extra ++ l := by
  unfold addWeaponOrSpellDamage
  by_cases h1 : st.data.damageWeapon.strictNeZero = true ∧ item.actionType ∈ ["mwak", "rwak"]
  · rw [if_pos h1]
    simp only [if_pos h1.2]
    split_ifs <;> exact ⟨rfl, _, List.Sublist.refl _, rfl⟩
  · rw [if_neg h1]
    by_cases h2 : st.data.damageSpell.strictNeZero = true ∧
        item.actionType ∈ ["msak", "rsak", "spellsave"]
    · have hn : item.actionType ∉ ["mwak", "rwak"] := by
        have hr := h2.2
        simp only [List.mem_cons, List.mem_singleton, List.not_mem_nil, or_false] at hr
        rcases hr with hr | hr | hr <;> rw [hr] <;> decide
      rw [if_pos h2]
      simp only [if_neg hn]
      split_ifs <;> exact ⟨rfl, _, List.Sublist.refl _, rfl⟩
    · rw [if_neg h2]
      exact ⟨rfl, [], List.nil_sublist _, by simp⟩

/-- The list `parts` of `rollDamage` and its roll data, block by block. -/
lemma rollDamageParts_eq (alterRoll : String → Int → JsNum → String) (item : RollItem)
    (rollData : RollData) (critical primaryAttack : Bool) (rd0 : RollData) (st : DamageState)
    (b0 t0 : String) (rest : List (String × String))
    (h0 : damageRollData item rollData critical primaryAttack = some rd0)
    (hp : item.damageParts = (b0, t0) :: rest)
    (ha : addAbilityDamage item { extra := [], data := rd0 } = some st) :
    rollDamageParts alterRoll item rollData critical primaryAttack =
      some (⟨alterRoll b0 0 rd0.critMult, (addBonusDamage item st).extra, t0⟩ ::
            rest.map (fun p => ⟨p.1, [], p.2⟩),
        (addBonusDamage item st).data) := by
  unfold rollDamageParts addBonusDamage
  simp only [h0, hp, List.map_cons, bind, Option.bind, ha, pure]

lemma damageRolls_later (rd : RollData) (extraParts : List String) :
    ∀ (parts : List (String × String)) (a : Nat), a ≠ 0 →
      damageRolls rd extraParts a
          (parts.map fun p => { base := p.1, extra := [], damageType := p.2 })
        = laterDamageRolls rd parts := by
  intro parts
  induction parts with
  | nil => intro a _; rfl
  | cons p ps ih =>
    intro a ha
    simp only [List.map_cons, damageRolls, ha, ↓reduceIte, laterDamageRolls, List.singleton_append,
      List.append_nil]
    refine congrArg₂ _ ?_ ?_
    · rfl
    · exact ih (a + 1) (Nat.succ_ne_zero a)

/-- The result of `rollDamage`, block by block: the first formula is the
altered base, the modifier terms and the caller's extra parts joined by `+`;
every later formula is the declared base of its part. -/
lemma rollDamage_eq (alterRoll : String → Int → JsNum → String) (item : RollItem)
    (rollData : RollData) (critical primaryAttack : Bool) (extraParts : List String)
    (rd0 : RollData) (st : DamageState) (b0 t0 : String) (rest : List (String × String))
    (h0 : damageRollData item rollData critical primaryAttack = some rd0)
    (hp : item.damageParts = (b0, t0) :: rest)
    (ha : addAbilityDamage item { extra := [], data := rd0 } = some st) :
    rollDamage alterRoll item rollData critical extraParts primaryAttack =
      some (⟨⟨"+".intercalate
                ([alterRoll b0 0 rd0.critMult] ++ (addBonusDamage item st).extra ++ extraParts),
              (addBonusDamage item st).data⟩, t0⟩ ::
        laterDamageRolls (addBonusDamage item st).data rest) := by
  unfold rollDamage
  rw [rollDamageParts_eq alterRoll item rollData critical primaryAttack rd0 st b0 t0 rest h0 hp ha]
  simp only [Option.map_some', damageRolls, ↓reduceIte, Option.some.injEq, List.cons.injEq,
    true_and]
  exact damageRolls_later _ extraParts rest 1 (by decide)


lemma addBonusDamage_parts (item : RollItem) (st : DamageState) :
    (addBonusDamage item st).data = st.data ∧
    ∃ l, List.Sublist l
        [if st.data.critMult.strictNeOne = true then "@item.enh * @critMult" else "@item.enh",
         if st.data.critMult.strictNeOne = true then "@attributes.damage.general * @critMult"
         else "@attributes.damage.general",
         if st.data.critMult.strictNeOne = true then
          (if item.actionType ∈ ["mwak", "rwak"] then "@attributes.damage.weapon * @critMult"
           else "@attributes.damage.spell * @critMult")
         else
          (if item.actionType ∈ ["mwak", "rwak"] then "@attributes.damage.weapon"
           else "@attributes.damage.spell")] ∧
      (addBonusDamage item st).extra = st.extra ++ l := by
  unfold addBonusDamage
  obtain ⟨d1, l1, s1, e1⟩ := addEnhancementDamage_parts st
  obtain ⟨d2, l2, s2, e2⟩ := addGeneralDamage_parts (addEnhancementDamage st)
  obtain ⟨d3, l3, s3, e3⟩ :=
    addWeaponOrSpellDamage_parts item (addGeneralDamage (addEnhancementDamage st))
  rw [d2, d1] at s3
  rw [d1] at s2
  refine ⟨by rw [d3, d2, d1], l1 ++ l2 ++ l3, ?_, ?_⟩
  · exact (s1.append s2).append s3
  · rw [e3, e2, e1]
    simp only [List.append_assoc]

/-- The blocks of `rollDamage` all succeed when the roll can be made. -/
lemma rollDamage_blocks (item : RollItem) (rollData : RollData) (critical primaryAttack : Bool)
    (h : DamageRollable item rollData) :
    ∃ rd0 st b0 t0 rest,
      damageRollData item rollData critical primaryAttack = some rd0 ∧
      item.damageParts = (b0, t0) :: rest ∧
      addAbilityDamage item { extra := [], data := rd0 } = some st ∧
      rd0.abilities = rollData.abilities ∧
      rd0.critMult = (if critical then item.critMult else JsNum.num 1) ∧
      rd0.ablMult = (if primaryAttack = false ∧ isPositive (effectiveAblMult item rollData) = true
                     then some half else effectiveAblMult item rollData) := by
  obtain ⟨hspell, hparts, habl⟩ := h
  obtain ⟨rd0, h0, ha, hc, hm⟩ := damageRollData_spec item rollData critical primaryAttack hspell
  have habl' : ∀ abl, item.abilityDamage = some abl → abl ≠ "" →
      ({ extra := [], data := rd0 } : DamageState).data.ability abl ≠ none := by
    intro abl h1 h2
    have := habl abl h1 h2
    unfold RollData.ability at this ⊢
    rw [ha]
    exact this
  obtain ⟨st, hst⟩ := addAbilityDamage_total item { extra := [], data := rd0 } habl'
  cases hp : item.damageParts with
  | nil => exact absurd hp hparts
  | cons p rest =>
    obtain ⟨b0, t0⟩ := p
    exact ⟨rd0, st, b0, t0, rest, h0, rfl, hst, ha, hc, hm⟩

/-- C12: with `critical = false` the result of `rollDamage` (every formula and
the roll data handed to the rolls, the binding `critMult = 1` included) is the
same whatever the item's critical multiplier `ability.critMult`. -/
theorem rollDamage_noncritical_ignores_critMult (alterRoll : String → Int → JsNum → String)
    (item : RollItem) (rollData : RollData) (extraParts : List String) (primaryAttack : Bool)
    (c : JsNum) :
    rollDamage alterRoll { item with critMult := c } rollData false extraParts primaryAttack =
      rollDamage alterRoll item rollData false extraParts primaryAttack := by
  rfl

/-- C13 (counterexample): on a critical roll with multiplier 2, a negative
ability damage (modifier -2) is appended as `@ablDamage`, not multiplied by
`@critMult`. -/
theorem rollDamage_negative_ability_not_scaled :
    (rollDamage keepRoll swordItem
        { plainRollData with abilities := [("str", JsNum.num (-2))] } true [] true).map
          (fun rs => rs.map fun r => (r.roll.formula, r.roll.data.critMult, r.roll.data.ablDamage))
      = some [("1d8+@ablDamage", JsNum.num 2, JsNum.num (-2))] := by
  decide

/-- C13 (amended): `rollDamage` binds `critMult` to the item's critical
multiplier on a critical roll and to 1 otherwise.  When the bound multiplier
is not 1, each modifier term appended to the first part (enhancement, general
damage, weapon or spell damage, whatever their sign, and a non-negative
ability damage) is appended multiplied by `@critMult`, while a negative
ability damage is appended as `@ablDamage`, not multiplied; when the bound
multiplier is 1, each term is appended unmultiplied.  The roll is composed
whenever the spellbook of a spell exists, the item has a damage part and the
damage ability is an ability of the roll data. -/
theorem rollDamage_modifier_scaling (alterRoll : String → Int → JsNum → String)
    (item : RollItem) (rollData : RollData) (critical primaryAttack : Bool)
    (h : DamageRollable item rollData) :
    ∃ p0 later rd,
      rollDamageParts alterRoll item rollData critical primaryAttack = some (p0 :: later, rd) ∧
      rd.critMult = (if critical then item.critMult else JsNum.num 1) ∧
      List.Sublist p0.extra (damageTerms item rd) := by
  obtain ⟨rd0, st, b0, t0, rest, h0, hp, hst, -, hc, -⟩ :=
    rollDamage_blocks item rollData critical primaryAttack h
  obtain ⟨hcm, l1, s1, e1⟩ := addAbilityDamage_parts item _ st hst
  obtain ⟨hd, l2, s2, e2⟩ := addBonusDamage_parts item st
  refine ⟨_, _, _, rollDamageParts_eq alterRoll item rollData critical primaryAttack rd0 st
    b0 t0 rest h0 hp hst, ?_, ?_⟩
  · rw [hd, hcm]
    exact hc
  · show List.Sublist (addBonusDamage item st).extra _
    rw [e2, e1, hd]
    have := s1.append s2
    simp only [List.nil_append]
    unfold damageTerms
    by_cases hs : st.data.critMult.strictNeOne = true
    · simpa [hs] using this
    · simpa [hs] using this

/-- C13 (witness): a critical hit of the sword with strength modifier 0. -/
theorem rollDamage_modifier_scaling_witness :
    ∃ p0 later rd,
      rollDamageParts keepRoll swordItem plainRollData true true = some (p0 :: later, rd) ∧
      rd.critMult = (if true then swordItem.critMult else JsNum.num 1) ∧
      List.Sublist p0.extra (damageTerms swordItem rd) :=
  rollDamage_modifier_scaling keepRoll swordItem plainRollData true true (by decide)

/-- C14: the caller-supplied `extraParts` are joined, as they are, after the
base and the modifier terms of the first damage part (neither of which depends
on them), critical or not, and the formula of every later part is the declared
base of that part alone.  The roll is composed whenever the spellbook of a
spell exists, the item has a damage part and the damage ability is an ability
of the roll data. -/
theorem rollDamage_extraParts_placement (alterRoll : String → Int → JsNum → String)
    (item : RollItem) (rollData : RollData) (critical primaryAttack : Bool)
    (extraParts : List String) (h : DamageRollable item rollData) :
    ∃ p0 later rd,
      rollDamageParts alterRoll item rollData critical primaryAttack = some (p0 :: later, rd) ∧
      rollDamage alterRoll item rollData critical extraParts primaryAttack =
        some (⟨⟨"+".intercalate ([p0.base] ++ p0.extra ++ extraParts), rd⟩, p0.damageType⟩ ::
          laterDamageRolls rd item.damageParts.tail) := by
  obtain ⟨rd0, st, b0, t0, rest, h0, hp, hst, -, -, -⟩ :=
    rollDamage_blocks item rollData critical primaryAttack h
  refine ⟨_, _, _, rollDamageParts_eq alterRoll item rollData critical primaryAttack rd0 st
    b0 t0 rest h0 hp hst, ?_⟩
  rw [rollDamage_eq alterRoll item rollData critical primaryAttack extraParts rd0 st b0 t0 rest
    h0 hp hst, hp]
  rfl

/-- C14 (witness): the sword with an ammunition formula as extra part. -/
theorem rollDamage_extraParts_placement_witness :
    ∃ p0 later rd,
      rollDamageParts keepRoll swordItem plainRollData true true = some (p0 :: later, rd) ∧
      rollDamage keepRoll swordItem plainRollData true ["1d6"] true =
        some (⟨⟨"+".intercalate ([p0.base] ++ p0.extra ++ ["1d6"]), rd⟩, p0.damageType⟩ ::
          laterDamageRolls rd swordItem.damageParts.tail) :=
  rollDamage_extraParts_placement keepRoll swordItem plainRollData true true ["1d6"] (by decide)

/-- C15 (counterexample): for a secondary attack of an item whose damage
multiplier is 0, a positive modifier 3 gives `ablDamage = 0`, not
`floor(3 × 1/2) = 1`: the multiplier is replaced by 0.5 only when it is
positive. -/
theorem secondary_attack_zero_multiplier :
    (rollDamageParts keepRoll { swordItem with damageMult := some 0 }
        { plainRollData with abilities := [("str", JsNum.num 3)] } false false).map
          (fun r => r.2.ablDamage) = some (JsNum.num 0) := by
  decide

/-- C15 (amended): in `rollDamage` for a secondary attack (`primaryAttack =
false`) with a damage ability set, provided the ability multiplier in force
(the item's `damageMult`, or the roll data's `ablMult` when the item has none)
is positive, the multiplier is replaced by 0.5 whatever its value: a
non-negative modifier `m` binds `ablDamage = floor(m × 1/2)`, a negative
modifier binds `ablDamage = m`, not scaled by any multiplier. -/
theorem secondary_attack_ability_damage (alterRoll : String → Int → JsNum → String)
    (item : RollItem) (rollData : RollData) (critical : Bool) (abl : String) (m : Int)
    (h : DamageRollable item rollData)
    (ha : item.abilityDamage = some abl) (hne : abl ≠ "")
    (hm : rollData.ability abl = some (JsNum.num m))
    (hpos : isPositive (effectiveAblMult item rollData) = true) :
    ∃ parts rd,
      rollDamageParts alterRoll item rollData critical false = some (parts, rd) ∧
      rd.ablMult = some half ∧
      rd.ablDamage = (if m < 0 then JsNum.num m else JsNum.num ⌊(m : ℚ) * (1 / 2)⌋) := by
  obtain ⟨rd0, st, b0, t0, rest, h0, hp, hst, hab, -, hmult⟩ :=
    rollDamage_blocks item rollData critical false h
  have hm0 : ({ extra := [], data := rd0 } : DamageState).data.ability abl
      = some (JsNum.num m) := by
    unfold RollData.ability at hm ⊢
    rw [hab]
    exact hm
  rw [addAbilityDamage_of_ability item _ abl (JsNum.num m) ha hne hm0] at hst
  simp only [Option.some.injEq] at hst
  have hmult' : rd0.ablMult = some half := by
    rw [hmult]
    simp [hpos]
  refine ⟨_, _, rollDamageParts_eq alterRoll item rollData critical false rd0 st
    b0 t0 rest h0 hp (by rw [addAbilityDamage_of_ability item _ abl (JsNum.num m) ha hne hm0, hst]),
    ?_, ?_⟩
  · rw [(addBonusDamage_parts item st).1, ← hst]
    exact hmult'
  · rw [(addBonusDamage_parts item st).1, ← hst]
    show boundAblDamage (JsNum.num m) rd0.ablMult = _
    rw [hmult']
    unfold boundAblDamage
    by_cases hneg : m < 0
    · simp [JsNum.ltZero, hneg]
    · simp only [JsNum.ltZero, hneg, decide_False, Bool.false_eq_true, ↓reduceIte]
      rw [floorMul_num, half_eq]

/-- C15 (witness): a secondary attack of an item with damage multiplier 1.5
and strength modifier 3. -/
theorem secondary_attack_ability_damage_witness :
    ∃ parts rd,
      rollDamageParts keepRoll
          { swordItem with damageMult := some (Rat.mk' 3 2 (by decide) (by decide)) }
          { plainRollData with abilities := [("str", JsNum.num 3)] } true false
        = some (parts, rd) ∧
      rd.ablMult = some half ∧
      rd.ablDamage = (if (3 : Int) < 0 then JsNum.num 3 else JsNum.num ⌊((3 : Int) : ℚ) * (1 / 2)⌋) :=
  secondary_attack_ability_damage keepRoll
    { swordItem with damageMult := some (Rat.mk' 3 2 (by decide) (by decide)) }
    { plainRollData with abilities := [("str", JsNum.num 3)] } true "str" 3
    (by decide) rfl (by decide) (by decide) (by decide)

/-- C16: for an item with damage parts `(b0, t0), rest`, the first formula of
`rollDamage` starts with `alterRoll(b0, 0, critMult)`, the base expression of
the first part alone altered for the critical multiplier (the item's
multiplier on a critical hit, 1 otherwise), the modifier terms and the extra
parts being joined after it; the formula of every later part is its declared
base expression, critical or not.  The roll is composed whenever the spellbook
of a spell exists and the damage ability is an ability of the roll data. -/
theorem rollDamage_critical_base (alterRoll : String → Int → JsNum → String)
    (item : RollItem) (rollData : RollData) (critical primaryAttack : Bool)
    (extraParts : List String) (b0 t0 : String) (rest : List (String × String))
    (h : DamageRollable item rollData) (hp : item.damageParts = (b0, t0) :: rest) :
    ∃ terms rd,
      rollDamage alterRoll item rollData critical extraParts primaryAttack =
        some (⟨⟨"+".intercalate
                ([alterRoll b0 0 (if critical then item.critMult else JsNum.num 1)] ++ terms ++
                  extraParts), rd⟩, t0⟩ ::
          laterDamageRolls rd rest) ∧
      List.Sublist terms (damageTerms item rd) := by
  obtain ⟨rd0, st, b0', t0', rest', h0, hp', hst, -, hc, -⟩ :=
    rollDamage_blocks item rollData critical primaryAttack h
  rw [hp] at hp'
  simp only [List.cons.injEq, Prod.mk.injEq] at hp'
  obtain ⟨⟨rfl, rfl⟩, rfl⟩ := hp'
  obtain ⟨p0, later, rd, hparts, -, hsub⟩ :=
    rollDamage_modifier_scaling alterRoll item rollData critical primaryAttack h
  rw [rollDamageParts_eq alterRoll item rollData critical primaryAttack rd0 st b0 t0 rest
    h0 hp hst] at hparts
  simp only [Option.some.injEq, Prod.mk.injEq, List.cons.injEq] at hparts
  obtain ⟨⟨rfl, -⟩, rfl⟩ := hparts
  refine ⟨(addBonusDamage item st).extra, (addBonusDamage item st).data, ?_, hsub⟩
  rw [rollDamage_eq alterRoll item rollData critical primaryAttack extraParts rd0 st b0 t0 rest
    h0 hp hst, hc]

/-- C16 (witness): a critical hit with a weapon of two damage parts. -/
theorem rollDamage_critical_base_witness :
    ∃ terms rd,
      rollDamage keepRoll { swordItem with damageParts := [("1d8", "slashing"), ("1d6", "fire")] }
          plainRollData true [] true =
        some (⟨⟨"+".intercalate
                ([keepRoll "1d8" 0 (if true then
                    ({ swordItem with
                        damageParts := [("1d8", "slashing"), ("1d6", "fire")] } : RollItem).critMult
                    else JsNum.num 1)] ++ terms ++ []), rd⟩, "slashing"⟩ ::
          laterDamageRolls rd [("1d6", "fire")]) ∧
      List.Sublist terms
        (damageTerms { swordItem with damageParts := [("1d8", "slashing"), ("1d6", "fire")] } rd) :=
  rollDamage_critical_base keepRoll
    { swordItem with damageParts := [("1d8", "slashing"), ("1d6", "fire")] }
    plainRollData true true [] "1d8" "slashing" [("1d6", "fire")] (by decide) rfl


lemma lex_strike_formula :
    lex "1d20+@abilities.str.mod+@attributes.bab.total" =
      some [Tok.dice 1 20, Tok.plus, Tok.ref "abilities.str.mod", Tok.plus,
        Tok.ref "attributes.bab.total"] := by
  decide

lemma parseFormula_sum_of_three (n m : Nat) (a b : ℚ) :
    parseFormula [Tok.dice n m, Tok.plus, Tok.val a, Tok.plus, Tok.val b] =
      some (Expr.add (Expr.add (Expr.dice n m) (Expr.lit a)) (Expr.lit b)) :=
  rfl

/-! ## Buff lifecycle: what an update dispatches -/

lemma dispatch_inner_foldl (a : BuffActor) (ds : List ActionData) (acc : List ActorCall) :
    ds.foldl
        (fun calls actionData =>
          if actionData.target = selfWord then
            match some a with
            | none => calls
            | some a => calls ++ [ActorCall.applyActionOnSelf a.hasToken actionData]
          else calls)
        acc
      = acc ++ (ds.filter fun d => decide (d.target = selfWord)).map
          (ActorCall.applyActionOnSelf a.hasToken) := by
  induction ds generalizing acc with
  | nil => simp
  | cons d ds ih =>
    rw [List.foldl_cons, ih]
    by_cases h : d.target = selfWord
    · simp [h, List.filter_cons]
    · simp [h, List.filter_cons]

lemma dispatchActions_some (a : BuffActor) (actions : List BuffAction) :
    dispatchActions (some a) actions =
      (selfDirectives actions).map (ActorCall.applyActionOnSelf a.hasToken) := by
  unfold dispatchActions selfDirectives parsedDirectives
  suffices h : ∀ acc : List ActorCall,
      actions.foldl
          (fun calls actionValue =>
            (parseAction actionValue.action).foldl
              (fun calls actionData =>
                if actionData.target = selfWord then
                  match some a with
                  | none => calls
                  | some a => calls ++ [ActorCall.applyActionOnSelf a.hasToken actionData]
                else calls)
              calls)
          acc
        = acc ++ ((actions.flatMap fun a => parseAction a.action).filter
            fun d => decide (d.target = selfWord)).map
              (ActorCall.applyActionOnSelf a.hasToken) by
    simpa using h []
  induction actions with
  | nil => intro acc; simp
  | cons x xs ih =>
    intro acc
    rw [List.foldl_cons, dispatch_inner_foldl, ih]
    simp [List.flatMap_cons, List.filter_append, List.map_append, List.append_assoc]

lemma dispatchActions_none (actions : List BuffAction) : dispatchActions none actions = [] := by
  unfold dispatchActions
  suffices h : ∀ (ds : List ActionData) (acc : List ActorCall),
      ds.foldl
        (fun calls actionData =>
          if actionData.target = selfWord then
            match (none : Option BuffActor) with
            | none => calls
            | some a => calls ++ [ActorCall.applyActionOnSelf a.hasToken actionData]
          else calls)
        acc = acc by
    induction actions with
    | nil => rfl
    | cons x xs ih =>
      rw [List.foldl_cons, h]
      exact ih
  intro ds
  induction ds with
  | nil => intro acc; rfl
  | cons d ds ih =>
    intro acc
    rw [List.foldl_cons, ← ih acc]
    split_ifs <;> simp [ih]

lemma cloneNaturalAttacks_some (item : BuffItem) (a : BuffActor) (ha : item.actor = some a)
    (hs : item.isShapechange = true) :
    cloneNaturalAttacks item =
      (item.sourceItems.filter OwnedItemData.isNaturalAttack).map
        fun i => ActorCall.createOwnedItem a.hasToken (polymorphClone item i) := by
  unfold BuffItem.isShapechange at hs
  simp only [decide_eq_true_eq] at hs
  unfold cloneNaturalAttacks
  rw [if_pos hs.1, if_pos hs.2, ha]
  suffices h : ∀ (l : List OwnedItemData) (acc : List ActorCall),
      l.foldl
        (fun calls i =>
          if i.type = "attack" ∧ i.attackType = "natural" then
            match some a with
            | none => calls
            | some a =>
              calls ++ [ActorCall.createOwnedItem a.hasToken
                { i with name := i.name ++ " (Polymorhped " ++ item.sourceName ++ ")", id := none }]
          else calls)
        acc
      = acc ++ (l.filter OwnedItemData.isNaturalAttack).map
          fun i => ActorCall.createOwnedItem a.hasToken (polymorphClone item i) by
    simpa using h item.sourceItems []
  intro l
  induction l with
  | nil => intro acc; simp
  | cons i l ih =>
    intro acc
    rw [List.foldl_cons, ih]
    by_cases h : i.type = "attack" ∧ i.attackType = "natural"
    · simp [h, List.filter_cons, OwnedItemData.isNaturalAttack, polymorphClone]
    · simp [h, List.filter_cons, OwnedItemData.isNaturalAttack]

lemma cloneNaturalAttacks_other (item : BuffItem) (hs : item.isShapechange = false) :
    cloneNaturalAttacks item = [] := by
  unfold BuffItem.isShapechange at hs
  simp only [decide_eq_false_iff_not, not_and] at hs
  unfold cloneNaturalAttacks
  by_cases h1 : item.buffType = "shapechange"
  · rw [if_pos h1, if_neg (hs h1)]
  · rw [if_neg h1]

lemma removeNaturalAttacks_some (item : BuffItem) (a : BuffActor) (ha : item.actor = some a)
    (hs : item.isShapechange = true) :
    removeNaturalAttacks item =
      (a.items.filter fun i => i.isNaturalAttack && !i.melded).map
        fun i => ActorCall.deleteOwnedItem a.hasToken i.id := by
  unfold BuffItem.isShapechange at hs
  simp only [decide_eq_true_eq] at hs
  unfold removeNaturalAttacks
  rw [if_pos hs.1, if_pos hs.2, ha]
  suffices h : ∀ (l : List OwnedItemData) (acc : List ActorCall),
      l.foldl
        (fun calls i =>
          if i.type = "attack" ∧ i.attackType = "natural" ∧ i.melded = false then
            calls ++ [ActorCall.deleteOwnedItem a.hasToken i.id]
          else calls)
        acc
      = acc ++ (l.filter fun i => i.isNaturalAttack && !i.melded).map
          fun i => ActorCall.deleteOwnedItem a.hasToken i.id by
    simpa using h a.items []
  intro l
  induction l with
  | nil => intro acc; simp
  | cons i l ih =>
    intro acc
    rw [List.foldl_cons, ih]
    by_cases h : i.type = "attack" ∧ i.attackType = "natural" ∧ i.melded = false
    · have hn : i.isNaturalAttack = true := by
        simp [OwnedItemData.isNaturalAttack, h.1, h.2.1]
      simp [h, List.filter_cons, hn, h.2.2]
    · have h' : (i.isNaturalAttack && !i.melded) = false := by
        simp only [OwnedItemData.isNaturalAttack, Bool.and_eq_false_imp, decide_eq_true_eq,
          Bool.not_eq_false']
        intro h1
        by_contra h2
        exact h ⟨h1.1, h1.2, by simpa using h2⟩
      simp [h, List.filter_cons, h']

lemma removeNaturalAttacks_other (item : BuffItem) (hs : item.isShapechange = false) :
    removeNaturalAttacks item = [] := by
  unfold BuffItem.isShapechange at hs
  simp only [decide_eq_false_iff_not, not_and] at hs
  unfold removeNaturalAttacks
  by_cases h1 : item.buffType = "shapechange"
  · rw [if_pos h1, if_neg (hs h1)]
  · rw [if_neg h1]


lemma update_calls_activation (rollTotal : String → Int) (item : BuffItem) (data : UpdatePatch)
    (h1 : data.active = some true) (h2 : item.active = false) :
    (update rollTotal item data).calls =
      dispatchActions item.actor item.activateActions ++ cloneNaturalAttacks item := by
  unfold update
  dsimp only
  split_ifs <;> simp_all

lemma update_calls_deactivation (rollTotal : String → Int) (item : BuffItem) (data : UpdatePatch)
    (h1 : item.active = true) (h2 : data.active = some false ∨ data.active = none) :
    (update rollTotal item data).calls =
      removeNaturalAttacks item ++ dispatchActions item.actor item.deactivateActions := by
  unfold update
  dsimp only
  rcases h2 with h2 | h2 <;> split_ifs <;> simp_all

lemma update_item_active (rollTotal : String → Int) (item : BuffItem) (data : UpdatePatch) :
    (update rollTotal item data).item.active = data.active.getD item.active := by
  unfold update storePatch
  dsimp only
  split_ifs <;> (try split) <;> (try split_ifs) <;> simp_all


lemma appliedDirectives_append (l₁ l₂ : List ActorCall) :
    appliedDirectives (l₁ ++ l₂) = appliedDirectives l₁ ++ appliedDirectives l₂ := by
  simp [appliedDirectives, List.filterMap_append]

lemma createdItems_append (l₁ l₂ : List ActorCall) :
    createdItems (l₁ ++ l₂) = createdItems l₁ ++ createdItems l₂ := by
  simp [createdItems, List.filterMap_append]

lemma deletedIds_append (l₁ l₂ : List ActorCall) :
    deletedIds (l₁ ++ l₂) = deletedIds l₁ ++ deletedIds l₂ := by
  simp [deletedIds, List.filterMap_append]

lemma appliedDirectives_map_apply (b : Bool) (l : List ActionData) :
    appliedDirectives (l.map (ActorCall.applyActionOnSelf b)) = l := by
  induction l with
  | nil => rfl
  | cons d l ih => simpa [appliedDirectives] using ih

lemma createdItems_map_apply (b : Bool) (l : List ActionData) :
    createdItems (l.map (ActorCall.applyActionOnSelf b)) = [] := by
  induction l with
  | nil => rfl
  | cons d l _ => simp [createdItems]

lemma deletedIds_map_apply (b : Bool) (l : List ActionData) :
    deletedIds (l.map (ActorCall.applyActionOnSelf b)) = [] := by
  induction l with
  | nil => rfl
  | cons d l _ => simp [deletedIds]

lemma appliedDirectives_map_create {α : Type} (b : Bool) (f : α → OwnedItemData) (l : List α) :
    appliedDirectives (l.map fun i => ActorCall.createOwnedItem b (f i)) = [] := by
  induction l with
  | nil => rfl
  | cons d l _ => simp [appliedDirectives]

lemma createdItems_map_create {α : Type} (b : Bool) (f : α → OwnedItemData) (l : List α) :
    createdItems (l.map fun i => ActorCall.createOwnedItem b (f i)) = l.map f := by
  induction l with
  | nil => rfl
  | cons d l ih => simpa [createdItems] using ih

lemma deletedIds_map_create {α : Type} (b : Bool) (f : α → OwnedItemData) (l : List α) :
    deletedIds (l.map fun i => ActorCall.createOwnedItem b (f i)) = [] := by
  induction l with
  | nil => rfl
  | cons d l _ => simp [deletedIds]

lemma appliedDirectives_map_delete {α : Type} (b : Bool) (f : α → Option String) (l : List α) :
    appliedDirectives (l.map fun i => ActorCall.deleteOwnedItem b (f i)) = [] := by
  induction l with
  | nil => rfl
  | cons d l _ => simp [appliedDirectives]

lemma createdItems_map_delete {α : Type} (b : Bool) (f : α → Option String) (l : List α) :
    createdItems (l.map fun i => ActorCall.deleteOwnedItem b (f i)) = [] := by
  induction l with
  | nil => rfl
  | cons d l _ => simp [createdItems]

lemma deletedIds_map_delete {α : Type} (b : Bool) (f : α → Option String) (l : List α) :
    deletedIds (l.map fun i => ActorCall.deleteOwnedItem b (f i)) = l.map f := by
  induction l with
  | nil => rfl
  | cons d l ih => simpa [deletedIds] using ih

/-- The removal loop applies no directive and creates no item. -/
lemma removeNaturalAttacks_only_deletes (item : BuffItem) (a : BuffActor)
    (ha : item.actor = some a) :
    appliedDirectives (removeNaturalAttacks item) = [] ∧
      createdItems (removeNaturalAttacks item) = [] := by
  cases hs : item.isShapechange with
  | false => rw [removeNaturalAttacks_other item hs]; exact ⟨rfl, rfl⟩
  | true =>
    rw [removeNaturalAttacks_some item a ha hs]
    exact ⟨appliedDirectives_map_delete _ _ _, createdItems_map_delete _ _ _⟩

/-- The cloning loop applies no directive and deletes no item. -/
lemma cloneNaturalAttacks_only_creates (item : BuffItem) (a : BuffActor)
    (ha : item.actor = some a) :
    appliedDirectives (cloneNaturalAttacks item) = [] ∧
      deletedIds (cloneNaturalAttacks item) = [] := by
  cases hs : item.isShapechange with
  | false => rw [cloneNaturalAttacks_other item hs]; exact ⟨rfl, rfl⟩
  | true =>
    rw [cloneNaturalAttacks_some item a ha hs]
    exact ⟨appliedDirectives_map_create _ _ _, deletedIds_map_create _ _ _⟩

/-! ## Ownership check -/

/-- C21 (evaluation at the failing input): for a consumable without action,
with one use left, whose actor the user does not own, `use` deducts the use
(an update of the item with `data.quantity = 0`) before it calls `roll`, and
only `roll` stops with the permission warning; `useAttack` stops at once. -/
theorem use_deducts_before_permission_check :
    use foreignPotion =
        [UseEvent.addCharges (-1)
            (some ⟨none, [LedgerWrite.itemUpdate { quantity := JsNum.num 0 }]⟩),
          UseEvent.roll] ∧
      (use foreignPotion).flatMap UseEvent.writes =
        [LedgerWrite.itemUpdate { quantity := JsNum.num 0 }] ∧
      roll foreignPotion = RollOutcome.warn "D35E.ErrorNoActorPermission" ∧
      useAttack foreignPotion = [UseEvent.warn "D35E.ErrorNoActorPermission"] := by
  decide

/-! ## Timeline -/

lemma addElapsedTime_idle (item : BuffItem) (tl : Timeline) (t : Int)
    (htl : item.timeline = some tl) (h : tl.enabled = false ∨ item.active = false) :
    addElapsedTime item t = ElapsedRequest.nothing := by
  unfold addElapsedTime
  rcases h with h | h <;> simp [htl, h]

lemma addElapsedTime_running (item : BuffItem) (tl : Timeline) (t : Int)
    (htl : item.timeline = some tl) (hen : tl.enabled = true) (hact : item.active = true)
    (hlt : tl.elapsed + t < tl.total) :
    addElapsedTime item t = ElapsedRequest.update { elapsed := some (tl.elapsed + t) } := by
  unfold addElapsedTime
  simp [htl, hen, hact, not_le.mpr hlt]

lemma addElapsedTime_expired (item : BuffItem) (tl : Timeline) (t : Int)
    (htl : item.timeline = some tl) (hen : tl.enabled = true) (hact : item.active = true)
    (hge : tl.elapsed + t ≥ tl.total) (hdel : tl.deleteOnExpiry = false) :
    addElapsedTime item t = ElapsedRequest.update { active := some false } := by
  unfold addElapsedTime
  simp [htl, hen, hact, hge, hdel]

lemma addElapsedTime_vanishing (item : BuffItem) (tl : Timeline) (t : Int)
    (htl : item.timeline = some tl) (hen : tl.enabled = true) (hact : item.active = true)
    (hge : tl.elapsed + t ≥ tl.total) (hdel : tl.deleteOnExpiry = true) :
    addElapsedTime item t =
      match item.actor with
      | none => ElapsedRequest.nothing
      | some _ => ElapsedRequest.deleteOwnedItem item.id := by
  unfold addElapsedTime
  simp [htl, hen, hact, hge, hdel]

/-- C22 (counterexample): for an active buff that no actor owns, two rounds
before its end, `addElapsedTime(5)` requests the update `data.active = false`,
and that update dispatches nothing, although `deactivateActions` has a
self-scoped directive. -/
theorem ownerless_expiry_dispatches_nothing :
    addElapsedTime ownerlessBuff 5 = ElapsedRequest.update { active := some false } ∧
      (selfDirectives ownerlessBuff.deactivateActions).length = 1 ∧
      elapsedTimeCalls constantRoll ownerlessBuff 5 = [] := by
  decide

/-- C22 (amended): for every active buff that has an owning actor, with
timeline enabled, `deleteOnExpiry` false and `elapsed + t ≥ total`,
`addElapsedTime(t)` requests the update `data.active = false`, after which the
buff is inactive; the directives that update applies on the actor are the
self-scoped directives of `deactivateActions`, each once, in declaration
order, and nothing else (no activation directive); it creates no item. -/
theorem expiry_deactivates_and_dispatches_once (rollTotal : String → Int) (item : BuffItem)
    (tl : Timeline) (a : BuffActor) (t : Int)
    (htl : item.timeline = some tl) (hen : tl.enabled = true) (hact : item.active = true)
    (hdel : tl.deleteOnExpiry = false) (hexp : tl.elapsed + t ≥ tl.total)
    (ha : item.actor = some a) :
    addElapsedTime item t = ElapsedRequest.update { active := some false } ∧
      (afterElapsedTime rollTotal item t).map (fun i => i.active) = some false ∧
      appliedDirectives (elapsedTimeCalls rollTotal item t) =
        ((item.deactivateActions.flatMap fun x => parseAction x.action).filter
          fun d => decide (d.target = selfWord)) ∧
      createdItems (elapsedTimeCalls rollTotal item t) = [] ∧
      elapsedTimeCalls rollTotal item t =
        removeNaturalAttacks item ++
          (selfDirectives item.deactivateActions).map (ActorCall.applyActionOnSelf a.hasToken) := by
  have hreq : addElapsedTime item t = ElapsedRequest.update { active := some false } :=
    addElapsedTime_expired item tl t htl hen hact hexp hdel
  have hcalls : elapsedTimeCalls rollTotal item t =
      removeNaturalAttacks item ++
        (selfDirectives item.deactivateActions).map (ActorCall.applyActionOnSelf a.hasToken) := by
    unfold elapsedTimeCalls
    rw [hreq]
    show (update rollTotal item { active := some false }).calls = _
    rw [update_calls_deactivation rollTotal item _ hact (Or.inl rfl), ha, dispatchActions_some]
  refine ⟨hreq, ?_, ?_, ?_, hcalls⟩
  · unfold afterElapsedTime
    rw [hreq]
    show some (update rollTotal item { active := some false }).item.active = some false
    rw [update_item_active]
    rfl
  · rw [hcalls, appliedDirectives_append, (removeNaturalAttacks_only_deletes item a ha).1,
      appliedDirectives_map_apply]
    rfl
  · rw [hcalls, createdItems_append, (removeNaturalAttacks_only_deletes item a ha).2,
      createdItems_map_apply]
    rfl

/-- C22 (witness): the buff at elapsed 58 of total 60, with `t = 5`. -/
theorem expiry_deactivates_and_dispatches_once_witness :
    addElapsedTime expiringBuff 5 = ElapsedRequest.update { active := some false } ∧
      (afterElapsedTime constantRoll expiringBuff 5).map (fun i => i.active) = some false ∧
      appliedDirectives (elapsedTimeCalls constantRoll expiringBuff 5) =
        ((expiringBuff.deactivateActions.flatMap fun x => parseAction x.action).filter
          fun d => decide (d.target = selfWord)) ∧
      createdItems (elapsedTimeCalls constantRoll expiringBuff 5) = [] ∧
      elapsedTimeCalls constantRoll expiringBuff 5 =
        removeNaturalAttacks expiringBuff ++
          (selfDirectives expiringBuff.deactivateActions).map
            (ActorCall.applyActionOnSelf (⟨false, []⟩ : BuffActor).hasToken) :=
  expiry_deactivates_and_dispatches_once constantRoll expiringBuff ⟨true, 58, 60, false, none⟩
    ⟨false, []⟩ 5 rfl rfl rfl rfl (by decide) rfl


/-- C23 (counterexample): an active buff with timeline enabled and
`deleteOnExpiry` set that no actor owns: at `elapsed + t ≥ total`,
`addElapsedTime(t)` does nothing; no deletion is requested. -/
theorem ownerless_expiry_requests_nothing :
    ownerlessVanishingBuff.active = true ∧
      ownerlessVanishingBuff.timeline = some ⟨true, 58, 60, true, none⟩ ∧
      ownerlessVanishingBuff.actor = none ∧
      addElapsedTime ownerlessVanishingBuff 5 = ElapsedRequest.nothing := by
  decide

/-- C23 (amended): `addElapsedTime(t)` does nothing when the item has no
timeline, the timeline is disabled or the buff is inactive; otherwise, when
`elapsed + t < total` it requests exactly the patch `elapsed := elapsed + t`;
when `elapsed + t ≥ total` it requests the patch `active := false` if
`deleteOnExpiry` is false, and if `deleteOnExpiry` is true it requests the
deletion of the item from its actor (with no patch to the item) when the item
has an actor, and does nothing when it has none. -/
theorem addElapsedTime_cases (item : BuffItem) (t : Int) :
    (item.timeline = none → addElapsedTime item t = ElapsedRequest.nothing) ∧
    (∀ tl, item.timeline = some tl →
      ((tl.enabled = false ∨ item.active = false) →
        addElapsedTime item t = ElapsedRequest.nothing) ∧
      (tl.enabled = true → item.active = true → tl.elapsed + t < tl.total →
        addElapsedTime item t = ElapsedRequest.update { elapsed := some (tl.elapsed + t) }) ∧
      (tl.enabled = true → item.active = true → tl.elapsed + t ≥ tl.total →
        tl.deleteOnExpiry = false →
        addElapsedTime item t = ElapsedRequest.update { active := some false }) ∧
      (tl.enabled = true → item.active = true → tl.elapsed + t ≥ tl.total →
        tl.deleteOnExpiry = true →
        (item.actor ≠ none → addElapsedTime item t = ElapsedRequest.deleteOwnedItem item.id) ∧
        (item.actor = none → addElapsedTime item t = ElapsedRequest.nothing))) := by
  refine ⟨fun h => by unfold addElapsedTime; rw [h], fun tl htl => ⟨?_, ?_, ?_, ?_⟩⟩
  · exact addElapsedTime_idle item tl t htl
  · exact addElapsedTime_running item tl t htl
  · exact addElapsedTime_expired item tl t htl
  · intro hen hact hge hdel
    rw [addElapsedTime_vanishing item tl t htl hen hact hge hdel]
    constructor
    · intro ha
      cases hactor : item.actor with
      | none => exact absurd hactor ha
      | some a => rfl
    · intro ha
      rw [ha]

/-- C23 (witness): the buff at elapsed 58 of total 60 that an actor owns, with
`deleteOnExpiry` false. -/
theorem addElapsedTime_cases_witness :
    (expiringBuff.timeline = some ⟨true, 58, 60, false, none⟩ ∧ expiringBuff.active = true) ∧
      addElapsedTime expiringBuff 1 = ElapsedRequest.update { elapsed := some (58 + 1) } ∧
      addElapsedTime expiringBuff 5 = ElapsedRequest.update { active := some false } :=
  ⟨⟨rfl, rfl⟩,
    ((addElapsedTime_cases expiringBuff 1).2 ⟨true, 58, 60, false, none⟩ rfl).2.1 rfl rfl
      (by decide),
    ((addElapsedTime_cases expiringBuff 5).2 ⟨true, 58, 60, false, none⟩ rfl).2.2.1 rfl rfl
      (by decide) rfl⟩

lemma update_elapsed_timeline (rollTotal : String → Int) (item : BuffItem) (tl : Timeline)
    (e : Int) (htl : item.timeline = some tl) (hf : hasTimelineFormula item = false) :
    (update rollTotal item { elapsed := some e }).item.timeline = some { tl with elapsed := e } := by
  unfold hasTimelineFormula at hf
  rw [htl] at hf
  cases hform : tl.formula with
  | none =>
    unfold update storePatch
    simp [htl, hform]
    split_ifs <;> simp [hform]
  | some f =>
    have hfe : f = "" := by
      simpa [hform] using hf
    subst hfe
    unfold update storePatch
    simp [htl, hform]
    split_ifs <;> simp [hform]

/-- C24 (counterexample): on an active buff with `elapsed = 5 ≤ total = 10`, the
update with the patch `elapsed := 20` leaves the buff active with
`elapsed = 20 > total`; and with the timeline formula `2`, `addElapsedTime(1)`
leaves it active with `elapsed = 6` and the total re-evaluated to 2. -/
theorem update_breaks_elapsed_within_total :
    elapsedWithinTotal tickingBuff = true ∧
      (update constantRoll tickingBuff { elapsed := some 20 }).item.active = true ∧
      (update constantRoll tickingBuff { elapsed := some 20 }).item.timeline =
        some ⟨true, 20, 10, false, none⟩ ∧
      elapsedWithinTotal formulaBuff = true ∧
      (afterElapsedTime constantRoll formulaBuff 1).map
          (fun i => (i.active, i.timeline.map fun tl => (tl.elapsed, tl.total))) =
        some (true, some (6, 2)) := by
  decide

/-- C24 (amended): for a buff whose timeline has no formula,
`timeline.elapsed ≤ timeline.total` while active is preserved by every
`addElapsedTime`: afterwards the buff is unchanged, inactive, deleted, or has
`elapsed + t < total`.  The activation update resets `elapsed` to 0.  (An
update whose patch sets `elapsed` or `total`, or that re-evaluates the total
from the timeline formula, does not preserve the property.) -/
theorem elapsed_within_total_without_formula (rollTotal : String → Int) (item : BuffItem)
    (t : Int) (hinv : elapsedWithinTotal item = true) (hf : hasTimelineFormula item = false) :
    (∀ item', afterElapsedTime rollTotal item t = some item' →
        elapsedWithinTotal item' = true) ∧
      (∀ data : UpdatePatch, data.active = some true → item.active = false →
        (update rollTotal item data).item.timeline.map (fun tl => tl.elapsed) =
          item.timeline.map fun _ => 0) := by
  constructor
  · intro item' h
    unfold afterElapsedTime at h
    cases hreq : addElapsedTime item t with
    | nothing =>
      rw [hreq] at h
      simp only [Option.some.injEq] at h
      rw [← h]
      exact hinv
    | deleteOwnedItem id =>
      rw [hreq] at h
      exact absurd h (by simp)
    | update data =>
      rw [hreq] at h
      simp only [Option.some.injEq] at h
      subst h
      cases htl : item.timeline with
      | none =>
        unfold addElapsedTime at hreq
        rw [htl] at hreq
        exact absurd hreq (by simp)
      | some tl =>
        by_cases hen : tl.enabled = true
        · by_cases hact : item.active = true
          · by_cases hge : tl.elapsed + t ≥ tl.total
            · cases hdel : tl.deleteOnExpiry with
              | false =>
                rw [addElapsedTime_expired item tl t htl hen hact hge hdel] at hreq
                injection hreq with hd
                subst hd
                have ha := update_item_active rollTotal item { active := some false }
                unfold elapsedWithinTotal
                split
                · simp [ha]
                · rfl
              | true =>
                rw [addElapsedTime_vanishing item tl t htl hen hact hge hdel] at hreq
                cases hactor : item.actor <;> rw [hactor] at hreq <;> exact absurd hreq (by simp)
            · rw [addElapsedTime_running item tl t htl hen hact (not_le.mp hge)] at hreq
              injection hreq with hd
              subst hd
              have htl' := update_elapsed_timeline rollTotal item tl (tl.elapsed + t) htl hf
              unfold elapsedWithinTotal
              rw [htl']
              simp only [Bool.or_eq_true, Bool.not_eq_true', decide_eq_true_eq]
              right
              exact le_of_lt (not_le.mp hge)
          · rw [addElapsedTime_idle item tl t htl (Or.inr (by simpa using hact))] at hreq
            exact absurd hreq (by simp)
        · rw [addElapsedTime_idle item tl t htl (Or.inl (by simpa using hen))] at hreq
          exact absurd hreq (by simp)
  · intro data h1 h2
    unfold update storePatch
    dsimp only
    cases item.timeline with
    | none => rfl
    | some tl =>
      simp only [Option.map_some']
      split_ifs <;> (try simp_all) <;> (split <;> (try split_ifs) <;> rfl)

/-- C24 (witness): the buff five rounds into its ten rounds, one round later. -/
theorem elapsed_within_total_without_formula_witness :
    (elapsedWithinTotal tickingBuff = true ∧ hasTimelineFormula tickingBuff = false) ∧
      (∀ item', afterElapsedTime constantRoll tickingBuff 1 = some item' →
        elapsedWithinTotal item' = true) ∧
      (∀ data : UpdatePatch, data.active = some true → tickingBuff.active = false →
        (update constantRoll tickingBuff data).item.timeline.map (fun tl => tl.elapsed) =
          tickingBuff.timeline.map fun _ => 0) :=
  ⟨⟨by decide, by decide⟩,
    elapsed_within_total_without_formula constantRoll tickingBuff 1 (by decide) (by decide)⟩


/-! ## Activation and deactivation -/

/-- C25 (evaluation at the failing input): the activation of a buff, owned by
an actor, whose activation action reads
`Condition set blessed to true on target` parses one directive, of scope
`target`, and dispatches nothing; the dispatch loop of the chat-card handler
routes the same directive to `ActorPF.applyAction`. -/
theorem activation_drops_target_directives :
    targetBuff.active = false ∧ targetBuff.actor ≠ none ∧
      (parsedDirectives targetBuff.activateActions).map (fun d => d.target) = [targetWord] ∧
      (update constantRoll targetBuff { active := some true }).calls = [] ∧
      (customAction "Condition set blessed to true on target".toList).map CardCall.isRouted =
        [true] := by
  decide


/-- C26 (counterexample): the item created on the activation of the wildshape
buff made from a wolf is named `Bite (Polymorhped Wolf)`: it is not the copy of
the source item `Bite` without its `_id`. -/
theorem clone_is_renamed :
    createdItems (update constantRoll wolfShape { active := some true }).calls =
        [{ biteAttack with name := "Bite (Polymorhped Wolf)", id := none }] ∧
      createdItems (update constantRoll wolfShape { active := some true }).calls ≠
        [{ biteAttack with id := none }] := by
  decide

/-- C26 (amended): on every Inactive→Active update of a buff with an owning
actor, if `buffType` is `shapechange` and the shapechange type is `wildshape`
or `polymorph`, exactly one owned item is created per item of
`shapechange.source.items` that is an attack with `attackType` natural, in
source order, each a copy of the source item without its `_id` and with
` (Polymorhped <source name>)` appended to its name; for any other `buffType`
or shapechange type no item is created. -/
theorem activation_clones_natural_attacks (rollTotal : String → Int) (item : BuffItem)
    (data : UpdatePatch) (a : BuffActor) (h1 : data.active = some true)
    (h2 : item.active = false) (ha : item.actor = some a) :
    (item.buffType = "shapechange" →
      (item.shapechangeType = "wildshape" ∨ item.shapechangeType = "polymorph") →
      createdItems (update rollTotal item data).calls =
        (item.sourceItems.filter fun i => decide (i.type = "attack" ∧ i.attackType = "natural")).map
          fun i => { i with name := i.name ++ " (Polymorhped " ++ item.sourceName ++ ")", id := none }) ∧
    ((item.buffType ≠ "shapechange" ∨
        (item.shapechangeType ≠ "wildshape" ∧ item.shapechangeType ≠ "polymorph")) →
      createdItems (update rollTotal item data).calls = []) := by
  have hcalls := update_calls_activation rollTotal item data h1 h2
  rw [ha, dispatchActions_some] at hcalls
  constructor
  · intro hb ht
    have hs : item.isShapechange = true := by
      unfold BuffItem.isShapechange
      simp [hb, ht]
    rw [hcalls, createdItems_append, createdItems_map_apply, List.nil_append,
      cloneNaturalAttacks_some item a ha hs, createdItems_map_create]
    rfl
  · intro h
    have hs : item.isShapechange = false := by
      unfold BuffItem.isShapechange
      simp only [decide_eq_false_iff_not, not_and, not_or]
      intro hb
      rcases h with h | h
      · exact absurd hb h
      · exact h
    rw [hcalls, createdItems_append, createdItems_map_apply, List.nil_append,
      cloneNaturalAttacks_other item hs]
    rfl

/-- C26 (witness): the activation of the wildshape buff made from a wolf. -/
theorem activation_clones_natural_attacks_witness :
    createdItems (update constantRoll wolfShape { active := some true }).calls =
      (wolfShape.sourceItems.filter
          fun i => decide (i.type = "attack" ∧ i.attackType = "natural")).map
        fun i =>
          { i with name := i.name ++ " (Polymorhped " ++ wolfShape.sourceName ++ ")", id := none } :=
  (activation_clones_natural_attacks constantRoll wolfShape { active := some true }
    ⟨false, [clawAttack]⟩ rfl rfl rfl).1 rfl (Or.inl rfl)


lemma update_deleted_ids (rollTotal : String → Int) (item : BuffItem) (data : UpdatePatch)
    (a : BuffActor) (h1 : item.active = true) (h2 : data.active = some false)
    (ha : item.actor = some a) (hs : item.isShapechange = true) :
    deletedIds (update rollTotal item data).calls =
      (a.items.filter fun i => i.isNaturalAttack && !i.melded).map fun i => i.id := by
  rw [update_calls_deactivation rollTotal item data h1 (Or.inl h2), ha, dispatchActions_some,
    deletedIds_append, deletedIds_map_apply, List.append_nil,
    removeNaturalAttacks_some item a ha hs, deletedIds_map_delete]

/-- C27 (counterexample): the hand-made polymorph buff clones only the bite on
activation; its deactivation deletes the claw attack that the actor owned
before (`own1`) along with the stored clone (`new1`). -/
theorem deactivation_deletes_independent_attack :
    createdItems (update constantRoll plainShape { active := some true }).calls =
        [polymorphClone plainShape biteAttack] ∧
      plainShape.actor = some ⟨false, [clawAttack]⟩ ∧
      deletedIds (update constantRoll plainShapeOn { active := some false }).calls =
        [some "own1", some "new1"] := by
  decide

/-- C27 (amended): on every Active→Inactive update of a wildshape/polymorph
shapechange buff that has an owning actor, the items deleted are exactly the
items of the actor that are attacks with `attackType` natural and not flagged
melded, in the order of the actor's items, whether they were cloned by this
buff's activation or owned independently of it; items flagged melded are
never deleted. -/
theorem deactivation_deletes_unmelded_natural_attacks (rollTotal : String → Int)
    (item : BuffItem) (data : UpdatePatch) (a : BuffActor) (h1 : item.active = true)
    (h2 : data.active = some false) (ha : item.actor = some a)
    (hb : item.buffType = "shapechange")
    (ht : item.shapechangeType = "wildshape" ∨ item.shapechangeType = "polymorph") :
    deletedIds (update rollTotal item data).calls =
      (a.items.filter fun i =>
        decide (i.type = "attack" ∧ i.attackType = "natural" ∧ i.melded = false)).map
          fun i => i.id := by
  have hs : item.isShapechange = true := by
    unfold BuffItem.isShapechange
    simp [hb, ht]
  rw [update_deleted_ids rollTotal item data a h1 h2 ha hs]
  congr 1
  apply List.filter_congr
  intro i _
  cases hm : i.melded <;> simp [OwnedItemData.isNaturalAttack, hm]

/-- C27 (witness): the deactivation of the hand-made polymorph buff. -/
theorem deactivation_deletes_unmelded_natural_attacks_witness :
    deletedIds (update constantRoll plainShapeOn { active := some false }).calls =
      ([clawAttack, storedBiteClone].filter fun i =>
        decide (i.type = "attack" ∧ i.attackType = "natural" ∧ i.melded = false)).map
          fun i => i.id :=
  deactivation_deletes_unmelded_natural_attacks constantRoll plainShapeOn
    { active := some false } ⟨false, [clawAttack, storedBiteClone]⟩ rfl rfl rfl rfl (Or.inr rfl)

/-- C28 (counterexample): the wildshape buff made from a wolf whose bite is
flagged melded creates a melded clone on activation, and its deactivation, with
the stored clone on the actor, deletes nothing: the clone stays. -/
theorem melded_clone_is_not_removed :
    createdItems (update constantRoll meldedWolfShape { active := some true }).calls =
        [{ biteAttack with name := "Bite (Polymorhped Wolf)", id := none, melded := true }] ∧
      meldedWolfShapeOn.actor =
        some ⟨false, [{ clawAttack with melded := true },
          { biteAttack with name := "Bite (Polymorhped Wolf)", id := some "new1", melded := true }]⟩ ∧
      deletedIds (update constantRoll meldedWolfShapeOn { active := some false }).calls = [] := by
  decide

/-- C28 (amended): for every wildshape (or polymorph) buff with an owning
actor, the deactivation deletes every clone made by the activation from a
natural-attack source item that is not flagged melded, as long as the clone
is on the actor as it was created (under the identifier it was stored with);
and every item it deletes is an item of the actor that is not flagged melded,
so a clone of a source item flagged melded, which carries the flag, is not
removed. -/
theorem deactivation_removes_unmelded_clones (rollTotal : String → Int)
    (item : BuffItem) (data : UpdatePatch) (a : BuffActor) (h1 : item.active = true)
    (h2 : data.active = some false) (ha : item.actor = some a)
    (hb : item.buffType = "shapechange")
    (ht : item.shapechangeType = "wildshape" ∨ item.shapechangeType = "polymorph") :
    (∀ i ∈ item.sourceItems, i.type = "attack" → i.attackType = "natural" → i.melded = false →
      ∀ id : String, { polymorphClone item i with id := some id } ∈ a.items →
        some id ∈ deletedIds (update rollTotal item data).calls) ∧
    (∀ id ∈ deletedIds (update rollTotal item data).calls,
      ∃ i ∈ a.items, i.id = id ∧ i.melded = false) := by
  have hs : item.isShapechange = true := by
    unfold BuffItem.isShapechange
    simp [hb, ht]
  rw [update_deleted_ids rollTotal item data a h1 h2 ha hs]
  constructor
  · intro i _ hty hat hm id hmem
    rw [List.mem_map]
    refine ⟨_, List.mem_filter.mpr ⟨hmem, ?_⟩, rfl⟩
    simp [OwnedItemData.isNaturalAttack, polymorphClone, hty, hat, hm]
  · intro id hid
    rw [List.mem_map] at hid
    obtain ⟨i, hi, rfl⟩ := hid
    rw [List.mem_filter] at hi
    refine ⟨i, hi.1, rfl, ?_⟩
    have := hi.2
    simp only [Bool.and_eq_true, Bool.not_eq_true'] at this
    exact this.2

/-- C28 (witness): the deactivation of the hand-made polymorph buff removes
the stored clone of the unmelded bite. -/
theorem deactivation_removes_unmelded_clones_witness :
    some "new1" ∈ deletedIds (update constantRoll plainShapeOn { active := some false }).calls :=
  (deactivation_removes_unmelded_clones constantRoll plainShapeOn { active := some false }
      ⟨false, [clawAttack, storedBiteClone]⟩ rfl rfl rfl rfl (Or.inr rfl)).1
    biteAttack (by decide) rfl rfl rfl "new1" (by decide)

/-! ## Labels of `toConsumable` -/

/-- C29 (evaluation at the failing input): for a spell learned at spell level
4, `getMinimumCasterLevelBySpellData` gives `[4, 7]` and `toConsumable` gives
the spell-level label `7th`, the ordinal of the caster level, where the
ordinal of the spell level is `4th`; the caster-level label is `7th`. -/
theorem toConsumable_spell_level_label_reads_caster_level :
    getMinimumCasterLevelBySpellData fourthLevelSpell = (4, 7) ∧
      toConsumableLabels fourthLevelSpell = ("7th", "7th") ∧
      ordinalLabel 4 = "4th" ∧
      slLabel (getMinimumCasterLevelBySpellData fourthLevelSpell) ≠
        ordinalLabel (getMinimumCasterLevelBySpellData fourthLevelSpell).1 := by
  decide

/-! ## Uses of a power-point spell -/


/-- C30 (counterexample): a power of cost 3 in a power-point spellbook holding
2 points, without `uses.per`: `getSpellUses` returns 0 and `charges ≤ 0` holds
(the pool cannot pay), yet `useAttack` does not block the power and goes on to
its rolls, and `use` hands it to `actor.useSpell`. -/
theorem unpayable_power_is_not_blocked :
    getSpellUses drainedPower.ledger = some (Uses.count (JsNum.num 0)) ∧
      (charges drainedPower.ledger).map Uses.leZero = some true ∧
      isCharged drainedPower.ledger = false ∧
      useAttack drainedPower = [UseEvent.attackFlow] ∧
      use drainedPower = [UseEvent.useSpell] := by
  decide

/-- C30 (amended): for a spell that is not at-will, in a power-point spellbook
of its owning actor, `getSpellUses` returns `true` when the spellbook's
`powerPoints` minus the spell's `powerPointsCost` is `≥ 0` and `0` otherwise,
never the size of the pool; so the comparison `≤ 0` on the value returned holds
exactly when the pool cannot pay the cost (for numbers `p` and `c`: exactly
when `p < c`), and the getter `charges` returns that value unless `uses.per` is
`single`.  `useAttack` blocks the spell on that comparison only when the spell
is charged in the sense of `isCharged` (then, for an owner and a quantity that
is not `≤ 0`, it warns exactly when the pool cannot pay); a spell that is not
charged is never blocked for its charges, and `use` hands every spell to
`actor.useSpell`. -/
theorem powerPoint_spell_uses (u : UsableItem) (books : List (String × Spellbook))
    (b : Spellbook) (hty : u.ledger.type = "spell")
    (hb : u.ledger.actorSpellbooks = some books) (hat : u.ledger.atWill = false)
    (hbook : (books.find? fun e => e.1 = u.ledger.spellbook).map Prod.snd = some b)
    (hpp : b.usePowerPoints = true) :
    getSpellUses u.ledger =
        some (if b.powerPoints.subGeZero u.ledger.powerPointsCost then Uses.yes
              else Uses.count (JsNum.num 0)) ∧
      (getSpellUses u.ledger).map Uses.leZero =
        some (!b.powerPoints.subGeZero u.ledger.powerPointsCost) ∧
      (∀ p c : Int, b.powerPoints = JsNum.num p → u.ledger.powerPointsCost = JsNum.num c →
        ((getSpellUses u.ledger).map Uses.leZero = some true ↔ p < c)) ∧
      (u.ledger.usesPer ≠ some "single" → charges u.ledger = getSpellUses u.ledger) ∧
      (isCharged u.ledger = true → u.actorIsOwner = true →
        ¬ (u.ledger.quantity.notNullish = true ∧ u.ledger.quantity.leZero = true) →
        useAttack u =
          if b.powerPoints.subGeZero u.ledger.powerPointsCost then [UseEvent.attackFlow]
          else [UseEvent.warn "D35E.ErrorNoCharges"]) ∧
      (isCharged u.ledger = false → useAttack u ≠ [UseEvent.warn "D35E.ErrorNoCharges"]) ∧
      use u = [UseEvent.useSpell] := by
  have h : getSpellUses u.ledger =
      some (if b.powerPoints.subGeZero u.ledger.powerPointsCost then Uses.yes
            else Uses.count (JsNum.num 0)) := by
    unfold getSpellUses
    rw [hb]
    simp only [hat, Bool.false_eq_true, ↓reduceIte, hbook, hpp]
    split_ifs <;> rfl
  have h2 : (getSpellUses u.ledger).map Uses.leZero =
      some (!b.powerPoints.subGeZero u.ledger.powerPointsCost) := by
    rw [h]
    cases b.powerPoints.subGeZero u.ledger.powerPointsCost <;> rfl
  have hch : u.ledger.usesPer ≠ some "single" → charges u.ledger = getSpellUses u.ledger := by
    intro hper
    unfold charges
    rw [if_neg hper, if_pos hty]
  refine ⟨h, h2, ?_, hch, ?_, ?_, ?_⟩
  · intro p c hp hc
    rw [h2, hp, hc]
    simp only [JsNum.subGeZero, Option.some.injEq, Bool.not_eq_true', decide_eq_false_iff_not,
      ge_iff_le, sub_nonneg, not_le]
  · intro hcharged howner hq
    have hper : u.ledger.usesPer ≠ some "single" := by
      intro hs
      unfold isCharged at hcharged
      rw [hs, hty] at hcharged
      exact absurd hcharged (by decide)
    unfold useAttack
    rw [if_neg (by simp [howner]), if_neg hq, if_pos hcharged, hch hper, h]
    cases b.powerPoints.subGeZero u.ledger.powerPointsCost <;> rfl
  · intro hcharged
    unfold useAttack
    rw [if_neg (by simp [hcharged] : ¬ isCharged u.ledger = true)]
    split_ifs <;> simp
  · unfold use
    rw [if_pos hty]

/-- C30 (witness): the power with cost 3 and uses by charges in the spellbook
holding 2 points is blocked. -/
theorem powerPoint_spell_uses_witness :
    getSpellUses chargedDrainedPower.ledger = some (Uses.count (JsNum.num 0)) ∧
      useAttack chargedDrainedPower = [UseEvent.warn "D35E.ErrorNoCharges"] ∧
      use chargedDrainedPower = [UseEvent.useSpell] :=
  ⟨(powerPoint_spell_uses chargedDrainedPower [("primary", drainedBook)] drainedBook
      rfl rfl rfl rfl rfl).1,
    (powerPoint_spell_uses chargedDrainedPower [("primary", drainedBook)] drainedBook
      rfl rfl rfl rfl rfl).2.2.2.2.1 (by decide) rfl (by decide),
    (powerPoint_spell_uses chargedDrainedPower [("primary", drainedBook)] drainedBook
      rfl rfl rfl rfl rfl).2.2.2.2.2.2⟩


/-! ## Roll composer: the terms and their conditions -/

lemma addAbilityModifier_eq (item : RollItem) (st : AttackState) :
    addAbilityModifier item st =
      { parts := st.parts ++
          (if item.abilityAttack ≠ "" ∧ abilityModNonZero st.data item.abilityAttack = true
            then ["@abilities." ++ item.abilityAttack ++ ".mod"] else []),
        data := st.data } := by
  unfold addAbilityModifier
  dsimp only
  split_ifs <;> simp

lemma addBonusParts_eq (options : AttackOptions) (st : AttackState) :
    addBonusParts options st =
      { parts := st.parts ++ options.parts.getD [], data := st.data } := by
  unfold addBonusParts
  cases options.parts <;> simp

lemma addSizeBonus_eq (st : AttackState) :
    addSizeBonus st =
      { parts := st.parts ++
          (if st.data.sizeBonus.strictNeZero = true then ["@sizeBonus"] else []),
        data := st.data } := by
  unfold addSizeBonus
  split_ifs <;> simp

lemma addAttackBonus_eq (evalRoll : String → RollData → Option Int) (item : RollItem)
    (st st' : AttackState) (h : addAttackBonus evalRoll item st = some st') :
    ∃ o, st' =
      { parts := st.parts ++ (if item.attackBonus ≠ "" then ["@item.attackBonus"] else []),
        data := { st.data with itemAttackBonus := o } } := by
  unfold addAttackBonus at h
  split_ifs at h with hb
  · cases he : evalRoll item.attackBonus st.data with
    | none => simp [he] at h
    | some total =>
      simp only [he, Option.some.injEq] at h
      refine ⟨some (toString total), ?_⟩
      rw [← h, if_pos hb]
  · simp only [Option.some.injEq] at h
    refine ⟨st.data.itemAttackBonus, ?_⟩
    rw [← h, if_neg hb, List.append_nil]

lemma addGeneralAttack_eq (st : AttackState) :
    addGeneralAttack st =
      { parts := st.parts ++
          (if st.data.attackGeneral.strictNeZero = true then ["@attributes.attack.general"]
           else []),
        data := st.data } := by
  unfold addGeneralAttack
  split_ifs <;> simp

lemma addMeleeOrRanged_eq (item : RollItem) (st : AttackState) :
    addMeleeOrRanged item st =
      { parts := st.parts ++
          (if item.actionType ∈ ["mwak", "msak"] ∧ st.data.attackMelee.strictNeZero = true
            then ["@attributes.attack.melee"]
            else if item.actionType ∈ ["rwak", "rsak"] ∧ st.data.attackRanged.strictNeZero = true
            then ["@attributes.attack.ranged"] else []),
        data := st.data } := by
  unfold addMeleeOrRanged
  split_ifs <;> simp

lemma addBab_eq (st : AttackState) :
    addBab st =
      { parts := st.parts ++
          (if st.data.babTotal.strictNeZero = true ∧ st.data.babTotal.notNullish = true
            then ["@attributes.bab.total"] else []),
        data := st.data } := by
  unfold addBab
  split_ifs <;> simp

lemma addEnhancement_eq (st : AttackState) :
    addEnhancement st =
      { parts := st.parts ++
          (if st.data.itemEnh.strictNeZero = true ∧ st.data.itemEnh.notNullish = true
            then ["@item.enh"] else []),
        data := st.data } := by
  unfold addEnhancement
  split_ifs <;> simp

lemma subtractEnergyDrain_eq (st : AttackState) :
    subtractEnergyDrain st =
      { parts := st.parts ++
          (if st.data.energyDrain.notNullish = true ∧ st.data.energyDrain.strictNeZero = true
            then ["- max(0, abs(@attributes.energyDrain))"] else []),
        data := st.data } := by
  unfold subtractEnergyDrain
  split_ifs <;> simp

lemma addProficiencyPenalty_eq (item : RollItem) (st : AttackState) :
    addProficiencyPenalty item st =
      { parts := st.parts ++
          (if item.type = "attack" ∧ item.proficient = false
            then ["@item.proficiencyPenalty"] else []),
        data := st.data } := by
  unfold addProficiencyPenalty
  split_ifs <;> simp

lemma addMasterworkBonus_eq (item : RollItem) (st : AttackState) :
    addMasterworkBonus item st =
      { parts := st.parts ++
          (if item.type = "attack" ∧ item.masterwork = true ∧ item.enh.ltOne = true
            then ["@item.masterworkBonus"] else []),
        data :=
          if item.type = "attack" ∧ item.masterwork = true ∧ item.enh.ltOne = true
          then { st.data with itemMasterworkBonus := JsNum.num 1 } else st.data } := by
  unfold addMasterworkBonus
  split_ifs <;> simp

lemma addSecondaryPenalty_eq (options : AttackOptions) (st : AttackState) :
    addSecondaryPenalty options st =
      { parts := st.parts ++ (if options.primaryAttack = some false then ["-5"] else []),
        data := st.data } := by
  unfold addSecondaryPenalty
  split_ifs <;> simp

lemma addBonus_eq (options : AttackOptions) (st : AttackState) :
    addBonus options st =
      { parts := st.parts ++ (if options.bonus.notNullish = true then ["@bonus"] else []),
        data :=
          if options.bonus.notNullish = true then { st.data with bonus := options.bonus }
          else st.data } := by
  unfold addBonus
  split_ifs <;> simp

lemma addExtraParts_eq (options : AttackOptions) (st : AttackState) :
    addExtraParts options st =
      { parts := st.parts ++ options.extraParts.getD [], data := st.data } := by
  unfold addExtraParts
  cases options.extraParts <;> simp

lemma addCasterLevel_cl (item : RollItem) (rd rd' : RollData)
    (h : addCasterLevel item rd = some rd') : ∃ c, rd' = { rd with cl := c } := by
  unfold addCasterLevel at h
  split_ifs at h
  · cases hb : item.spellbookCl with
    | none => simp [hb] at h
    | some cl =>
      simp only [hb, Option.some.injEq] at h
      exact ⟨_, h.symm⟩
  · simp only [Option.some.injEq] at h
    exact ⟨rd.cl, h.symm⟩

/-- The list `parts` built by `rollAttack` is the closed form `attackTermList`,
and the roll data handed to the roll keep the abilities and the base attack
bonus passed in. -/
lemma rollAttackParts_eq (sizeMods : String → JsNum)
    (evalRoll : String → RollData → Option Int) (item : RollItem) (rollData : RollData)
    (options : AttackOptions) (st : AttackState)
    (h : rollAttackParts sizeMods evalRoll item rollData options = some st) :
    st.parts = attackTermList sizeMods item rollData options ∧
      st.data.abilities = rollData.abilities ∧ st.data.babTotal = rollData.babTotal := by
  unfold rollAttackParts at h
  simp only [bind, Option.bind_eq_some, pure, Option.some.injEq] at h
  obtain ⟨rd0, hcl, st4, h4, hst⟩ := h
  subst hst
  obtain ⟨c, rfl⟩ := addCasterLevel_cl item rollData rd0 hcl
  obtain ⟨o, rfl⟩ := addAttackBonus_eq evalRoll item _ st4 h4
  simp only [addExtraParts_eq, addBonus_eq, addSecondaryPenalty_eq, addMasterworkBonus_eq,
    addProficiencyPenalty_eq, subtractEnergyDrain_eq, addEnhancement_eq, addBab_eq,
    addMeleeOrRanged_eq, addGeneralAttack_eq, addSizeBonus_eq, addBonusParts_eq,
    addAbilityModifier_eq]
  refine ⟨?_, ?_, ?_⟩
  · unfold attackTermList
    simp only [List.nil_append, List.append_assoc, abilityModNonZero, RollData.ability]
  · split_ifs <;> rfl
  · split_ifs <;> rfl


lemma abilityTerm_head (abl : String) :
    ("@abilities." ++ abl ++ ".mod").data.take 3 = ['@', 'a', 'b'] := by
  simp only [String.data_append]
  rfl

lemma abilityTerm_ne (abl t : String) (ht : t.data.take 3 ≠ ['@', 'a', 'b']) :
    "@abilities." ++ abl ++ ".mod" ≠ t := by
  intro h
  apply ht
  rw [← h]
  exact abilityTerm_head abl

lemma abilityPath_inj (a b : String) :
    "abilities." ++ a ++ ".mod" = "abilities." ++ b ++ ".mod" ↔ a = b := by
  constructor
  · intro h
    have hd := congrArg String.data h
    simp only [String.data_append, List.append_assoc] at hd
    have h1 := List.append_cancel_left hd
    have h2 := List.append_cancel_right h1
    exact String.ext h2
  · rintro rfl
    rfl

lemma abilityPath_ne_bab (a : String) : "abilities." ++ a ++ ".mod" ≠ "attributes.bab.total" := by
  intro h
  have hd := congrArg (fun s : String => s.data.take 2) h
  simp only [String.data_append] at hd
  exact absurd (show ['a', 'b'] = ['a', 't'] from hd) (by decide)

lemma JsNum.strictNeZero_iff (v : JsNum) : v.strictNeZero = true ↔ v ≠ JsNum.num 0 := by
  cases v with
  | num n =>
    by_cases h : n = 0
    · subst h
      simp [JsNum.strictNeZero]
    · have : JsNum.num n ≠ JsNum.num 0 := fun hc => h (by injection hc)
      simp only [ne_eq, this, not_false_eq_true, iff_true]
      cases n with
      | ofNat k =>
        cases k with
        | zero => exact absurd rfl h
        | succ k => rfl
      | negSucc k => rfl
  | undefined => simp [JsNum.strictNeZero]
  | null => simp [JsNum.strictNeZero]
  | nan => simp [JsNum.strictNeZero]

lemma mem_ite_singleton (c : Prop) [Decidable c] (t u : String) :
    t ∈ (if c then [u] else []) ↔ c ∧ t = u := by
  split_ifs with h <;> simp [h]

/-- A term of the list `parts` that the caller did not pass is one of the
terms of `rollAttack`, pushed under its condition. -/
lemma mem_attackTermList (sizeMods : String → JsNum) (item : RollItem) (rollData : RollData)
    (options : AttackOptions) (t : String)
    (hp : t ∉ options.parts.getD []) (he : t ∉ options.extraParts.getD [])
    (h : t ∈ attackTermList sizeMods item rollData options) :
    (t = "@abilities." ++ item.abilityAttack ++ ".mod" ∧ item.abilityAttack ≠ "" ∧
        abilityModNonZero rollData item.abilityAttack = true) ∨
    (t = "@sizeBonus" ∧ (sizeMods rollData.traitsSize).strictNeZero = true) ∨
    (t = "@item.attackBonus" ∧ item.attackBonus ≠ "") ∨
    (t = "@attributes.attack.general" ∧ rollData.attackGeneral.strictNeZero = true) ∨
    (t = "@attributes.attack.melee" ∧ item.actionType ∈ ["mwak", "msak"] ∧
        rollData.attackMelee.strictNeZero = true) ∨
    (t = "@attributes.attack.ranged" ∧ item.actionType ∈ ["rwak", "rsak"] ∧
        rollData.attackRanged.strictNeZero = true) ∨
    (t = "@attributes.bab.total" ∧ rollData.babTotal.strictNeZero = true ∧
        rollData.babTotal.notNullish = true) ∨
    (t = "@item.enh" ∧ rollData.itemEnh.strictNeZero = true ∧
        rollData.itemEnh.notNullish = true) ∨
    (t = "- max(0, abs(@attributes.energyDrain))" ∧ rollData.energyDrain.notNullish = true ∧
        rollData.energyDrain.strictNeZero = true) ∨
    (t = "@item.proficiencyPenalty" ∧ item.type = "attack" ∧ item.proficient = false) ∨
    (t = "@item.masterworkBonus" ∧ item.type = "attack" ∧ item.masterwork = true ∧
        item.enh.ltOne = true) ∨
    (t = "-5" ∧ options.primaryAttack = some false) ∨
    (t = "@bonus" ∧ options.bonus.notNullish = true) := by
  unfold attackTermList at h
  simp only [List.mem_append, mem_ite_singleton, hp, he, false_or, or_false] at h
  rcases h with h | h | h | h | h | h | h | h | h | h | h | h
  · exact Or.inl ⟨h.2, h.1⟩
  · exact Or.inr (Or.inl ⟨h.2, h.1⟩)
  · exact Or.inr (Or.inr (Or.inl ⟨h.2, h.1⟩))
  · exact Or.inr (Or.inr (Or.inr (Or.inl ⟨h.2, h.1⟩)))
  · split_ifs at h with h1 h2
    · simp only [List.mem_singleton] at h
      exact Or.inr (Or.inr (Or.inr (Or.inr (Or.inl ⟨h, h1⟩))))
    · simp only [List.mem_singleton] at h
      exact Or.inr (Or.inr (Or.inr (Or.inr (Or.inr (Or.inl ⟨h, h2⟩)))))
    · simp at h
  · exact Or.inr (Or.inr (Or.inr (Or.inr (Or.inr (Or.inr (Or.inl ⟨h.2, h.1⟩))))))
  · exact Or.inr (Or.inr (Or.inr (Or.inr (Or.inr (Or.inr (Or.inr (Or.inl ⟨h.2, h.1⟩)))))))
  · exact Or.inr (Or.inr (Or.inr (Or.inr (Or.inr (Or.inr (Or.inr (Or.inr
      (Or.inl ⟨h.2, h.1⟩))))))))
  · exact Or.inr (Or.inr (Or.inr (Or.inr (Or.inr (Or.inr (Or.inr (Or.inr (Or.inr
      (Or.inl ⟨h.2, h.1⟩)))))))))
  · exact Or.inr (Or.inr (Or.inr (Or.inr (Or.inr (Or.inr (Or.inr (Or.inr (Or.inr (Or.inr
      (Or.inl ⟨h.2, h.1⟩))))))))))
  · exact Or.inr (Or.inr (Or.inr (Or.inr (Or.inr (Or.inr (Or.inr (Or.inr (Or.inr (Or.inr
      (Or.inr (Or.inl ⟨h.2, h.1⟩)))))))))))
  · exact Or.inr (Or.inr (Or.inr (Or.inr (Or.inr (Or.inr (Or.inr (Or.inr (Or.inr (Or.inr
      (Or.inr (Or.inr ⟨h.2, h.1⟩)))))))))))


lemma abilityModNonZero_spec (rd : RollData) (abl : String)
    (h : abilityModNonZero rd abl = true) :
    ∃ m, rd.ability abl = some m ∧ m ≠ JsNum.num 0 := by
  unfold abilityModNonZero at h
  cases hm : rd.ability abl with
  | none => simp [hm] at h
  | some m =>
    simp only [hm] at h
    exact ⟨m, rfl, (JsNum.strictNeZero_iff m).mp h⟩

/-- C9 (amended): in `rollAttack` every optional term other than the
caller-supplied bonus is appended only if its governing value is non-empty /
non-zero (or its classification matches): the ability term only if the ability
is set and its modifier is not 0, `@sizeBonus` only if the size modifier is not
0, `@item.attackBonus` only if the item's attack bonus formula is not empty,
the general, melee and ranged attack terms only if their value is not 0 (and
the action type is of that kind), the BAB, enhancement and energy-drain terms
only if their value is not 0 and not missing, the proficiency penalty only for
a non-proficient attack, the masterwork bonus only for a masterwork attack
with less than 1 enhancement, `-5` only for a secondary attack.  The term
`@bonus` is in the formula if and only if `options.bonus` is neither `null`
nor `undefined`: an empty string or a zero still adds it.  The caller's own
`parts` and `extraParts` are taken not to hold the text of a built-in term.
The roll is composed whenever the spellbook of a spell exists and the item's
attack bonus formula evaluates. -/
theorem rollAttack_optional_terms (sizeMods : String → JsNum)
    (evalRoll : String → RollData → Option Int) (item : RollItem) (rollData : RollData)
    (options : AttackOptions)
    (hspell : item.type = "spell" → item.spellbookCl ≠ none)
    (heval : ∀ rd, evalRoll item.attackBonus rd ≠ none)
    (hcaller : ∀ t ∈ optionalAttackTerms item,
      t ∉ options.parts.getD [] ∧ t ∉ options.extraParts.getD []) :
    ∃ st, rollAttackParts sizeMods evalRoll item rollData options = some st ∧
      rollAttack sizeMods evalRoll item rollData options =
        some { formula := "+".intercalate ("1d20" :: st.parts), data := st.data } ∧
      ("@abilities." ++ item.abilityAttack ++ ".mod" ∈ st.parts →
        item.abilityAttack ≠ "" ∧
          ∃ m, rollData.ability item.abilityAttack = some m ∧ m ≠ JsNum.num 0) ∧
      ("@sizeBonus" ∈ st.parts → sizeMods rollData.traitsSize ≠ JsNum.num 0) ∧
      ("@item.attackBonus" ∈ st.parts → item.attackBonus ≠ "") ∧
      ("@attributes.attack.general" ∈ st.parts → rollData.attackGeneral ≠ JsNum.num 0) ∧
      ("@attributes.attack.melee" ∈ st.parts →
        item.actionType ∈ ["mwak", "msak"] ∧ rollData.attackMelee ≠ JsNum.num 0) ∧
      ("@attributes.attack.ranged" ∈ st.parts →
        item.actionType ∈ ["rwak", "rsak"] ∧ rollData.attackRanged ≠ JsNum.num 0) ∧
      ("@attributes.bab.total" ∈ st.parts →
        rollData.babTotal ≠ JsNum.num 0 ∧ rollData.babTotal.notNullish = true) ∧
      ("@item.enh" ∈ st.parts →
        rollData.itemEnh ≠ JsNum.num 0 ∧ rollData.itemEnh.notNullish = true) ∧
      ("- max(0, abs(@attributes.energyDrain))" ∈ st.parts →
        rollData.energyDrain ≠ JsNum.num 0 ∧ rollData.energyDrain.notNullish = true) ∧
      ("@item.proficiencyPenalty" ∈ st.parts → item.type = "attack" ∧ item.proficient = false) ∧
      ("@item.masterworkBonus" ∈ st.parts →
        item.type = "attack" ∧ item.masterwork = true ∧ item.enh.ltOne = true) ∧
      ("-5" ∈ st.parts → options.primaryAttack = some false) ∧
      ("@bonus" ∈ st.parts ↔ options.bonus.notNullish = true) := by
  obtain ⟨st, hst⟩ := rollAttackParts_total sizeMods evalRoll item rollData options hspell heval
  obtain ⟨hparts, -, -⟩ := rollAttackParts_eq sizeMods evalRoll item rollData options st hst
  have hroll : rollAttack sizeMods evalRoll item rollData options =
      some { formula := "+".intercalate ("1d20" :: st.parts), data := st.data } := by
    unfold rollAttack
    rw [hst]
    rfl
  have key : ∀ t ∈ optionalAttackTerms item, t ∈ st.parts → _ :=
    fun t ht hm =>
      mem_attackTermList sizeMods item rollData options t (hcaller t ht).1 (hcaller t ht).2
        (hparts ▸ hm)
  refine ⟨st, hst, hroll, ?_, ?_, ?_, ?_, ?_, ?_, ?_, ?_, ?_, ?_, ?_, ?_, ?_⟩
  · intro hm
    rcases key _ (by simp [optionalAttackTerms]) hm with
      h | h | h | h | h | h | h | h | h | h | h | h | h
    all_goals first
      | exact ⟨h.2.1, abilityModNonZero_spec _ _ h.2.2⟩
      | exact absurd h.1 (abilityTerm_ne _ _ (by decide))
  · intro hm
    rcases key _ (by simp [optionalAttackTerms]) hm with
      h | h | h | h | h | h | h | h | h | h | h | h | h
    all_goals first
      | exact (JsNum.strictNeZero_iff _).mp h.2
      | exact absurd h.1 (by decide)
      | exact absurd h.1.symm (abilityTerm_ne _ _ (by decide))
  · intro hm
    rcases key _ (by simp [optionalAttackTerms]) hm with
      h | h | h | h | h | h | h | h | h | h | h | h | h
    all_goals first
      | exact h.2
      | exact absurd h.1 (by decide)
      | exact absurd h.1.symm (abilityTerm_ne _ _ (by decide))
  · intro hm
    rcases key _ (by simp [optionalAttackTerms]) hm with
      h | h | h | h | h | h | h | h | h | h | h | h | h
    all_goals first
      | exact (JsNum.strictNeZero_iff _).mp h.2
      | exact absurd h.1 (by decide)
      | exact absurd h.1.symm (abilityTerm_ne _ _ (by decide))
  · intro hm
    rcases key _ (by simp [optionalAttackTerms]) hm with
      h | h | h | h | h | h | h | h | h | h | h | h | h
    all_goals first
      | exact ⟨h.2.1, (JsNum.strictNeZero_iff _).mp h.2.2⟩
      | exact absurd h.1 (by decide)
      | exact absurd h.1.symm (abilityTerm_ne _ _ (by decide))
  · intro hm
    rcases key _ (by simp [optionalAttackTerms]) hm with
      h | h | h | h | h | h | h | h | h | h | h | h | h
    all_goals first
      | exact ⟨h.2.1, (JsNum.strictNeZero_iff _).mp h.2.2⟩
      | exact absurd h.1 (by decide)
      | exact absurd h.1.symm (abilityTerm_ne _ _ (by decide))
  · intro hm
    rcases key _ (by simp [optionalAttackTerms]) hm with
      h | h | h | h | h | h | h | h | h | h | h | h | h
    all_goals first
      | exact ⟨(JsNum.strictNeZero_iff _).mp h.2.1, h.2.2⟩
      | exact absurd h.1 (by decide)
      | exact absurd h.1.symm (abilityTerm_ne _ _ (by decide))
  · intro hm
    rcases key _ (by simp [optionalAttackTerms]) hm with
      h | h | h | h | h | h | h | h | h | h | h | h | h
    all_goals first
      | exact ⟨(JsNum.strictNeZero_iff _).mp h.2.1, h.2.2⟩
      | exact absurd h.1 (by decide)
      | exact absurd h.1.symm (abilityTerm_ne _ _ (by decide))
  · intro hm
    rcases key _ (by simp [optionalAttackTerms]) hm with
      h | h | h | h | h | h | h | h | h | h | h | h | h
    all_goals first
      | exact ⟨(JsNum.strictNeZero_iff _).mp h.2.2, h.2.1⟩
      | exact absurd h.1 (by decide)
      | exact absurd h.1.symm (abilityTerm_ne _ _ (by decide))
  · intro hm
    rcases key _ (by simp [optionalAttackTerms]) hm with
      h | h | h | h | h | h | h | h | h | h | h | h | h
    all_goals first
      | exact h.2
      | exact absurd h.1 (by decide)
      | exact absurd h.1.symm (abilityTerm_ne _ _ (by decide))
  · intro hm
    rcases key _ (by simp [optionalAttackTerms]) hm with
      h | h | h | h | h | h | h | h | h | h | h | h | h
    all_goals first
      | exact h.2
      | exact absurd h.1 (by decide)
      | exact absurd h.1.symm (abilityTerm_ne _ _ (by decide))
  · intro hm
    rcases key _ (by simp [optionalAttackTerms]) hm with
      h | h | h | h | h | h | h | h | h | h | h | h | h
    all_goals first
      | exact h.2
      | exact absurd h.1 (by decide)
      | exact absurd h.1.symm (abilityTerm_ne _ _ (by decide))
  · constructor
    · intro hm
      rcases key _ (by simp [optionalAttackTerms]) hm with
        h | h | h | h | h | h | h | h | h | h | h | h | h
      all_goals first
        | exact h.2
        | exact absurd h.1 (by decide)
        | exact absurd h.1.symm (abilityTerm_ne _ _ (by decide))
    · intro hb
      rw [hparts]
      unfold attackTermList
      simp only [List.mem_append, mem_ite_singleton, hb, true_and, or_true, true_or]

/-- C9 (witness): the first attack of a full attack, with the bonus `""`. -/
theorem rollAttack_optional_terms_witness :
    ∃ st, rollAttackParts noSizeMod zeroRoll swordItem plainRollData
          { bonus := JsVal.str "" } = some st ∧
      rollAttack noSizeMod zeroRoll swordItem plainRollData { bonus := JsVal.str "" } =
        some { formula := "+".intercalate ("1d20" :: st.parts), data := st.data } ∧
      ("@sizeBonus" ∈ st.parts → noSizeMod plainRollData.traitsSize ≠ JsNum.num 0) ∧
      ("@bonus" ∈ st.parts ↔ (JsVal.str "").notNullish = true) := by
  obtain ⟨st, h1, h2, h⟩ :=
    rollAttack_optional_terms noSizeMod zeroRoll swordItem plainRollData { bonus := JsVal.str "" }
      (by decide) (fun _ => by simp [zeroRoll]) (by decide)
  exact ⟨st, h1, h2, h.2.1, h.2.2.2.2.2.2.2.2.2.2.2.2⟩


/-! ## The worked example of the evaluator -/

lemma binding_ability (rd : RollData) (abl : String) (m : JsNum)
    (h : rd.ability abl = some m) :
    rd.binding ("abilities." ++ abl ++ ".mod") = m.value := by
  unfold RollData.ability at h
  unfold RollData.binding
  have hp : (fun e : String × JsNum =>
      decide ("abilities." ++ e.1 ++ ".mod" = "abilities." ++ abl ++ ".mod")) =
      fun e => decide (e.1 = abl) := by
    funext e
    simp only [abilityPath_inj]
  rw [hp]
  cases hf : rd.abilities.find? (fun e => decide (e.1 = abl)) with
  | none =>
    rw [hf] at h
    exact absurd h (by simp)
  | some e =>
    rw [hf] at h
    simp only [Option.map_some', Option.some.injEq] at h
    rw [← h]

lemma binding_bab (rd : RollData) :
    rd.binding "attributes.bab.total" = rd.babTotal.value := by
  unfold RollData.binding
  have hn : rd.abilities.find?
      (fun e => decide ("abilities." ++ e.1 ++ ".mod" = "attributes.bab.total")) = none := by
    rw [List.find?_eq_none]
    intro e _
    simp [abilityPath_ne_bab]
  rw [hn]
  rfl

/-- C11 (counterexample): for a spell with attack ability `str` whose
spellbook the actor does not have, with `abilities.str.mod = 3`,
`attributes.bab.total = 5`, every other modifier zero or empty and no options,
`rollAttack` throws on the read of the spellbook and builds no formula. -/
theorem rollAttack_spell_without_spellbook :
    straySpell.abilityAttack = "str" ∧ straySpell.attackBonus = "" ∧
      straySpell.proficient = true ∧ straySpell.masterwork = false ∧
      strikeRollData.ability "str" = some (JsNum.num 3) ∧
      strikeRollData.babTotal = JsNum.num 5 ∧
      (rollAttack noSizeMod zeroRoll straySpell strikeRollData {}).isNone = true := by
  decide

/-- C11 (amended): for every item whose attack ability is `str` (for a spell:
one whose spellbook the actor has), with `abilities.str.mod = 3` and
`attributes.bab.total = 5`, size bonus 0, an empty item attack bonus, general,
melee and ranged attack bonus 0, no enhancement, no energy drain, proficient,
not masterwork, and no options, `rollAttack` builds exactly the formula
`1d20+@abilities.str.mod+@attributes.bab.total`, and the evaluation of that
formula against the roll data handed to the roll, with the forced die draw `d`
(a face of the d20), has the total `d + 3 + 5`. -/
theorem rollAttack_strike_total (sizeMods : String → JsNum)
    (evalRoll : String → RollData → Option Int) (item : RollItem) (rollData : RollData)
    (d : Nat)
    (habl : item.abilityAttack = "str")
    (hspell : item.type = "spell" → item.spellbookCl ≠ none)
    (hmod : rollData.ability "str" = some (JsNum.num 3))
    (hbab : rollData.babTotal = JsNum.num 5)
    (hsize : sizeMods rollData.traitsSize = JsNum.num 0)
    (hbonus : item.attackBonus = "")
    (hgen : rollData.attackGeneral = JsNum.num 0)
    (hmelee : rollData.attackMelee = JsNum.num 0)
    (hranged : rollData.attackRanged = JsNum.num 0)
    (henh : rollData.itemEnh = JsNum.num 0 ∨ rollData.itemEnh.notNullish = false)
    (hdrain : rollData.energyDrain = JsNum.num 0 ∨ rollData.energyDrain.notNullish = false)
    (hprof : item.proficient = true) (hmw : item.masterwork = false)
    (h1 : 1 ≤ d) (h20 : d ≤ 20) :
    ∃ req, rollAttack sizeMods evalRoll item rollData {} = some req ∧
      req.formula = "1d20+@abilities.str.mod+@attributes.bab.total" ∧
      evaluate req.formula req.data.binding [d] = some ((d : ℚ) + 3 + 5) := by
  obtain ⟨rd0, hcl⟩ := addCasterLevel_total item rollData hspell
  have hab : ∀ s, addAttackBonus evalRoll item s = some s := by
    intro s
    unfold addAttackBonus
    rw [if_neg (by simp [hbonus])]
  have hst : ∃ st, rollAttackParts sizeMods evalRoll item rollData {} = some st := by
    unfold rollAttackParts
    simp only [bind, Option.bind, pure, hcl, hab]
    exact ⟨_, rfl⟩
  obtain ⟨st, hst⟩ := hst
  obtain ⟨hparts, habs, hb⟩ := rollAttackParts_eq sizeMods evalRoll item rollData {} st hst
  have hmodnz : abilityModNonZero rollData "str" = true := by
    unfold abilityModNonZero
    rw [hmod]
    rfl
  have henh' : ¬ (rollData.itemEnh.strictNeZero = true ∧ rollData.itemEnh.notNullish = true) := by
    rintro ⟨h2, h3⟩
    rcases henh with h | h
    · rw [h] at h2
      exact absurd h2 (by decide)
    · rw [h] at h3
      exact absurd h3 (by decide)
  have hdrain' : ¬ (rollData.energyDrain.notNullish = true ∧
      rollData.energyDrain.strictNeZero = true) := by
    rintro ⟨h3, h2⟩
    rcases hdrain with h | h
    · rw [h] at h2
      exact absurd h2 (by decide)
    · rw [h] at h3
      exact absurd h3 (by decide)
  have hlist : attackTermList sizeMods item rollData {} =
      ["@abilities.str.mod", "@attributes.bab.total"] := by
    unfold attackTermList
    rw [if_neg henh', if_neg hdrain']
    simp [habl, hmodnz, hsize, hbonus, hgen, hmelee, hranged, hbab, hprof, hmw,
      JsNum.strictNeZero, JsNum.notNullish, JsVal.notNullish]
  have hformula : "+".intercalate ("1d20" :: st.parts) =
      "1d20+@abilities.str.mod+@attributes.bab.total" := by
    rw [hparts, hlist]
    rfl
  have hb1 : st.data.binding "abilities.str.mod" = some ((3 : Int) : ℚ) := by
    have hm : st.data.ability "str" = some (JsNum.num 3) := by
      unfold RollData.ability at hmod ⊢
      rw [habs]
      exact hmod
    exact binding_ability st.data "str" _ hm
  have hb2 : st.data.binding "attributes.bab.total" = some ((5 : Int) : ℚ) := by
    rw [binding_bab, hb, hbab]
    rfl
  refine ⟨{ formula := "+".intercalate ("1d20" :: st.parts), data := st.data }, ?_, hformula, ?_⟩
  · unfold rollAttack
    rw [hst]
    rfl
  · show evaluate ("+".intercalate ("1d20" :: st.parts)) st.data.binding [d] = _
    rw [hformula]
    unfold evaluate
    rw [lex_strike_formula]
    simp only [Option.some_bind, substitute, hb1, hb2, Option.map_some',
      parseFormula_sum_of_three, evalExpr, takeDraws, h1, h20, and_self, ↓reduceIte]
    norm_num

/-- C11 (witness): the melee attack item with strength modifier 3 and base
attack bonus 5; the die draw 10 gives the total 18. -/
theorem rollAttack_strike_total_witness :
    ∃ req, rollAttack noSizeMod zeroRoll swordItem strikeRollData {} = some req ∧
      req.formula = "1d20+@abilities.str.mod+@attributes.bab.total" ∧
      evaluate req.formula req.data.binding [10] = some 18 := by
  obtain ⟨req, h1, h2, h3⟩ :=
    rollAttack_strike_total noSizeMod zeroRoll swordItem strikeRollData 10 rfl (by decide) rfl
      rfl rfl rfl rfl rfl rfl (Or.inl rfl) (Or.inl rfl) rfl rfl (by decide) (by decide)
  refine ⟨req, h1, h2, ?_⟩
  rw [h3]
  norm_num

end D35E
